import Mathlib

/-!
Verification development for the `sat_archiver` content scanner.

This file gives a shallow embedding of the scanner core
(`config.py`, `parsers.py`, `models.py`, `scanner.py`) and proves or refutes
the frozen specification claims about it.

Modelling conventions:

* Strings are Lean `String`s; all character-level work happens on `List Char`
  via `String.data`, with hand-rolled executable primitives, so that every
  definition evaluates inside the kernel.
* Each Python regular expression is embedded as an executable extractor
  returning `Option` of its capture groups, reproducing `re` semantics
  (anchored `match`, lazy/greedy captures, `.` not matching a newline,
  `$` also matching just before one trailing newline, ASCII reading of
  `\w` and `\s`).
* The filesystem is a finite tree (`FSTree`); directory listings are the
  model's entry lists, and `sorted(iterdir())` is insertion sort by the
  code-point order that Python uses on sibling paths.  Permission errors
  are not modelled: every directory is readable, which makes the
  `except PermissionError` branches of the source unreachable.
* Tree-recursive functions take an explicit `fuel : Nat` bound on the
  recursion depth.  The Python originals recurse on the finite tree without
  a bound; any fuel at least the tree height makes the embedding agree with
  them, and every theorem below is proved for all fuel values.
* `datetime.now()` (`today_str`) is passed in as an explicit parameter, and
  the SHA-256 based 8-hex-digit digest used by `generate_pseudo_shortcode`
  is a function parameter `sha8 : String → String`, since `hashlib` is an
  external pure primitive.
-/

/-! ## Character and string primitives -/

/-- ASCII decimal digit, the `\d` class of the source regexes. -/
def isDigitC (c : Char) : Bool := '0' ≤ c && c ≤ '9'

/-- ASCII reading of the `\w` regex class (letters, digits, underscore). -/
def isWordC (c : Char) : Bool := c.isAlpha || isDigitC c || c = '_'

/-- The `[\w.]` class used for handles. -/
def isWordDot (c : Char) : Bool := isWordC c || c = '.'

/-- Python regex whitespace class `\s` (ASCII part). -/
def isSpaceC (c : Char) : Bool :=
  c = ' ' || c = '\t' || c = '\n' || c = '\r' || c = '\x0b' || c = '\x0c'

/-- What the regex `.` matches: any character except a newline. -/
def isDotC (c : Char) : Bool := c ≠ '\n'

/-- Strip a literal pattern from the front of a character list. -/
def stripPfx : List Char → List Char → Option (List Char)
  | [], l => some l
  | _ :: _, [] => none
  | p :: ps, c :: cs => if p = c then stripPfx ps cs else none

/-- ASCII case-insensitive character equality (for `re.IGNORECASE`). -/
def charEqCI (a b : Char) : Bool :=
  a = b
  || (('A' ≤ a && a ≤ 'Z') && b.toNat = a.toNat + 32)
  || (('A' ≤ b && b ≤ 'Z') && a.toNat = b.toNat + 32)

/-- Case-insensitive `stripPfx`. -/
def stripPfxCI : List Char → List Char → Option (List Char)
  | [], l => some l
  | _ :: _, [] => none
  | p :: ps, c :: cs => if charEqCI p c then stripPfxCI ps cs else none

/-- `chrStarts p l` is true when `l` starts with the literal `p`. -/
def chrStarts (p l : List Char) : Bool := (stripPfx p l).isSome

/-- Embedding of `str.startswith`. -/
def strStartsWith (s pat : String) : Bool := chrStarts pat.data s.data

/-- Embedding of `str.endswith`. -/
def strEndsWith (s pat : String) : Bool :=
  chrStarts pat.data.reverse s.data.reverse

/-- Substring containment, the Python `needle in haystack` test. -/
def chrContains : List Char → List Char → Bool
  | _, [] => false
  | needle, l@(_ :: cs) => chrStarts needle l || chrContains needle cs

/-- `" - PAIRED" in folder.name` style membership test.  A `needle` that is
empty is found everywhere, matching Python. -/
def strContains (s needle : String) : Bool :=
  needle.data.isEmpty || chrContains needle.data s.data

/-- Code-point lexicographic order on character lists; this is how Python
compares the names of sibling `Path`s inside `sorted(...)`. -/
def chrLt : List Char → List Char → Bool
  | [], [] => false
  | [], _ :: _ => true
  | _ :: _, [] => false
  | a :: as, b :: bs => a < b || (a = b && chrLt as bs)

/-- `a ≤ b` for the sort comparator. -/
def strLeB (a b : String) : Bool := !(chrLt b.data a.data)

/-- Insertion into a sorted list, stable for the given comparator. -/
def insertLe (le : α → α → Bool) (x : α) : List α → List α
  | [] => [x]
  | y :: ys => if le x y then x :: y :: ys else y :: insertLe le x ys

/-- Stable insertion sort, the model of Python `sorted`. -/
def isortBy (le : α → α → Bool) : List α → List α
  | [] => []
  | x :: xs => insertLe le x (isortBy le xs)

/-- Python `$` in `re.match` accepts the true end of the string or a position
just before one final newline; patterns below first peel that optional
trailing newline off and then anchor exactly. -/
def stripNl (l : List Char) : List Char :=
  match l.reverse with
  | '\n' :: rest => rest.reverse
  | _ => l

/-- Exactly `n` characters of class `p`, returning them and the rest. -/
def takeClass (p : Char → Bool) : Nat → List Char → Option (List Char × List Char)
  | 0, l => some ([], l)
  | _ + 1, [] => none
  | n + 1, c :: cs =>
      if p c then
        match takeClass p n cs with
        | some (t, r) => some (c :: t, r)
        | none => none
      else none

/-- The `\d{4}-\d{2}-\d{2}` calendar-date shape, returning the ten matched
characters and the remainder. -/
def takeDate10 (l : List Char) : Option (List Char × List Char) :=
  match takeClass isDigitC 4 l with
  | none => none
  | some (y, r1) =>
    match r1 with
    | '-' :: r2 =>
      match takeClass isDigitC 2 r2 with
      | none => none
      | some (m, r3) =>
        match r3 with
        | '-' :: r4 =>
          match takeClass isDigitC 2 r4 with
          | none => none
          | some (d, r5) => some (y ++ '-' :: m ++ '-' :: d, r5)
        | _ => none
    | _ => none

/-- A `\b` word boundary coming after a word character: the next character
must not be a word character (or the string ends). -/
def boundOk : List Char → Bool
  | [] => true
  | c :: _ => !isWordC c

/-- The tail `\s+-\s+PAIRED` anchored at the very end. -/
def pairedTail (l : List Char) : Bool :=
  let sp1 := l.takeWhile isSpaceC
  let r1 := l.drop sp1.length
  if sp1.isEmpty then false
  else
    match r1 with
    | '-' :: r2 =>
      let sp2 := r2.takeWhile isSpaceC
      let r3 := r2.drop sp2.length
      if sp2.isEmpty then false else r3 = ['P', 'A', 'I', 'R', 'E', 'D']
    | _ => false

/-! ## Regex-equivalent extractors (`config.py` patterns)

Each extractor reproduces the anchored `re.match` semantics of one pattern,
including lazy (`+?`) versus greedy (`+`) capture behaviour. -/

/-- Peel a literal suffix, returning what precedes it. -/
def endsWithLit (lit l : List Char) : Option (List Char) :=
  if chrStarts lit.reverse l.reverse then some (l.take (l.length - lit.length))
  else none

/-- The twelve possible literal endings of `STORY_FILE_RE`,
`_(raw|screencapture|screenshot)\.(mp4|jpg|jpeg|png)$`, in alternation
order.  At most one of them can be a suffix of a given name, so the ending
of a story filename is uniquely determined. -/
def storyCombos : List (String × String) :=
  [("raw", "mp4"), ("raw", "jpg"), ("raw", "jpeg"), ("raw", "png"),
   ("screencapture", "mp4"), ("screencapture", "jpg"),
   ("screencapture", "jpeg"), ("screencapture", "png"),
   ("screenshot", "mp4"), ("screenshot", "jpg"),
   ("screenshot", "jpeg"), ("screenshot", "png")]

def findStoryEnding (l : List Char) : List (String × String) → Option (String × String × List Char)
  | [] => none
  | (suf, ext) :: rest =>
    match endsWithLit ("_" ++ suf ++ "." ++ ext).data l with
    | some core => some (suf, ext, core)
    | none => findStoryEnding l rest

/-- Try to match `_story_(\d{8})_(\d{6})_(\d{2})_(.+)` at one split point of
the core of a story filename; `pre` is the candidate first capture. -/
def tryStoryAt (pre rest : List Char) :
    Option (List Char × List Char × List Char × List Char × List Char) :=
  match stripPfx "_story_".data rest with
  | none => none
  | some r1 =>
    match takeClass isDigitC 8 r1 with
    | some (d8, '_' :: r2) =>
      match takeClass isDigitC 6 r2 with
      | some (t6, '_' :: r3) =>
        match takeClass isDigitC 2 r3 with
        | some (s2, '_' :: sc) =>
          if !pre.isEmpty && pre.all isDotC && !sc.isEmpty && sc.all isDotC then
            some (pre, d8, t6, s2, sc)
          else none
        | _ => none
      | _ => none
    | _ => none

/-- Scan all split points left to right, keeping the p success: the
greedy `(.+)` first capture takes the rightmost `_story_` occurrence whose
continuation matches. -/
def lastStorySplit : List Char → List Char →
    Option (List Char × List Char × List Char × List Char × List Char) →
    Option (List Char × List Char × List Char × List Char × List Char)
  | pre, [], best =>
    match tryStoryAt pre [] with
    | some r => some r
    | none => best
  | pre, c :: cs, best =>
    lastStorySplit (pre ++ [c]) cs
      (match tryStoryAt pre (c :: cs) with
       | some r => some r
       | none => best)

/-- `STORY_FILE_RE`: capture groups
(prefix, date, time, seq, shortcode, suffix, ext). -/
def story_file_extract (s : String) :
    Option (String × String × String × String × String × String × String) :=
  let l := stripNl s.data
  match findStoryEnding l storyCombos with
  | none => none
  | some (suf, ext, core) =>
    match lastStorySplit [] core none with
    | none => none
    | some (pre, d8, t6, s2, sc) => some (⟨pre⟩, ⟨d8⟩, ⟨t6⟩, ⟨s2⟩, ⟨sc⟩, suf, ext)

def story_file_matches (s : String) : Bool := (story_file_extract s).isSome

/-- The lazy third capture of `POST_FOLDER_RE`: shortest non-empty run of
`.` characters after which the name ends, possibly via `\s+-\s+PAIRED`. -/
def postShort (acc rest : List Char) : Option (List Char) :=
  if !acc.isEmpty && (rest.isEmpty || pairedTail rest) then some acc
  else
    match rest with
    | [] => none
    | c :: cs => if isDotC c then postShort (acc ++ [c]) cs else none

def tryPostAt (pre rest : List Char) : Option (List Char × List Char × List Char) :=
  match stripPfx "_IG_POST_".data rest with
  | none => none
  | some r1 =>
    match takeClass isDigitC 8 r1 with
    | some (d8, '_' :: r2) =>
      if !pre.isEmpty && pre.all isDotC then
        match postShort [] r2 with
        | some sc => some (pre, d8, sc)
        | none => none
      else none
    | _ => none

/-- The lazy first capture of `POST_FOLDER_RE` stops at the leftmost
`_IG_POST_` occurrence whose continuation matches. -/
def firstPostSplit : List Char → List Char → Option (List Char × List Char × List Char)
  | pre, [] => tryPostAt pre []
  | pre, c :: cs =>
    match tryPostAt pre (c :: cs) with
    | some r => some r
    | none => firstPostSplit (pre ++ [c]) cs

/-- `POST_FOLDER_RE`: capture groups (username, date, shortcode). -/
def post_folder_extract (s : String) : Option (String × String × String) :=
  match firstPostSplit [] (stripNl s.data) with
  | some (u, d, sc) => some (⟨u⟩, ⟨d⟩, ⟨sc⟩)
  | none => none

def post_folder_matches (s : String) : Bool := (post_folder_extract s).isSome

/-- Lazy middle capture followed by a literal separator and a final
`[\w.]+$` capture, shared by the profile / named-story / reshare shapes. -/
def lazySepHandle (sep : List Char) (acc rest : List Char) :
    Option (List Char × List Char) :=
  match
    (if acc.isEmpty then none
     else
       match stripPfx sep rest with
       | some h => if !h.isEmpty && h.all isWordDot then some (acc, h) else none
       | none => none) with
  | some r => some r
  | none =>
    match rest with
    | [] => none
    | c :: cs => if isDotC c then lazySepHandle sep (acc ++ [c]) cs else none

/-- `PROFILE_FOLDER_RE`: capture groups (date, name, handle). -/
def profile_folder_extract (s : String) : Option (String × String × String) :=
  match stripPfx "IG Profile - ".data (stripNl s.data) with
  | none => none
  | some r1 =>
    match takeDate10 r1 with
    | none => none
    | some (d, r2) =>
      match stripPfx " - ".data r2 with
      | none => none
      | some r3 =>
        match lazySepHandle " - @".data [] r3 with
        | some (nm, h) => some (⟨d⟩, ⟨nm⟩, ⟨h⟩)
        | none => none

def profile_folder_matches (s : String) : Bool := (profile_folder_extract s).isSome

/-- `NAMED_STORY_FOLDER_RE`: capture groups (date, name, handle). -/
def named_story_extract (s : String) : Option (String × String × String) :=
  match stripPfx "IG Stories - ".data (stripNl s.data) with
  | none => none
  | some r1 =>
    match takeDate10 r1 with
    | none => none
    | some (d, r2) =>
      match stripPfx " - ".data r2 with
      | none => none
      | some r3 =>
        match lazySepHandle " - ".data [] r3 with
        | some (nm, h) => some (⟨d⟩, ⟨nm⟩, ⟨h⟩)
        | none => none

def named_story_matches (s : String) : Bool := (named_story_extract s).isSome

/-- `RESHARE_FOLDER_RE`: capture groups (date, name, handle). -/
def reshare_folder_extract (s : String) : Option (String × String × String) :=
  match stripPfx "IG Reshare - ".data (stripNl s.data) with
  | none => none
  | some r1 =>
    match takeDate10 r1 with
    | none => none
    | some (d, r2) =>
      match stripPfx " - ".data r2 with
      | none => none
      | some r3 =>
        match lazySepHandle " - ".data [] r3 with
        | some (nm, h) => some (⟨d⟩, ⟨nm⟩, ⟨h⟩)
        | none => none

def reshare_folder_matches (s : String) : Bool := (reshare_folder_extract s).isSome

/-- `@([\w.]+)$` reached through a lazy gap, for `STORIES_TXT_FOLDER_RE`. -/
def findAtHandle : List Char → Option (List Char)
  | [] => none
  | c :: cs =>
    if c = '@' && !cs.isEmpty && cs.all isWordDot then some cs
    else if isDotC c then findAtHandle cs else none

/-- `[\w.]+(?:\s+-\s+PAIRED)?$` at a fixed position: the handle is the
maximal word run, after which the name must end, possibly via the
PAIRED tail. -/
def commentTailAt (l : List Char) : Option (List Char) :=
  let w := l.takeWhile isWordDot
  let r := l.drop w.length
  if !w.isEmpty && (r.isEmpty || pairedTail r) then some w else none

/-- `- @` reached through a lazy gap, for `COMMENT_FOLDER_RE`. -/
def findDashAt : List Char → Option (List Char)
  | [] => none
  | c :: cs =>
    match
      (match stripPfx "- @".data (c :: cs) with
       | some t => commentTailAt t
       | none => none) with
    | some h => some h
    | none => if isDotC c then findDashAt cs else none

/-- Lazy `.*?(\d{4}-\d{2}-\d{2})` followed by a continuation matcher: the
earliest date occurrence whose continuation completes wins. -/
def lazyDateThen (cont : List Char → Option (List Char)) :
    List Char → Option (List Char × List Char)
  | [] => none
  | c :: cs =>
    match takeDate10 (c :: cs) with
    | some (d, r) =>
      match cont r with
      | some h => some (d, h)
      | none => if isDotC c then lazyDateThen cont cs else none
    | none => if isDotC c then lazyDateThen cont cs else none

/-- `COMMENT_FOLDER_RE`: capture groups (date, handle). -/
def comment_folder_extract (s : String) : Option (String × String) :=
  match stripPfx "IG Regular Comment".data (stripNl s.data) with
  | none => none
  | some r =>
    if boundOk r then
      match lazyDateThen findDashAt r with
      | some (d, h) => some (⟨d⟩, ⟨h⟩)
      | none => none
    else none

def comment_folder_matches (s : String) : Bool := (comment_folder_extract s).isSome

/-- `STORIES_TXT_FOLDER_RE`: capture groups (date, handle). -/
def stories_txt_extract (s : String) : Option (String × String) :=
  match stripPfx "IG Stories TXT".data (stripNl s.data) with
  | none => none
  | some r =>
    if boundOk r then
      match lazyDateThen findAtHandle r with
      | some (d, h) => some (⟨d⟩, ⟨h⟩)
      | none => none
    else none

def stories_txt_matches (s : String) : Bool := (stories_txt_extract s).isSome

/-- `\.MP4$` case-insensitively, consuming the whole remainder. -/
def veDotMp4 (l : List Char) : Bool :=
  match stripPfxCI ".MP4".data l with
  | some [] => true
  | _ => false

/-- The optional ` - N` tail of `VE_FILE_RE`: `\s+-\s+\d+\.MP4$`. -/
def veNumTail (l : List Char) : Bool :=
  let sp1 := l.takeWhile isSpaceC
  let r1 := l.drop sp1.length
  if sp1.isEmpty then false
  else
    match r1 with
    | '-' :: r2 =>
      let sp2 := r2.takeWhile isSpaceC
      let r3 := r2.drop sp2.length
      if sp2.isEmpty then false
      else
        let ds := r3.takeWhile isDigitC
        if ds.isEmpty then false else veDotMp4 (r3.drop ds.length)
    | _ => false

/-- The lazy `([\w.]+?)` third capture of `VE_FILE_RE`. -/
def veTail (acc rest : List Char) : Option (List Char) :=
  if !acc.isEmpty && (veNumTail rest || veDotMp4 rest) then some acc
  else
    match rest with
    | [] => none
    | c :: cs => if isWordDot c then veTail (acc ++ [c]) cs else none

/-- The lazy second capture of `VE_FILE_RE`. -/
def veG2 (acc rest : List Char) : Option (List Char × List Char) :=
  match
    (if acc.isEmpty then none
     else
       match stripPfx " - ".data rest with
       | some r =>
         match veTail [] r with
         | some h => some (acc, h)
         | none => none
       | none => none) with
  | some p => some p
  | none =>
    match rest with
    | [] => none
    | c :: cs => if isDotC c then veG2 (acc ++ [c]) cs else none

/-- The lazy first capture of `VE_FILE_RE`. -/
def veG1 (acc rest : List Char) : Option (List Char × List Char × List Char) :=
  match
    (if acc.isEmpty then none
     else
       match stripPfx " - ".data rest with
       | some r =>
         match veG2 [] r with
         | some (b, h) => some (acc, b, h)
         | none => none
       | none => none) with
  | some p => some p
  | none =>
    match rest with
    | [] => none
    | c :: cs => if isDotC c then veG1 (acc ++ [c]) cs else none

/-- `VE_FILE_RE` (case-insensitive): capture groups (dates, name, handle). -/
def ve_file_extract (s : String) : Option (String × String × String) :=
  match stripPfxCI "IG VE - ".data (stripNl s.data) with
  | none => none
  | some r =>
    match veG1 [] r with
    | some (d, nm, h) => some (⟨d⟩, ⟨nm⟩, ⟨h⟩)
    | none => none

def ve_file_matches (s : String) : Bool := (ve_file_extract s).isSome

/-- `PROFILE_FILE_RE`: `^([\w.]+)_profile_(\d{8})\.(png|jpg)$` has a
fixed-length ending, so (username, date, ext) is read off directly. -/
def profile_file_extract (s : String) : Option (String × String × String) :=
  let l := stripNl s.data
  let tryExt := fun (ext : String) =>
    match endsWithLit ("." ++ ext).data l with
    | none => none
    | some core =>
      let rev := core.reverse
      let d8r := rev.take 8
      if d8r.length = 8 && d8r.all isDigitC
          && chrStarts "_profile_".data.reverse (rev.drop 8) then
        let u := core.take (core.length - 17)
        if !u.isEmpty && u.all isWordDot then
          some ((⟨u⟩ : String), (⟨d8r.reverse⟩ : String), ext)
        else none
      else none
  match tryExt "png" with
  | some r => some r
  | none => tryExt "jpg"

def profile_file_matches (s : String) : Bool := (profile_file_extract s).isSome

/-- `WPAS_RE`: `^WPAS\s+(.+)$`, with the greedy `\s+` backing off just enough
to leave a non-empty dot-matchable capture. -/
def wpasDescend (r : List Char) : Nat → Option (List Char)
  | 0 => none
  | k + 1 =>
    let g := r.drop (k + 1)
    if !g.isEmpty && g.all isDotC then some g else wpasDescend r k

def wpas_extract (s : String) : Option String :=
  match stripPfx "WPAS".data (stripNl s.data) with
  | none => none
  | some r =>
    match wpasDescend r (r.takeWhile isSpaceC).length with
    | some g => some ⟨g⟩
    | none => none

/-- `SAT_CHECKS_RE`: `^SAT Checks - (.+?) - RTA$`. -/
def sat_checks_extract (s : String) : Option String :=
  match stripPfx "SAT Checks - ".data (stripNl s.data) with
  | none => none
  | some r =>
    match endsWithLit " - RTA".data r with
    | some g => if !g.isEmpty && g.all isDotC then some ⟨g⟩ else none
    | none => none

/-- `COLLAB_FOLDER_RE` via `re.search`: the leftmost `_collab_` occurrence
whose tail is a non-empty `[\w.]`/underscore run reaching the end. -/
def collabSearch : List Char → Option (List Char)
  | [] => none
  | c :: cs =>
    match stripPfx "_collab_".data (c :: cs) with
    | some t => if !t.isEmpty && t.all isWordDot then some t else collabSearch cs
    | none => collabSearch cs

/-! ## `parsers.py` -/

/-- Split before/after the last space: `prefix.rsplit(" ", 1)`. -/
def breakAtSpace : List Char → Option (List Char × List Char)
  | [] => none
  | c :: cs =>
    if c = ' ' then some ([], cs)
    else
      match breakAtSpace cs with
      | some (a, b) => some (c :: a, b)
      | none => none

/-- `(before, after)` around the last space of `l`, if any. -/
def rsplitLastSpace (l : List Char) : Option (List Char × List Char) :=
  match breakAtSpace l.reverse with
  | some (revAfter, revBefore) => some (revBefore.reverse, revAfter.reverse)
  | none => none

/-- `extract_username_from_story_prefix` (the name is shortened here):
the last space-separated token of the prefix, or the whole prefix. -/
def extract_username_from_story_pfx (pfx : String) : String :=
  match rsplitLastSpace pfx.data with
  | some (_, after) => ⟨after⟩
  | none => pfx

/-- The dictionary produced by `parse_story_filename`. -/
structure StoryParsed where
  username : String
  full_name : String
  shortcode : String
  date_str : String
  time_str : String
  seq : String
  suffix : String
  ext : String
  raw_ext : String
deriving DecidableEq

/-- `parse_story_filename`. -/
def parse_story_filename (filename : String) : Option StoryParsed :=
  match story_file_extract filename with
  | none => none
  | some (pfx, d, t, sq, sc, suf, ext) =>
    let username := extract_username_from_story_pfx pfx
    let full_name :=
      match rsplitLastSpace pfx.data with
      | some (before, _) => (⟨before⟩ : String)
      | none => ""
    let raw_ext := if suf = "raw" then ext else ""
    some { username := username, full_name := full_name, shortcode := sc,
           date_str := d, time_str := t, seq := sq, suffix := suf,
           ext := ext, raw_ext := raw_ext }

/-- The dictionary produced by `parse_post_folder`. -/
structure PostParsed where
  username : String
  date_str : String
  shortcode : String
deriving DecidableEq

/-- `parse_post_folder`. -/
def parse_post_folder (folder_name : String) : Option PostParsed :=
  match post_folder_extract folder_name with
  | some (u, d, sc) => some { username := u, date_str := d, shortcode := sc }
  | none => none

/-- The (date, name, handle) dictionaries produced by the profile,
named-story, reshare and VE parsers. -/
structure TriParsed where
  date_str : String
  full_name : String
  handle : String
deriving DecidableEq

/-- `parse_profile_folder`. -/
def parse_profile_folder (folder_name : String) : Option TriParsed :=
  match profile_folder_extract folder_name with
  | some (d, nm, h) => some { date_str := d, full_name := nm, handle := h }
  | none => none

/-- The dictionary produced by `parse_comment_folder`. -/
structure CommentParsed where
  date_str : String
  handle : String
deriving DecidableEq

/-- `parse_comment_folder`. -/
def parse_comment_folder (folder_name : String) : Option CommentParsed :=
  match comment_folder_extract folder_name with
  | some (d, h) => some { date_str := d, handle := h }
  | none => none

/-- `parse_named_story_folder`: the named-story shape first, then the
IG Stories TXT shape with an empty display name. -/
def parse_named_story_folder (folder_name : String) : Option TriParsed :=
  match named_story_extract folder_name with
  | some (d, nm, h) => some { date_str := d, full_name := nm, handle := h }
  | none =>
    match stories_txt_extract folder_name with
    | some (d, h) => some { date_str := d, full_name := "", handle := h }
    | none => none

/-- `parse_reshare_folder`. -/
def parse_reshare_folder (folder_name : String) : Option TriParsed :=
  match reshare_folder_extract folder_name with
  | some (d, nm, h) => some { date_str := d, full_name := nm, handle := h }
  | none => none

/-- `parse_ve_file`. -/
def parse_ve_file (filename : String) : Option TriParsed :=
  match ve_file_extract filename with
  | some (d, nm, h) => some { date_str := d, full_name := nm, handle := h }
  | none => none

/-- The dictionary produced by `parse_profile_file` (the extension capture
is dropped by the source). -/
structure PFParsed where
  username : String
  date_str : String
deriving DecidableEq

/-- `parse_profile_file`. -/
def parse_profile_file (filename : String) : Option PFParsed :=
  match profile_file_extract filename with
  | some (u, d, _) => some { username := u, date_str := d }
  | none => none

/-- `generate_pseudo_shortcode`; `sha8` stands for
`hashlib.sha256(name.encode()).hexdigest()[:8]`, an external pure digest. -/
def generate_pseudo_shortcode (sha8 : String → String)
    (handle date_str folder_name : String) : String :=
  "NOID_" ++ handle ++ "_" ++ date_str ++ "_" ++ sha8 folder_name

/-- `format_date`: `YYYYMMDD` (ASCII digits, the `str.isdigit` test read over
ASCII) becomes `YYYY-MM-DD`; anything else passes through. -/
def format_date (date_str : String) : String :=
  let l := date_str.data
  if l.length = 8 && l.all isDigitC then
    ⟨l.take 4 ++ '-' :: (l.drop 4).take 2 ++ '-' :: (l.drop 6).take 2⟩
  else date_str

/-! ## Companion metadata documents (`parse_metadata_json`)

A JSON value read by `json.load`.  Field values inside a top-level object
are modelled at the four shapes the scanner consumes (string, integer,
boolean, list of strings); array elements are never traversed by the
scanner, so only an array's presence is modelled. -/

/-- A JSON field value as consumed by the scanner. -/
inductive FieldVal : Type where
  | fstr : String → FieldVal
  | fint : Int → FieldVal
  | fbool : Bool → FieldVal
  | flist : List String → FieldVal
deriving DecidableEq

/-- Python truthiness of a field value. -/
def FieldVal.truthy : FieldVal → Bool
  | .fstr s => !s.data.isEmpty
  | .fint z => z ≠ 0
  | .fbool b => b
  | .flist xs => !xs.isEmpty

/-- Decimal digits of a natural number (fuelled; `n + 1` is always enough). -/
def natDigits : Nat → Nat → List Char
  | 0, _ => []
  | fu + 1, n =>
    let d : Char :=
      match n % 10 with
      | 0 => '0' | 1 => '1' | 2 => '2' | 3 => '3' | 4 => '4'
      | 5 => '5' | 6 => '6' | 7 => '7' | 8 => '8' | _ => '9'
    if n < 10 then [d] else natDigits fu (n / 10) ++ [d]

/-- Python `str` of a natural number. -/
def pyStrNat (n : Nat) : String := ⟨natDigits (n + 1) n⟩

/-- Python `str` of an integer. -/
def pyStrInt (z : Int) : String :=
  if z < 0 then "-" ++ pyStrNat (-z).toNat else pyStrNat z.toNat

/-- `", ".join`-style concatenation. -/
def joinSep (sep : String) : List String → String
  | [] => ""
  | [x] => x
  | x :: y :: r => x ++ sep ++ joinSep sep (y :: r)

/-- Python `str` rendering of a field value.  Only string values reach this
in well-typed documents; the other shapes mirror `str(...)` of the
corresponding Python objects and are not exercised by any claim. -/
def pyStr : FieldVal → String
  | .fstr s => s
  | .fint z => pyStrInt z
  | .fbool b => if b then "True" else "False"
  | .flist [] => "[]"
  | .flist (x :: r) => "['" ++ joinSep "', '" (x :: r) ++ "']"

/-- A JSON value; only a top-level object carries usable fields. -/
inductive JVal : Type where
  | jobj : List (String × FieldVal) → JVal
  | jarr : Nat → JVal
  | jstr : String → JVal
  | jnum : Int → JVal
  | jbool : Bool → JVal
  | jnull : JVal
deriving DecidableEq

/-- What opening and reading a file as JSON can produce. -/
inductive FileBody : Type where
  | media : FileBody
  | jsonDoc : JVal → FileBody
  | badJson : FileBody
  | unreadable : FileBody
deriving DecidableEq

/-- The one uncaught exception the scanner core can raise. -/
inductive PErr : Type where
  | attributeError : PErr
deriving DecidableEq

/-- `dict.get(k, default)` over a JSON object; later duplicate keys win,
as in `json.load`. -/
def fieldGet (fs : List (String × FieldVal)) (k : String) (d : FieldVal) : FieldVal :=
  fs.foldl (fun acc p => if p.1 = k then p.2 else acc) d

/-- The twelve-key dictionary built by a successful `parse_metadata_json`. -/
structure Metadata where
  username : FieldVal
  full_name : FieldVal
  shortcode : FieldVal
  caption : FieldVal
  like_count : FieldVal
  comment_count : FieldVal
  posted_at : FieldVal
  media_type : FieldVal
  is_video : FieldVal
  post_url : FieldVal
  post_type : FieldVal
  collaborators : FieldVal
deriving DecidableEq

/-- `parse_metadata_json`.  `OSError` (unreadable) and `json.JSONDecodeError`
(not JSON — which is also what reading a media file produces) are caught and
give the empty dictionary, modelled as `none`.  A JSON document whose top
level is not an object reaches `data.get` and raises `AttributeError`,
which nothing catches. -/
def parse_metadata_json (body : FileBody) : Except PErr (Option Metadata) :=
  match body with
  | .unreadable => .ok none
  | .badJson => .ok none
  | .media => .ok none
  | .jsonDoc (.jobj fs) =>
    .ok (some
      { username := fieldGet fs "username" (.fstr "")
        full_name := fieldGet fs "full_name" (.fstr "")
        shortcode := fieldGet fs "shortcode" (.fstr "")
        caption := fieldGet fs "caption" (.fstr "")
        like_count := fieldGet fs "like_count" (.fint 0)
        comment_count := fieldGet fs "comment_count" (.fint 0)
        posted_at := fieldGet fs "posted_at" (.fstr "")
        media_type := fieldGet fs "media_type" (.fstr "")
        is_video := fieldGet fs "is_video" (.fbool false)
        post_url := fieldGet fs "post_url" (.fstr "")
        post_type := fieldGet fs "post_type" (.fstr "")
        collaborators := fieldGet fs "collaborators" (.flist []) })
  | .jsonDoc _ => .error .attributeError

/-- Replace each underscore by `", "`, as in `raw.replace("_", ", ")`. -/
def replUnderscore : List Char → List Char
  | [] => []
  | '_' :: r => ',' :: ' ' :: replUnderscore r
  | c :: r => c :: replUnderscore r

/-- `extract_collaborators`: the metadata `collaborators` field when truthy,
else the `_collab_` folder-name convention, else empty. -/
def extract_collaborators (folder_name : String) (metadata : Option Metadata) : String :=
  match metadata with
  | some md =>
    if md.collaborators.truthy then
      match md.collaborators with
      | .flist xs => joinSep ", " xs
      | other => pyStr other
    else
      match collabSearch folder_name.data with
      | some raw => ⟨replUnderscore raw⟩
      | none => ""
  | none =>
    match collabSearch folder_name.data with
    | some raw => ⟨replUnderscore raw⟩
    | none => ""

/-! ## `config.py` tables and `models.py` -/

/-- `STORY_CATEGORY_TO_COLUMN.get(category, "")`. -/
def story_category_to_column : String → String
  | "Books" => "books"
  | "Conditions" => "conditions"
  | "Emotional Support" => "emotional_support"
  | "Fear" => "fear"
  | "Food" => "food"
  | "Healing Stories" => "healing_stories"
  | "Healing Tools" => "healing_tools"
  | "Healing Tools More" => "healing_tools_more"
  | "History" => "history"
  | "Miscellaneous" => "miscellaneous"
  | "MM Science" => "mm_science"
  | "Other" => "other"
  | "PW Trends" => "pw_trends"
  | "Resources" => "resources"
  | "Supporting" => "supporting"
  | _ => ""

/-- `MO_PATH_TO_COLUMN.get(mo_type, "")`. -/
def mo_path_to_column : String → String
  | "PW" => "mo_pw"
  | "RPT" => "mo_rpt"
  | "SI" => "mo_si"
  | "TS" => "mo_ts"
  | "WTS" => "mo_wts"
  | _ => ""

/-- `SHEET_HEADERS`, columns A-AK. -/
def SHEET_HEADERS : List String :=
  ["Timestamp", "Shortcode", "Real Name", "Username", "Post Type",
   "Downloader", "Post Date", "Collaborators", "Manual Notes", "DB Link",
   "Paired Content", "Stories Reshare Links", "Primary Beginning Tags",
   "Secondary Beginning Tags", "General Triggers", "Sheet Categories",
   "Books", "Conditions", "Emotional Support", "Fear", "Food",
   "Healing Stories", "Healing Tools", "Healing Tools More", "History",
   "Miscellaneous", "MM Science", "Other", "PW Trends", "Resources",
   "Supporting", "MO-Publication", "MO-PW", "MO-RPT", "MO-SI", "MO-TS",
   "MO-WTS"]

/-- An absolute path, as its list of components. -/
abbrev PathT := List String

/-- `str(path)`. -/
def pathStr (p : PathT) : String := joinSep "/" p

/-- `ARCHIVE_ROOT = Path.home() / "Downloads" / "Instagram Archive"`;
`Path.home()` is modelled as a fixed home directory. -/
def ARCHIVE_ROOT : PathT := ["HOME", "Downloads", "Instagram Archive"]

/-- `models.ContentItem`: the 37 sheet columns plus the internal fields. -/
structure ContentItem where
  timestamp : String := ""
  shortcode : String := ""
  real_name : String := ""
  username : String := ""
  post_type : String := ""
  downloader : String := ""
  post_date : String := ""
  collaborators : String := ""
  manual_notes : String := ""
  db_link : String := ""
  paired_content : String := ""
  stories_reshare_links : String := ""
  primary_beginning_tags : String := ""
  secondary_beginning_tags : String := ""
  general_triggers : String := ""
  sheet_categories : String := ""
  books : String := ""
  conditions : String := ""
  emotional_support : String := ""
  fear : String := ""
  food : String := ""
  healing_stories : String := ""
  healing_tools : String := ""
  healing_tools_more : String := ""
  history : String := ""
  miscellaneous : String := ""
  mm_science : String := ""
  other : String := ""
  pw_trends : String := ""
  resources : String := ""
  supporting : String := ""
  mo_publication : String := ""
  mo_pw : String := ""
  mo_rpt : String := ""
  mo_si : String := ""
  mo_ts : String := ""
  mo_wts : String := ""
  source_path : Option PathT := none
  source_files : List PathT := []
  is_folder_item : Bool := false
  has_metadata_json : Bool := false
  folder_type : String := ""
  content_section : String := ""
  batch : String := ""
  wpas_code : String := ""
  destination_path : String := ""
  resharer_username : String := ""
  resharer_name : String := ""
deriving DecidableEq

/-- `ContentItem.target_tab`. -/
def ContentItem.target_tab (i : ContentItem) : String :=
  if i.content_section = "stories" then "Stories" else "P&V Manual Backup"

/-- `ContentItem.to_row`: the 37-element sheet row. -/
def ContentItem.to_row (i : ContentItem) : List String :=
  [i.timestamp, i.shortcode, i.real_name, i.username, i.post_type,
   i.downloader, i.post_date, i.collaborators, i.manual_notes, i.db_link,
   i.paired_content, i.stories_reshare_links, i.primary_beginning_tags,
   i.secondary_beginning_tags, i.general_triggers, i.sheet_categories,
   i.books, i.conditions, i.emotional_support, i.fear, i.food,
   i.healing_stories, i.healing_tools, i.healing_tools_more, i.history,
   i.miscellaneous, i.mm_science, i.other, i.pw_trends, i.resources,
   i.supporting, i.mo_publication, i.mo_pw, i.mo_rpt, i.mo_si, i.mo_ts,
   i.mo_wts]

/-- `setattr(item, col, val)` for the column names that the two lookup
tables can produce (the only names that ever reach a dynamic `setattr` in
the scanner); `none` models `hasattr(item, col) == False`. -/
def setFieldByName (i : ContentItem) (col val : String) : Option ContentItem :=
  match col with
  | "books" => some { i with books := val }
  | "conditions" => some { i with conditions := val }
  | "emotional_support" => some { i with emotional_support := val }
  | "fear" => some { i with fear := val }
  | "food" => some { i with food := val }
  | "healing_stories" => some { i with healing_stories := val }
  | "healing_tools" => some { i with healing_tools := val }
  | "healing_tools_more" => some { i with healing_tools_more := val }
  | "history" => some { i with history := val }
  | "miscellaneous" => some { i with miscellaneous := val }
  | "mm_science" => some { i with mm_science := val }
  | "other" => some { i with other := val }
  | "pw_trends" => some { i with pw_trends := val }
  | "resources" => some { i with resources := val }
  | "supporting" => some { i with supporting := val }
  | "mo_pw" => some { i with mo_pw := val }
  | "mo_rpt" => some { i with mo_rpt := val }
  | "mo_si" => some { i with mo_si := val }
  | "mo_ts" => some { i with mo_ts := val }
  | "mo_wts" => some { i with mo_wts := val }
  | _ => none

/-- `setattr` guarded by `hasattr`: a miss leaves the item unchanged. -/
def setColIfAttr (i : ContentItem) (col val : String) : ContentItem :=
  match setFieldByName i col val with
  | some j => j
  | none => i

/-! ## Context dictionaries -/

/-- The mutable `ctx` dictionaries are modelled as insertion-ordered
association lists, so that Python dict truthiness (`if not group["ctx"]`)
is emptiness of the list. -/
abbrev Ctx := List (String × String)

/-- `ctx[k] = v`: update in place or append. -/
def ctxSet : Ctx → String → String → Ctx
  | [], k, v => [(k, v)]
  | (k0, v0) :: r, k, v =>
    if k0 = k then (k0, v) :: r else (k0, v0) :: ctxSet r k v

/-- `ctx.get(k, "")`. -/
def ctxGet : Ctx → String → String
  | [], _ => ""
  | (k0, v0) :: r, k => if k0 = k then v0 else ctxGet r k

/-- `parse_sat_daily_stories_context`: batch at position 0, category column
at position 1, WPAS code or raw value at position 2, and one optional
refinement from position 3 unless that name is content-shaped. -/
def parse_sat_daily_stories_context (rel_parts : List String) : Ctx :=
  let ctx0 : Ctx :=
    [("batch", ""), ("dropdown_column", ""), ("dropdown_value", ""), ("wpas_code", "")]
  match rel_parts with
  | [] => ctx0
  | p0 :: rest =>
    let c1 := ctxSet ctx0 "batch" p0
    match rest with
    | [] => c1
    | p1 :: rest2 =>
      let c2 := ctxSet c1 "dropdown_column" (story_category_to_column p1)
      match rest2 with
      | [] => c2
      | p2 :: rest3 =>
        let c3 :=
          match wpas_extract p2 with
          | some g => ctxSet (ctxSet c2 "wpas_code" g) "dropdown_value" g
          | none => ctxSet c2 "dropdown_value" p2
        match rest3 with
        | [] => c3
        | p3 :: _ =>
          let is_content_folder :=
            strStartsWith p3 "IG Stories" || strStartsWith p3 "IG Reshare"
            || strStartsWith p3 "IG Profile"
            || strStartsWith p3 "IG Regular Comment" || story_file_matches p3
          if is_content_folder then c3
          else ctxSet c3 "dropdown_value" (ctxGet c3 "dropdown_value" ++ " / " ++ p3)

/-! ## Filesystem model -/

/-- A finite directory tree: leaves are files with a body, inner nodes are
directories whose children appear in listing (`os.scandir`) order. -/
inductive FSTree : Type where
  | file : FileBody → FSTree
  | dir : List (String × FSTree) → FSTree

def FSTree.isDirB : FSTree → Bool
  | .dir _ => true
  | .file _ => false

def FSTree.isFileB : FSTree → Bool
  | .dir _ => false
  | .file _ => true

def dirEntries : FSTree → List (String × FSTree)
  | .dir es => es
  | .file _ => []

/-- `sorted(p.iterdir())`: Python compares sibling paths by their final
component, code point by code point. -/
def sortEnts (es : List (String × FSTree)) : List (String × FSTree) :=
  isortBy (fun a b => strLeB a.1 b.1) es

/-- Path lookup `t / nm` followed by `.is_dir()`. -/
def findEntry : List (String × FSTree) → String → Option FSTree
  | [], _ => none
  | (n, s) :: r, nm => if n = nm then some s else findEntry r nm

def findChildDir (t : FSTree) (nm : String) : Option FSTree :=
  match findEntry (dirEntries t) nm with
  | some sub => if sub.isDirB then some sub else none
  | none => none

/-- `folder.rglob("*")`: all files below a directory, in a depth-first
enumeration that lists each directory's own children before descending,
as `pathlib` does.  Each result is (containing directory, name, body).
`fuel` bounds the recursion depth. -/
def rglobAllF : Nat → PathT → FSTree → List (PathT × String × FileBody)
  | 0, _, _ => []
  | _ + 1, _, .file _ => []
  | fu + 1, base, .dir es =>
    let direct := es.filterMap fun e =>
      match e.2 with
      | .file b => some (base, e.1, b)
      | .dir _ => none
    let deeper := (es.map fun e =>
      match e.2 with
      | .dir _ => rglobAllF fu (base ++ [e.1]) e.2
      | .file _ => []).flatten
    direct ++ deeper

/-- `p.relative_to(root).parts`, `none` when `ValueError` is raised. -/
def isPfxOf : List String → List String → Bool
  | [], _ => true
  | _ :: _, [] => false
  | a :: as, b :: bs => a = b && isPfxOf as bs

def relPartsOf (root p : PathT) : Option (List String) :=
  if isPfxOf root p then some (p.drop root.length) else none

/-! ## Group accumulator (`_add_to_story_group` and helpers) -/

/-- One staging record of the `defaultdict` in the story scanners. -/
structure StoryGroup where
  files : List PathT := []
  username : String := ""
  full_name : String := ""
  shortcode : String := ""
  date_str : String := ""
  media_type : String := ""
  ctx : Ctx := []
  parent_dir : Option PathT := none
deriving DecidableEq

/-- The `story_groups` dictionary, insertion-ordered. -/
abbrev Groups := List (String × StoryGroup)

/-- `story_groups[shortcode]` with `defaultdict` semantics: update the
existing entry in place or append a freshly defaulted one. -/
def updStoryGroups : Groups → String → (StoryGroup → StoryGroup) → Groups
  | [], k, f => [(k, f {})]
  | (k0, g) :: r, k, f =>
    if k0 = k then (k0, f g) :: r else (k0, g) :: updStoryGroups r k f

/-- `_add_to_story_group`. -/
def addToStoryGroup (file_path : PathT) (parsed : StoryParsed) (root_dir : PathT)
    (gs : Groups) (mo_column mo_value resharer_username resharer_name : String) :
    Groups :=
  updStoryGroups gs parsed.shortcode fun g0 =>
    let g1 := { g0 with
      files := g0.files ++ [file_path]
      shortcode := parsed.shortcode
      username := parsed.username }
    let g2 := if parsed.full_name ≠ "" then { g1 with full_name := parsed.full_name } else g1
    let g3 := { g2 with date_str := parsed.date_str, parent_dir := some file_path.dropLast }
    let g4 :=
      if parsed.suffix = "raw" then
        if parsed.ext = "mp4" then { g3 with media_type := "Video" }
        else if parsed.ext = "jpg" || parsed.ext = "jpeg" || parsed.ext = "png" then
          { g3 with media_type := "Image" }
        else g3
      else g3
    let g5 :=
      if g4.ctx.isEmpty then
        { g4 with ctx :=
            match relPartsOf root_dir file_path.dropLast with
            | some parts => parse_sat_daily_stories_context parts
            | none => [] }
      else g4
    let g6 :=
      if mo_column ≠ "" then
        { g5 with ctx := ctxSet (ctxSet g5.ctx "mo_column" mo_column) "mo_value" mo_value }
      else g5
    if resharer_username ≠ "" then
      { g6 with ctx := ctxSet (ctxSet g6.ctx "resharer_username" resharer_username)
                              "resharer_name" resharer_name }
    else g6

/-- `_folder_contains_story_files`: direct children only. -/
def folderContainsStoryFiles (t : FSTree) : Bool :=
  (dirEntries t).any fun e =>
    match e.2 with
    | .file _ => story_file_matches e.1
    | .dir _ => false

/-- `_collect_story_files_from_dir`: every direct child file (hidden ones
included, as in the source) whose name parses as a story file is staged. -/
def collectStoryFiles (folderPath : PathT) (t : FSTree) (root_dir : PathT)
    (gs : Groups) (mo_column mo_value : String) : Groups :=
  (sortEnts (dirEntries t)).foldl
    (fun g e =>
      match e.2 with
      | .file _ =>
        match parse_story_filename e.1 with
        | some p => addToStoryGroup (folderPath ++ [e.1]) p root_dir g mo_column mo_value "" ""
        | none => g
      | .dir _ => g)
    gs

/-! ## Item builders (`_build_*_item`) -/

/-- `_build_post_item`.  The two `rglob` traversals of the source
(`*_metadata.json` and `*`) are both filters of one enumeration. -/
def buildPostItem (fuel : Nat) (parent : PathT) (name : String) (t : FSTree)
    (downloader archive_date folder_type content_section : String) :
    Except PErr (Option ContentItem) :=
  match parse_post_folder name with
  | none => .ok none
  | some parsed =>
    let folderPath := parent ++ [name]
    let allEntries := rglobAllF fuel folderPath t
    let metaFiles := allEntries.filter fun e => strEndsWith e.2.1 "_metadata.json"
    let metaRes : Except PErr (Option Metadata) :=
      match metaFiles with
      | [] => .ok none
      | mf :: _ => parse_metadata_json mf.2.2
    metaRes.bind fun m =>
      let has_meta := m.isSome
      let username :=
        match m with
        | some md => if md.username.truthy then pyStr md.username else parsed.username
        | none => parsed.username
      let shortcode :=
        match m with
        | some md => if md.shortcode.truthy then pyStr md.shortcode else parsed.shortcode
        | none => parsed.shortcode
      let dsv := match m with | some md => md.posted_at | none => FieldVal.fstr ""
      let date_str :=
        if dsv.truthy then (⟨(pyStr dsv).data.take 10⟩ : String)
        else format_date parsed.date_str
      let collabs := extract_collaborators name m
      let db_link :=
        match findChildDir t "media" with
        | some mt =>
          let mfs := isortBy (fun a b => strLeB a.1 b.1)
            ((dirEntries mt).filter fun e => e.2.isFileB && !(strStartsWith e.1 "."))
          match mfs with
          | [] => ""
          | f :: _ => pathStr (folderPath ++ ["media", f.1])
        | none => ""
      let dest := pathStr (ARCHIVE_ROOT ++ [username, name])
      let all_files := (allEntries.filter fun e => !(strStartsWith e.2.1 ".")).map
        fun e => e.1 ++ [e.2.1]
      let paired := strContains name " - PAIRED"
      .ok (some
        { timestamp := archive_date
          shortcode := shortcode
          real_name := (match m with | some md => pyStr md.full_name | none => "")
          username := username
          post_type := "Post"
          downloader := downloader
          post_date := date_str
          collaborators := collabs
          db_link := db_link
          paired_content := if paired then "Yes" else ""
          destination_path := dest
          source_path := some folderPath
          source_files := all_files
          is_folder_item := true
          has_metadata_json := has_meta
          folder_type := folder_type
          content_section := content_section })

/-- `_build_profile_item`. -/
def buildProfileItem (fuel : Nat) (parent : PathT) (name : String) (t : FSTree)
    (downloader archive_date folder_type content_section : String)
    (sha8 : String → String) : Option ContentItem :=
  match parse_profile_folder name with
  | none => none
  | some parsed =>
    let folderPath := parent ++ [name]
    let pseudo := generate_pseudo_shortcode sha8 parsed.handle parsed.date_str name
    let all_files := ((rglobAllF fuel folderPath t).filter
      fun e => !(strStartsWith e.2.1 ".")).map fun e => e.1 ++ [e.2.1]
    some
      { timestamp := archive_date
        shortcode := pseudo
        real_name := parsed.full_name
        username := parsed.handle
        post_type := "Profile"
        downloader := downloader
        post_date := parsed.date_str
        destination_path := pathStr (ARCHIVE_ROOT ++ [parsed.handle, name])
        source_path := some folderPath
        source_files := all_files
        is_folder_item := true
        folder_type := folder_type
        content_section := content_section }

/-- `_build_comment_thread_item`. -/
def buildCommentThreadItem (fuel : Nat) (parent : PathT) (name : String) (t : FSTree)
    (downloader archive_date folder_type content_section : String)
    (sha8 : String → String) : Option ContentItem :=
  match parse_comment_folder name with
  | none => none
  | some parsed =>
    let folderPath := parent ++ [name]
    let pseudo := generate_pseudo_shortcode sha8 parsed.handle parsed.date_str name
    let all_files := ((rglobAllF fuel folderPath t).filter
      fun e => !(strStartsWith e.2.1 ".")).map fun e => e.1 ++ [e.2.1]
    let paired := strContains name " - PAIRED"
    some
      { timestamp := archive_date
        shortcode := pseudo
        username := parsed.handle
        post_type := "Comment Thread"
        downloader := downloader
        post_date := parsed.date_str
        paired_content := if paired then "Yes" else ""
        destination_path := pathStr (ARCHIVE_ROOT ++ [parsed.handle, name])
        source_path := some folderPath
        source_files := all_files
        is_folder_item := true
        folder_type := folder_type
        content_section := content_section }

/-- `_build_named_story_item`. -/
def buildNamedStoryItem (fuel : Nat) (parent : PathT) (name : String) (t : FSTree)
    (downloader archive_date folder_type content_section : String)
    (sha8 : String → String) : Option ContentItem :=
  match parse_named_story_folder name with
  | none => none
  | some parsed =>
    let folderPath := parent ++ [name]
    let pseudo := generate_pseudo_shortcode sha8 parsed.handle parsed.date_str name
    let all_files := ((rglobAllF fuel folderPath t).filter
      fun e => !(strStartsWith e.2.1 ".")).map fun e => e.1 ++ [e.2.1]
    some
      { timestamp := archive_date
        shortcode := pseudo
        real_name := parsed.full_name
        username := parsed.handle
        post_type := "Story Collection"
        downloader := downloader
        post_date := parsed.date_str
        destination_path := pathStr (ARCHIVE_ROOT ++ [parsed.handle, name])
        source_path := some folderPath
        source_files := all_files
        is_folder_item := true
        folder_type := folder_type
        content_section := content_section }

/-! ## Stories tree walker (`_walk_stories_tree`) -/

/-- The accumulating state of one stories walk: the `items` list and the
`story_groups` dictionary that the Python code mutates in place. -/
structure WalkSt where
  items : List ContentItem := []
  groups : Groups := []
deriving DecidableEq

/-- Apply the path-derived stories context to a freshly built item, the
`try: rel = d.parent.relative_to(stories_root) ... except ValueError: pass`
block shared by the post and named-story branches. -/
def applyStoriesCtx (root cur : PathT) (item : ContentItem) : ContentItem :=
  match relPartsOf root cur with
  | none => item
  | some parts =>
    let ctx := parse_sat_daily_stories_context parts
    let item1 := { item with batch := ctxGet ctx "batch" }
    let col := ctxGet ctx "dropdown_column"
    let val := ctxGet ctx "dropdown_value"
    if col ≠ "" && val ≠ "" then setColIfAttr item1 col val else item1

/-- The body of the subdirectory loop of `_walk_stories_tree`, for one
directory entry.  `recFn` is the recursive descent used when no folder
shape matches. -/
def stepStoriesDir (fu : Nat) (root cur : PathT) (dl ad : String)
    (sha8 : String → String)
    (recFn : String → FSTree → WalkSt → Except PErr WalkSt)
    (nm : String) (sub : FSTree) (st : WalkSt) : Except PErr WalkSt :=
  if post_folder_matches nm then
    (buildPostItem fu cur nm sub dl ad "sat_daily" "stories").bind fun r =>
      match r with
      | some item => .ok { st with items := st.items ++ [applyStoriesCtx root cur item] }
      | none => .ok st
  else if profile_folder_matches nm then
    match buildProfileItem fu cur nm sub dl ad "sat_daily" "stories" sha8 with
    | some item => .ok { st with items := st.items ++ [item] }
    | none => .ok st
  else if comment_folder_matches nm then
    match buildCommentThreadItem fu cur nm sub dl ad "sat_daily" "stories" sha8 with
    | some item => .ok { st with items := st.items ++ [item] }
    | none => .ok st
  else if named_story_matches nm || stories_txt_matches nm then
    if folderContainsStoryFiles sub then
      .ok { st with groups := collectStoryFiles (cur ++ [nm]) sub root st.groups "" "" }
    else
      match buildNamedStoryItem fu cur nm sub dl ad "sat_daily" "stories" sha8 with
      | some item => .ok { st with items := st.items ++ [applyStoriesCtx root cur item] }
      | none => .ok st
  else recFn nm sub st

/-- The subdirectory loop of `_walk_stories_tree`. -/
def walkStoriesDirs (fu : Nat) (root cur : PathT) (dl ad : String)
    (sha8 : String → String)
    (recFn : String → FSTree → WalkSt → Except PErr WalkSt) :
    List (String × FSTree) → WalkSt → Except PErr WalkSt
  | [], st => .ok st
  | (nm, sub) :: rest, st =>
    (stepStoriesDir fu root cur dl ad sha8 recFn nm sub st).bind
      (walkStoriesDirs fu root cur dl ad sha8 recFn rest)

/-- The file loop of `_walk_stories_tree`: stage every story-shaped file. -/
def stageStoryFiles (cur root : PathT) (fls : List (String × FSTree)) (gs : Groups) :
    Groups :=
  fls.foldl
    (fun g e =>
      match parse_story_filename e.1 with
      | some p => addToStoryGroup (cur ++ [e.1]) p root g "" "" "" ""
      | none => g)
    gs

/-- `_walk_stories_tree`.  Entries are sorted, hidden names are skipped,
subdirectories are classified before the files of the same directory are
staged, and unmatched subdirectories are descended into. -/
def walkStoriesF : Nat → PathT → PathT → FSTree → String → String →
    (String → String) → WalkSt → Except PErr WalkSt
  | 0, _, _, _, _, _, _, st => .ok st
  | fu + 1, root, cur, t, dl, ad, sha8, st =>
    match t with
    | .file _ => .ok st
    | .dir entries =>
      let es := sortEnts entries
      let ds := es.filter fun e => !(strStartsWith e.1 ".") && e.2.isDirB
      let fls := es.filter fun e => !(strStartsWith e.1 ".") && e.2.isFileB
      (walkStoriesDirs fu root cur dl ad sha8
          (fun nm sub st0 => walkStoriesF fu root (cur ++ [nm]) sub dl ad sha8 st0)
          ds st).bind
        fun st1 => .ok { st1 with groups := stageStoryFiles cur root fls st1.groups }

/-! ## Section scanners -/

/-- The story-group conversion loop of `_scan_sat_daily_stories`. -/
def convertStoriesGroups (gs : Groups) (archive_date downloader : String) :
    List ContentItem :=
  gs.map fun p =>
    let sc := p.1
    let g := p.2
    let dest := pathStr (ARCHIVE_ROOT ++ [g.username, g.username ++ "_story_" ++ sc])
    let item : ContentItem :=
      { timestamp := archive_date
        shortcode := sc
        real_name := g.full_name
        username := g.username
        post_type := "Story"
        downloader := downloader
        post_date := format_date g.date_str
        db_link := match g.files with | [] => "" | f :: _ => pathStr f
        batch := ctxGet g.ctx "batch"
        wpas_code := ctxGet g.ctx "wpas_code"
        destination_path := dest
        source_path := g.parent_dir
        source_files := g.files
        is_folder_item := false
        folder_type := "sat_daily"
        content_section := "stories" }
    let col := ctxGet g.ctx "dropdown_column"
    let val := ctxGet g.ctx "dropdown_value"
    if col ≠ "" && val ≠ "" then setColIfAttr item col val else item

/-- `_scan_sat_daily_stories`. -/
def scanSatDailyStoriesF (fu : Nat) (storiesPath : PathT) (t : FSTree)
    (dl ad : String) (sha8 : String → String) : Except PErr (List ContentItem) :=
  (walkStoriesF fu storiesPath storiesPath t dl ad sha8 {}).map fun st =>
    st.items ++ convertStoriesGroups st.groups ad dl

/-- The post-folder loop over one `P&V/{username}` directory. -/
def pvPostsLoop (fu : Nat) (udPath : PathT) (dl ad : String) :
    List (String × FSTree) → List ContentItem → Except PErr (List ContentItem)
  | [], acc => .ok acc
  | (nm, sub) :: rest, acc =>
    if sub.isDirB && !(strStartsWith nm ".") && post_folder_matches nm then
      (buildPostItem fu udPath nm sub dl ad "sat_daily" "pv").bind fun r =>
        pvPostsLoop fu udPath dl ad rest
          (match r with | some item => acc ++ [item] | none => acc)
    else pvPostsLoop fu udPath dl ad rest acc

/-- The username loop of `_scan_sat_daily_pv`. -/
def pvUsersLoop (fu : Nat) (pvPath : PathT) (dl ad : String) :
    List (String × FSTree) → List ContentItem → Except PErr (List ContentItem)
  | [], acc => .ok acc
  | (nm, sub) :: rest, acc =>
    if sub.isDirB && !(strStartsWith nm ".") then
      (pvPostsLoop fu (pvPath ++ [nm]) dl ad (sortEnts (dirEntries sub)) acc).bind
        (pvUsersLoop fu pvPath dl ad rest)
    else pvUsersLoop fu pvPath dl ad rest acc

/-- `_scan_sat_daily_pv`. -/
def scanSatDailyPvF (fu : Nat) (pvPath : PathT) (t : FSTree) (dl ad : String) :
    Except PErr (List ContentItem) :=
  pvUsersLoop fu pvPath dl ad (sortEnts (dirEntries t)) []

/-- `if item and mo_column and hasattr(item, mo_column): setattr(...)`,
the enrichment applied by `_scan_mo_category` to folder items. -/
def applyMoCol (item : ContentItem) (mo_column mo_value : String) : ContentItem :=
  if mo_column ≠ "" then setColIfAttr item mo_column mo_value else item

/-- The entry loop of `_scan_mo_category`. -/
def scanMoCatLoop (fu : Nat) (catPath : PathT) (moc mov : String) (root : PathT)
    (dl ad ft cs : String) (sha8 : String → String) :
    List (String × FSTree) → List ContentItem × Groups →
    Except PErr (List ContentItem × Groups)
  | [], st => .ok st
  | (nm, sub) :: rest, (items, gs) =>
    if strStartsWith nm "." then
      scanMoCatLoop fu catPath moc mov root dl ad ft cs sha8 rest (items, gs)
    else
      match sub with
      | .dir _ =>
        if post_folder_matches nm then
          (buildPostItem fu catPath nm sub dl ad ft cs).bind fun r =>
            scanMoCatLoop fu catPath moc mov root dl ad ft cs sha8 rest
              ((match r with
                | some item => items ++ [applyMoCol item moc mov]
                | none => items), gs)
        else if named_story_matches nm || stories_txt_matches nm then
          if folderContainsStoryFiles sub then
            scanMoCatLoop fu catPath moc mov root dl ad ft cs sha8 rest
              (items, collectStoryFiles (catPath ++ [nm]) sub root gs moc mov)
          else
            scanMoCatLoop fu catPath moc mov root dl ad ft cs sha8 rest
              ((match buildNamedStoryItem fu catPath nm sub dl ad ft cs sha8 with
                | some item => items ++ [applyMoCol item moc mov]
                | none => items), gs)
        else if profile_folder_matches nm then
          scanMoCatLoop fu catPath moc mov root dl ad ft cs sha8 rest
            ((match buildProfileItem fu catPath nm sub dl ad ft cs sha8 with
              | some item => items ++ [applyMoCol item moc mov]
              | none => items), gs)
        else scanMoCatLoop fu catPath moc mov root dl ad ft cs sha8 rest (items, gs)
      | .file _ =>
        match parse_story_filename nm with
        | some p =>
          scanMoCatLoop fu catPath moc mov root dl ad ft cs sha8 rest
            (items, addToStoryGroup (catPath ++ [nm]) p root gs moc mov "" "")
        | none => scanMoCatLoop fu catPath moc mov root dl ad ft cs sha8 rest (items, gs)

/-- The category loop inside one `Additional/MO/{type}` directory. -/
def moCatsLoop (fu : Nat) (typePath : PathT) (moc : String) (root : PathT)
    (dl ad : String) (sha8 : String → String) :
    List (String × FSTree) → List ContentItem × Groups →
    Except PErr (List ContentItem × Groups)
  | [], st => .ok st
  | (nm, sub) :: rest, st =>
    if sub.isDirB && !(strStartsWith nm ".") then
      (scanMoCatLoop fu (typePath ++ [nm]) moc nm root dl ad "sat_daily" "mo" sha8
          (sortEnts (dirEntries sub)) st).bind
        (moCatsLoop fu typePath moc root dl ad sha8 rest)
    else moCatsLoop fu typePath moc root dl ad sha8 rest st

/-- The MO-type loop of `_scan_sat_daily_mo`. -/
def moTypesLoop (fu : Nat) (moPath : PathT) (root : PathT) (dl ad : String)
    (sha8 : String → String) :
    List (String × FSTree) → List ContentItem × Groups →
    Except PErr (List ContentItem × Groups)
  | [], st => .ok st
  | (nm, sub) :: rest, st =>
    if sub.isDirB && !(strStartsWith nm ".") then
      (moCatsLoop fu (moPath ++ [nm]) (mo_path_to_column nm) root dl ad sha8
          (sortEnts (dirEntries sub)) st).bind
        (moTypesLoop fu moPath root dl ad sha8 rest)
    else moTypesLoop fu moPath root dl ad sha8 rest st

/-- The story-group conversion loop of `_scan_sat_daily_mo`. -/
def convertMoGroups (gs : Groups) (archive_date downloader : String) :
    List ContentItem :=
  gs.map fun p =>
    let sc := p.1
    let g := p.2
    let dest := pathStr (ARCHIVE_ROOT ++ [g.username, g.username ++ "_story_" ++ sc])
    let item : ContentItem :=
      { timestamp := archive_date
        shortcode := sc
        real_name := g.full_name
        username := g.username
        post_type := "Story"
        downloader := downloader
        post_date := format_date g.date_str
        db_link := match g.files with | [] => "" | f :: _ => pathStr f
        destination_path := dest
        source_path := g.parent_dir
        source_files := g.files
        is_folder_item := false
        folder_type := "sat_daily"
        content_section := "mo" }
    let mo_col := ctxGet g.ctx "mo_column"
    let mo_val := ctxGet g.ctx "mo_value"
    if mo_col ≠ "" && mo_val ≠ "" then setColIfAttr item mo_col mo_val else item

/-- `_scan_sat_daily_mo`. -/
def scanSatDailyMoF (fu : Nat) (moPath : PathT) (t : FSTree) (dl ad : String)
    (sha8 : String → String) : Except PErr (List ContentItem) :=
  (moTypesLoop fu moPath moPath dl ad sha8 (sortEnts (dirEntries t)) ([], [])).map
    fun st => st.1 ++ convertMoGroups st.2 ad dl

/-- The `SAT Checks - {initials} - RTA` search shared by
`detect_folder_type` and `_scan_sat_daily` (unsorted listing order). -/
def findSatChecksEntry : List (String × FSTree) → Option (String × FSTree × String)
  | [] => none
  | (nm, sub) :: rest =>
    if sub.isDirB then
      match sat_checks_extract nm with
      | some ini => some (nm, sub, ini)
      | none => findSatChecksEntry rest
    else findSatChecksEntry rest

/-- `_scan_sat_daily`: Stories, then `P&V`, then `Additional/MO`. -/
def scanSatDailyF (fu : Nat) (srcName : String) (t : FSTree) (dl : String)
    (sha8 : String → String) (today : String) : Except PErr (List ContentItem) :=
  match findSatChecksEntry (dirEntries t) with
  | none => .ok []
  | some (scName, scTree, _) =>
    let scPath := [srcName, scName]
    let ad := today
    (match findChildDir scTree "Stories" with
     | some stT => scanSatDailyStoriesF fu (scPath ++ ["Stories"]) stT dl ad sha8
     | none => .ok []).bind fun storiesItems =>
    (match findChildDir scTree "P&V" with
     | some pvT => scanSatDailyPvF fu (scPath ++ ["P&V"]) pvT dl ad
     | none => .ok []).bind fun pvItems =>
    (match (findChildDir scTree "Additional").bind (fun aT => findChildDir aT "MO") with
     | some moT => scanSatDailyMoF fu (scPath ++ ["Additional", "MO"]) moT dl ad sha8
     | none => .ok []).bind fun moItems =>
    .ok (storiesItems ++ pvItems ++ moItems)

/-! ## Daily MO scanners -/

/-- The category loop of `_scan_daily_mo_categories`. -/
def dmCatsLoop (fu : Nat) (categoriesPath : PathT) (root : PathT) (ad : String)
    (sha8 : String → String) :
    List (String × FSTree) → List ContentItem × Groups →
    Except PErr (List ContentItem × Groups)
  | [], st => .ok st
  | (nm, sub) :: rest, st =>
    if sub.isDirB && !(strStartsWith nm ".") then
      (scanMoCatLoop fu (categoriesPath ++ [nm]) "mo_pw" nm root "" ad "daily_mo"
          "categories" sha8 (sortEnts (dirEntries sub)) st).bind
        (dmCatsLoop fu categoriesPath root ad sha8 rest)
    else dmCatsLoop fu categoriesPath root ad sha8 rest st

/-- The story-group conversion loop of `_scan_daily_mo_categories`
(no downloader field). -/
def convertCategoriesGroups (gs : Groups) (archive_date : String) :
    List ContentItem :=
  gs.map fun p =>
    let sc := p.1
    let g := p.2
    let dest := pathStr (ARCHIVE_ROOT ++ [g.username, g.username ++ "_story_" ++ sc])
    let item : ContentItem :=
      { timestamp := archive_date
        shortcode := sc
        real_name := g.full_name
        username := g.username
        post_type := "Story"
        post_date := format_date g.date_str
        db_link := match g.files with | [] => "" | f :: _ => pathStr f
        destination_path := dest
        source_path := g.parent_dir
        source_files := g.files
        is_folder_item := false
        folder_type := "daily_mo"
        content_section := "categories" }
    let mo_col := ctxGet g.ctx "mo_column"
    let mo_val := ctxGet g.ctx "mo_value"
    if mo_col ≠ "" && mo_val ≠ "" then setColIfAttr item mo_col mo_val else item

/-- `_scan_daily_mo_categories`. -/
def scanDailyMoCategoriesF (fu : Nat) (categoriesPath : PathT) (t : FSTree)
    (ad : String) (sha8 : String → String) : Except PErr (List ContentItem) :=
  (dmCatsLoop fu categoriesPath categoriesPath ad sha8 (sortEnts (dirEntries t))
      ([], [])).map
    fun st => st.1 ++ convertCategoriesGroups st.2 ad

/-- The reshare enrichment of a post item built inside a reshare category. -/
def applyReshareFields (item : ContentItem) (catName ru rn : String) : ContentItem :=
  { item with sheet_categories := "Reshare", mo_pw := catName,
              resharer_username := ru, resharer_name := rn }

/-- The entry loop of `_scan_reshare_username_dir`. -/
def reshareUserPostsLoop (fu : Nat) (udPath : PathT) (catName ru rn : String)
    (root : PathT) (ad : String) :
    List (String × FSTree) → List ContentItem × Groups →
    Except PErr (List ContentItem × Groups)
  | [], st => .ok st
  | (nm, sub) :: rest, (items, gs) =>
    if strStartsWith nm "." then
      reshareUserPostsLoop fu udPath catName ru rn root ad rest (items, gs)
    else if sub.isDirB && post_folder_matches nm then
      (buildPostItem fu udPath nm sub "" ad "daily_mo" "reshares").bind fun r =>
        reshareUserPostsLoop fu udPath catName ru rn root ad rest
          ((match r with
            | some item => items ++ [applyReshareFields item catName ru rn]
            | none => items), gs)
    else if sub.isFileB then
      match parse_story_filename nm with
      | some p =>
        reshareUserPostsLoop fu udPath catName ru rn root ad rest
          (items, addToStoryGroup (udPath ++ [nm]) p root gs "mo_pw" catName ru rn)
      | none => reshareUserPostsLoop fu udPath catName ru rn root ad rest (items, gs)
    else reshareUserPostsLoop fu udPath catName ru rn root ad rest (items, gs)

/-- The entry loop of `_scan_reshare_category`. -/
def reshareCatLoop (fu : Nat) (catPath : PathT) (catName ru rn : String)
    (root : PathT) (ad : String) :
    List (String × FSTree) → List ContentItem × Groups →
    Except PErr (List ContentItem × Groups)
  | [], st => .ok st
  | (nm, sub) :: rest, (items, gs) =>
    if strStartsWith nm "." then
      reshareCatLoop fu catPath catName ru rn root ad rest (items, gs)
    else
      match sub with
      | .dir _ =>
        if post_folder_matches nm then
          (buildPostItem fu catPath nm sub "" ad "daily_mo" "reshares").bind fun r =>
            reshareCatLoop fu catPath catName ru rn root ad rest
              ((match r with
                | some item => items ++ [applyReshareFields item catName ru rn]
                | none => items), gs)
        else
          (reshareUserPostsLoop fu (catPath ++ [nm]) catName ru rn root ad
              (sortEnts (dirEntries sub)) (items, gs)).bind
            (reshareCatLoop fu catPath catName ru rn root ad rest)
      | .file _ =>
        match parse_story_filename nm with
        | some p =>
          reshareCatLoop fu catPath catName ru rn root ad rest
            (items, addToStoryGroup (catPath ++ [nm]) p root gs "mo_pw" catName ru rn)
        | none => reshareCatLoop fu catPath catName ru rn root ad rest (items, gs)

/-- The category loop inside one reshare folder. -/
def reshareDirCatsLoop (fu : Nat) (rdPath : PathT) (ru rn : String) (root : PathT)
    (ad : String) :
    List (String × FSTree) → List ContentItem × Groups →
    Except PErr (List ContentItem × Groups)
  | [], st => .ok st
  | (nm, sub) :: rest, st =>
    if sub.isDirB && !(strStartsWith nm ".") then
      (reshareCatLoop fu (rdPath ++ [nm]) nm ru rn root ad
          (sortEnts (dirEntries sub)) st).bind
        (reshareDirCatsLoop fu rdPath ru rn root ad rest)
    else reshareDirCatsLoop fu rdPath ru rn root ad rest st

/-- The reshare-folder loop of `_scan_daily_mo_reshares`. -/
def resharesLoop (fu : Nat) (resharesPath : PathT) (root : PathT) (ad : String) :
    List (String × FSTree) → List ContentItem × Groups →
    Except PErr (List ContentItem × Groups)
  | [], st => .ok st
  | (nm, sub) :: rest, st =>
    if sub.isDirB && !(strStartsWith nm ".") then
      let ru := match parse_reshare_folder nm with | some i => i.handle | none => ""
      let rn := match parse_reshare_folder nm with | some i => i.full_name | none => ""
      (reshareDirCatsLoop fu (resharesPath ++ [nm]) ru rn root ad
          (sortEnts (dirEntries sub)) st).bind
        (resharesLoop fu resharesPath root ad rest)
    else resharesLoop fu resharesPath root ad rest st

/-- The story-group conversion loop of `_scan_daily_mo_reshares`. -/
def convertResharesGroups (gs : Groups) (archive_date : String) :
    List ContentItem :=
  gs.map fun p =>
    let sc := p.1
    let g := p.2
    let dest := pathStr (ARCHIVE_ROOT ++ [g.username, g.username ++ "_story_" ++ sc])
    let item : ContentItem :=
      { timestamp := archive_date
        shortcode := sc
        real_name := g.full_name
        username := g.username
        post_type := "Story"
        post_date := format_date g.date_str
        db_link := match g.files with | [] => "" | f :: _ => pathStr f
        sheet_categories := "Reshare"
        resharer_username := ctxGet g.ctx "resharer_username"
        resharer_name := ctxGet g.ctx "resharer_name"
        destination_path := dest
        source_path := g.parent_dir
        source_files := g.files
        is_folder_item := false
        folder_type := "daily_mo"
        content_section := "reshares" }
    let mo_col := ctxGet g.ctx "mo_column"
    let mo_val := ctxGet g.ctx "mo_value"
    if mo_col ≠ "" && mo_val ≠ "" then setColIfAttr item mo_col mo_val else item

/-- `_scan_daily_mo_reshares`. -/
def scanDailyMoResharesF (fu : Nat) (resharesPath : PathT) (t : FSTree)
    (ad : String) : Except PErr (List ContentItem) :=
  (resharesLoop fu resharesPath resharesPath ad (sortEnts (dirEntries t))
      ([], [])).map
    fun st => st.1 ++ convertResharesGroups st.2 ad

/-- The entry loop of `_scan_daily_mo_manual`. -/
def manualLoop (fu : Nat) (manualPath : PathT) (ad : String)
    (sha8 : String → String) :
    List (String × FSTree) → List ContentItem → List ContentItem
  | [], acc => acc
  | (nm, sub) :: rest, acc =>
    if sub.isDirB && !(strStartsWith nm ".") then
      if named_story_matches nm || stories_txt_matches nm then
        manualLoop fu manualPath ad sha8 rest
          (match buildNamedStoryItem fu manualPath nm sub "" ad "daily_mo" "manual" sha8 with
           | some item => acc ++ [item]
           | none => acc)
      else if reshare_folder_matches nm then
        match parse_reshare_folder nm with
        | some info =>
          manualLoop fu manualPath ad sha8 rest
            (match buildNamedStoryItem fu manualPath nm sub "" ad "daily_mo" "manual" sha8 with
             | some item =>
               acc ++ [{ item with resharer_username := info.handle,
                                   resharer_name := info.full_name,
                                   sheet_categories := "Reshare" }]
             | none => acc)
        | none => manualLoop fu manualPath ad sha8 rest acc
      else manualLoop fu manualPath ad sha8 rest acc
    else manualLoop fu manualPath ad sha8 rest acc

/-- `_scan_daily_mo_manual`. -/
def scanDailyMoManualF (fu : Nat) (manualPath : PathT) (t : FSTree) (ad : String)
    (sha8 : String → String) : List ContentItem :=
  manualLoop fu manualPath ad sha8 (sortEnts (dirEntries t)) []

/-- The entry loop of `_scan_daily_mo_profile`. -/
def profileFilesLoop (profilePath : PathT) (ad : String) (sha8 : String → String) :
    List (String × FSTree) → List ContentItem → List ContentItem
  | [], acc => acc
  | (nm, sub) :: rest, acc =>
    if sub.isFileB && !(strStartsWith nm ".") then
      match parse_profile_file nm with
      | some parsed =>
        let username := parsed.username
        let date_str := format_date parsed.date_str
        let pseudo := generate_pseudo_shortcode sha8 username date_str nm
        profileFilesLoop profilePath ad sha8 rest
          (acc ++ [{ timestamp := ad
                     shortcode := pseudo
                     username := username
                     post_type := "Profile"
                     post_date := date_str
                     db_link := pathStr (profilePath ++ [nm])
                     destination_path := pathStr (ARCHIVE_ROOT ++ [username, nm])
                     source_path := some (profilePath ++ [nm])
                     source_files := [profilePath ++ [nm]]
                     is_folder_item := false
                     folder_type := "daily_mo"
                     content_section := "profile" }])
      | none => profileFilesLoop profilePath ad sha8 rest acc
    else profileFilesLoop profilePath ad sha8 rest acc

/-- `_scan_daily_mo_profile`. -/
def scanDailyMoProfileF (profilePath : PathT) (t : FSTree) (ad : String)
    (sha8 : String → String) : List ContentItem :=
  profileFilesLoop profilePath ad sha8 (sortEnts (dirEntries t)) []

/-- The entry loop of `_scan_daily_mo_ve`. -/
def veFilesLoop (vePath : PathT) (ad : String) (sha8 : String → String) :
    List (String × FSTree) → List ContentItem → List ContentItem
  | [], acc => acc
  | (nm, sub) :: rest, acc =>
    if sub.isFileB && !(strStartsWith nm ".") then
      match parse_ve_file nm with
      | some parsed =>
        let pseudo := generate_pseudo_shortcode sha8 parsed.handle parsed.date_str nm
        veFilesLoop vePath ad sha8 rest
          (acc ++ [{ timestamp := ad
                     shortcode := pseudo
                     real_name := parsed.full_name
                     username := parsed.handle
                     post_type := "VE"
                     post_date := parsed.date_str
                     db_link := pathStr (vePath ++ [nm])
                     destination_path := pathStr (ARCHIVE_ROOT ++ [parsed.handle, nm])
                     source_path := some (vePath ++ [nm])
                     source_files := [vePath ++ [nm]]
                     is_folder_item := false
                     folder_type := "daily_mo"
                     content_section := "ve" }])
      | none => veFilesLoop vePath ad sha8 rest acc
    else veFilesLoop vePath ad sha8 rest acc

/-- `_scan_daily_mo_ve`. -/
def scanDailyMoVeF (vePath : PathT) (t : FSTree) (ad : String)
    (sha8 : String → String) : List ContentItem :=
  veFilesLoop vePath ad sha8 (sortEnts (dirEntries t)) []

/-- `_scan_daily_mo`: Categories, Reshares, Manual, Profile, VE. -/
def scanDailyMoF (fu : Nat) (srcPath : PathT) (t : FSTree)
    (sha8 : String → String) (today : String) : Except PErr (List ContentItem) :=
  let ad := today
  (match findChildDir t "Categories" with
   | some cT => scanDailyMoCategoriesF fu (srcPath ++ ["Categories"]) cT ad sha8
   | none => .ok []).bind fun catItems =>
  (match findChildDir t "Reshares" with
   | some rT => scanDailyMoResharesF fu (srcPath ++ ["Reshares"]) rT ad
   | none => .ok []).bind fun resItems =>
  let manItems :=
    match findChildDir t "Manual" with
    | some mT => scanDailyMoManualF fu (srcPath ++ ["Manual"]) mT ad sha8
    | none => []
  let profItems :=
    match findChildDir t "Profile" with
    | some pT => scanDailyMoProfileF (srcPath ++ ["Profile"]) pT ad sha8
    | none => []
  let veItems :=
    match findChildDir t "VE" with
    | some vT => scanDailyMoVeF (srcPath ++ ["VE"]) vT ad sha8
    | none => []
  .ok (catItems ++ resItems ++ manItems ++ profItems ++ veItems)

/-! ## Top level (`detect_folder_type`, `scan_folder`) -/

inductive FolderType : Type where
  | sat_daily : FolderType
  | daily_mo : FolderType
  | unknown : FolderType
deriving DecidableEq

/-- `detect_folder_type`. -/
def detect_folder_type (srcName : String) (t : FSTree) : FolderType × String :=
  if strStartsWith srcName "SAT Daily on " then
    match findSatChecksEntry (dirEntries t) with
    | some (_, _, ini) => (.sat_daily, ini)
    | none => (.sat_daily, "")
  else if strStartsWith srcName "Daily MO on " then (.daily_mo, "")
  else (.unknown, "")

/-- `scan_folder`: the public entry point.  `today` is the `today_str()`
wall-clock stamp and `sha8` the external digest primitive. -/
def scan_folder (fuel : Nat) (srcName : String) (t : FSTree)
    (sha8 : String → String) (today : String) : Except PErr (List ContentItem) :=
  match detect_folder_type srcName t with
  | (.sat_daily, initials) => scanSatDailyF fuel srcName t initials sha8 today
  | (.daily_mo, _) => scanDailyMoF fuel [srcName] t sha8 today
  | (.unknown, _) => .ok []

/-! ## Output invariant predicates -/

/-- Every emitted record has a non-empty shortcode. -/
def ItemsOk (l : List ContentItem) : Prop := ∀ i ∈ l, i.shortcode ≠ ""

/-- The group dictionary has non-empty, pairwise distinct keys. -/
def GroupsKeysOk (gs : Groups) : Prop :=
  (∀ s ∈ gs.map Prod.fst, s ≠ "") ∧ (gs.map Prod.fst).Nodup

/-- Both walker invariants at once. -/
def WalkOk (st : WalkSt) : Prop := ItemsOk st.items ∧ GroupsKeysOk st.groups

def ExWalkOk : Except PErr WalkSt → Prop
  | .ok st => WalkOk st
  | .error _ => True

def ExItemsOk : Except PErr (List ContentItem) → Prop
  | .ok l => ItemsOk l
  | .error _ => True

def ExPairOk : Except PErr (List ContentItem × Groups) → Prop
  | .ok (items, gs) => ItemsOk items ∧ GroupsKeysOk gs
  | .error _ => True

/-- `story_groups[k]` read-back: the staged group for a key, or the
default-constructed group. -/
def groupFor : Groups → String → StoryGroup
  | [], _ => {}
  | (k0, g) :: r, k => if k0 = k then g else groupFor r k

/-- Blank out the scanned-at stamp of a record. -/
def eraseTs (i : ContentItem) : ContentItem := { i with timestamp := "" }

/-- Two walker states that agree except for scanned-at stamps. -/
def WEq (s1 s2 : WalkSt) : Prop :=
  s1.items.map eraseTs = s2.items.map eraseTs ∧ s1.groups = s2.groups

def ExWEq : Except PErr WalkSt → Except PErr WalkSt → Prop
  | .ok s1, .ok s2 => WEq s1 s2
  | .error e1, .error e2 => e1 = e2
  | _, _ => False

def ExLEq : Except PErr (List ContentItem) → Except PErr (List ContentItem) → Prop
  | .ok l1, .ok l2 => l1.map eraseTs = l2.map eraseTs
  | .error e1, .error e2 => e1 = e2
  | _, _ => False

def ExPEq : Except PErr (List ContentItem × Groups) →
    Except PErr (List ContentItem × Groups) → Prop
  | .ok p1, .ok p2 => p1.1.map eraseTs = p2.1.map eraseTs ∧ p1.2 = p2.2
  | .error e1, .error e2 => e1 = e2
  | _, _ => False

/-! ## Helper lemmas -/

lemma strMk_eq_empty_iff {l : List Char} : (⟨l⟩ : String) = "" ↔ l = [] := by
  constructor
  · intro h
    exact congrArg String.data h
  · intro h
    subst h
    rfl

lemma str_ne_empty_of_data {s : String} (h : s.data ≠ []) : s ≠ "" := by
  intro he
  exact h (congrArg String.data he)

lemma format_date_len8 {s : String} (h1 : s.data.length = 8)
    (h2 : s.data.all isDigitC = true) :
    format_date s =
      ⟨s.data.take 4 ++ '-' :: (s.data.drop 4).take 2 ++ '-' :: (s.data.drop 6).take 2⟩ := by
  simp [format_date, h1, h2]

lemma format_date_other {s : String}
    (h : ¬(s.data.length = 8 ∧ s.data.all isDigitC = true)) : format_date s = s := by
  unfold format_date
  rw [if_neg]
  intro hc
  rw [Bool.and_eq_true, decide_eq_true_iff] at hc
  exact h hc

lemma format_date_result_len {s : String} (h1 : s.data.length = 8) :
    (s.data.take 4 ++ '-' :: (s.data.drop 4).take 2 ++ '-' :: (s.data.drop 6).take 2).length = 10 := by
  simp [List.length_take, List.length_drop, h1]

lemma format_date_idem (s : String) : format_date (format_date s) = format_date s := by
  by_cases hc : s.data.length = 8 ∧ s.data.all isDigitC = true
  · rw [format_date_len8 hc.1 hc.2]
    apply format_date_other
    intro hbad
    have : (s.data.take 4 ++ '-' :: (s.data.drop 4).take 2 ++ '-' :: (s.data.drop 6).take 2).length = 10 :=
      format_date_result_len hc.1
    rw [hbad.1] at this
    omega
  · rw [format_date_other hc, format_date_other hc]

/-! ## Claim C10 -/

/-- C10: `format_date` maps every 8-character all-digit string `d` to
`d[0:4]-d[4:6]-d[6:8]`, returns every other string unchanged, and is
therefore idempotent. -/
theorem C10_format_date :
    (∀ s : String, s.data.length = 8 → s.data.all isDigitC = true →
      format_date s =
        ⟨s.data.take 4 ++ '-' :: (s.data.drop 4).take 2 ++ '-' :: (s.data.drop 6).take 2⟩) ∧
    (∀ s : String, ¬(s.data.length = 8 ∧ s.data.all isDigitC = true) → format_date s = s) ∧
    (∀ s : String, format_date (format_date s) = format_date s) :=
  ⟨fun _ h1 h2 => format_date_len8 h1 h2,
   fun _ h => format_date_other h,
   format_date_idem⟩

/-- C10 witness: the three parts of `C10_format_date` evaluated at concrete
inputs. -/
theorem C10_format_date_witness :
    format_date "20240101" = "2024-01-01" ∧
    format_date "2024-01-01" = "2024-01-01" ∧
    format_date (format_date "20240101") = format_date "20240101" := by
  refine ⟨?_, ?_, C10_format_date.2.2 "20240101"⟩
  · exact C10_format_date.1 "20240101" (by decide) (by decide)
  · exact C10_format_date.2.1 "2024-01-01" (by decide)

/-! ## Claim C9 -/

/-- C9: every `ContentItem` routes to exactly one of the two output tabs -
`target_tab` is `"Stories"` exactly when `content_section = "stories"` and
`"P&V Manual Backup"` otherwise - and `to_row` always returns exactly 37
fields, matching the 37-header sheet schema. -/
theorem C9_target_tab_to_row :
    (∀ i : ContentItem,
      (i.content_section = "stories" → i.target_tab = "Stories") ∧
      (i.content_section ≠ "stories" → i.target_tab = "P&V Manual Backup") ∧
      i.to_row.length = 37) ∧
    SHEET_HEADERS.length = 37 := by
  refine ⟨fun i => ⟨?_, ?_, rfl⟩, rfl⟩
  · intro h
    simp [ContentItem.target_tab, h]
  · intro h
    simp [ContentItem.target_tab, h]

/-- C9 witness: `C9_target_tab_to_row` applied to two concrete items, one
per tab. -/
theorem C9_target_tab_to_row_witness :
    ({ content_section := "stories" } : ContentItem).target_tab = "Stories" ∧
    ({ content_section := "" } : ContentItem).target_tab = "P&V Manual Backup" ∧
    ({ content_section := "stories" } : ContentItem).to_row.length = 37 := by
  refine ⟨(C9_target_tab_to_row.1 _).1 rfl, (C9_target_tab_to_row.1 _).2.1 (by decide),
    (C9_target_tab_to_row.1 { content_section := "stories" }).2.2⟩

/-! ## Claim C2 -/

lemma stripPfx_eq_append : ∀ (p l r : List Char), stripPfx p l = some r → l = p ++ r := by
  intro p
  induction p with
  | nil =>
    intro l r h
    simp [stripPfx] at h
    simp [h]
  | cons c cs ih =>
    intro l r h
    cases l with
    | nil => simp [stripPfx] at h
    | cons a as =>
      unfold stripPfx at h
      by_cases hca : c = a
      · rw [if_pos hca] at h
        subst hca
        simpa using ih as r h
      · rw [if_neg hca] at h
        exact absurd h (by simp)

lemma append_eq_common : ∀ (p q r s' : List Char), p ++ r = q ++ s' →
    ∀ (i : Nat) (hip : i < p.length) (hiq : i < q.length),
      p.get ⟨i, hip⟩ = q.get ⟨i, hiq⟩ := by
  intro p
  induction p with
  | nil =>
    intro q r s' _ i hip
    exact absurd hip (by simp)
  | cons a ps ih =>
    intro q r s' h i hip hiq
    cases q with
    | nil => exact absurd hiq (by simp)
    | cons b qs =>
      injection h with h1 h2
      cases i with
      | zero => exact h1
      | succ n =>
        exact ih qs r s' h2 n (by simpa using Nat.lt_of_succ_lt_succ hip)
          (by simpa using Nat.lt_of_succ_lt_succ hiq)

lemma pfx_clash {l p q : List Char} (hp : ∃ r, l = p ++ r) (hq : ∃ r, l = q ++ r)
    (i : Nat) (hip : i < p.length) (hiq : i < q.length)
    (hne : p.get ⟨i, hip⟩ ≠ q.get ⟨i, hiq⟩) : False := by
  obtain ⟨r, hr⟩ := hp
  obtain ⟨t, ht⟩ := hq
  exact hne (append_eq_common p q r t (hr.symm.trans ht) i hip hiq)

lemma bool_and_false_of {a b : Bool} (h : a = true → b = true → False) :
    (a && b) = false := by
  cases a
  · rfl
  · cases b
    · rfl
    · exact (h rfl rfl).elim

lemma profile_matches_pfx {s : String} (h : profile_folder_matches s = true) :
    ∃ r, stripNl s.data = "IG Profile - ".data ++ r := by
  unfold profile_folder_matches profile_folder_extract at h
  cases hp : stripPfx "IG Profile - ".data (stripNl s.data) with
  | none => rw [hp] at h; simp at h
  | some r => exact ⟨r, stripPfx_eq_append _ _ _ hp⟩

lemma comment_matches_pfx {s : String} (h : comment_folder_matches s = true) :
    ∃ r, stripNl s.data = "IG Regular Comment".data ++ r := by
  unfold comment_folder_matches comment_folder_extract at h
  cases hp : stripPfx "IG Regular Comment".data (stripNl s.data) with
  | none => rw [hp] at h; simp at h
  | some r => exact ⟨r, stripPfx_eq_append _ _ _ hp⟩

lemma named_matches_pfx {s : String} (h : named_story_matches s = true) :
    ∃ r, stripNl s.data = "IG Stories - ".data ++ r := by
  unfold named_story_matches named_story_extract at h
  cases hp : stripPfx "IG Stories - ".data (stripNl s.data) with
  | none => rw [hp] at h; simp at h
  | some r => exact ⟨r, stripPfx_eq_append _ _ _ hp⟩

lemma txt_matches_pfx {s : String} (h : stories_txt_matches s = true) :
    ∃ r, stripNl s.data = "IG Stories TXT".data ++ r := by
  unfold stories_txt_matches stories_txt_extract at h
  cases hp : stripPfx "IG Stories TXT".data (stripNl s.data) with
  | none => rw [hp] at h; simp at h
  | some r => exact ⟨r, stripPfx_eq_append _ _ _ hp⟩

lemma reshare_matches_pfx {s : String} (h : reshare_folder_matches s = true) :
    ∃ r, stripNl s.data = "IG Reshare - ".data ++ r := by
  unfold reshare_folder_matches reshare_folder_extract at h
  cases hp : stripPfx "IG Reshare - ".data (stripNl s.data) with
  | none => rw [hp] at h; simp at h
  | some r => exact ⟨r, stripPfx_eq_append _ _ _ hp⟩

/-- C2 counterexample: a single literal name matched by both the post-folder
and the profile-folder recognizers, so the recognizers' match domains are
not pairwise disjoint. -/
theorem C2_counterexample :
    post_folder_matches "IG Profile - 2024-01-01 - x_IG_POST_20240101_y - @ab" = true ∧
    profile_folder_matches "IG Profile - 2024-01-01 - x_IG_POST_20240101_y - @ab" = true :=
  ⟨rfl, rfl⟩

/-- C2 amended: the five prefix-anchored folder recognizers (profile,
comment thread, named story, stories TXT, reshare) do have pairwise
disjoint match domains; only the post-folder recognizer, whose pattern is
not anchored to a literal prefix, can overlap another recognizer. -/
theorem C2_amended : ∀ s : String,
    (profile_folder_matches s && comment_folder_matches s) = false ∧
    (profile_folder_matches s && named_story_matches s) = false ∧
    (profile_folder_matches s && stories_txt_matches s) = false ∧
    (profile_folder_matches s && reshare_folder_matches s) = false ∧
    (comment_folder_matches s && named_story_matches s) = false ∧
    (comment_folder_matches s && stories_txt_matches s) = false ∧
    (comment_folder_matches s && reshare_folder_matches s) = false ∧
    (named_story_matches s && stories_txt_matches s) = false ∧
    (named_story_matches s && reshare_folder_matches s) = false ∧
    (stories_txt_matches s && reshare_folder_matches s) = false := by
  intro s
  refine ⟨?_, ?_, ?_, ?_, ?_, ?_, ?_, ?_, ?_, ?_⟩
  · exact bool_and_false_of fun h1 h2 =>
      pfx_clash (profile_matches_pfx h1) (comment_matches_pfx h2) 3 (by decide) (by decide) (by decide)
  · exact bool_and_false_of fun h1 h2 =>
      pfx_clash (profile_matches_pfx h1) (named_matches_pfx h2) 3 (by decide) (by decide) (by decide)
  · exact bool_and_false_of fun h1 h2 =>
      pfx_clash (profile_matches_pfx h1) (txt_matches_pfx h2) 3 (by decide) (by decide) (by decide)
  · exact bool_and_false_of fun h1 h2 =>
      pfx_clash (profile_matches_pfx h1) (reshare_matches_pfx h2) 3 (by decide) (by decide) (by decide)
  · exact bool_and_false_of fun h1 h2 =>
      pfx_clash (comment_matches_pfx h1) (named_matches_pfx h2) 3 (by decide) (by decide) (by decide)
  · exact bool_and_false_of fun h1 h2 =>
      pfx_clash (comment_matches_pfx h1) (txt_matches_pfx h2) 3 (by decide) (by decide) (by decide)
  · exact bool_and_false_of fun h1 h2 =>
      pfx_clash (comment_matches_pfx h1) (reshare_matches_pfx h2) 5 (by decide) (by decide) (by decide)
  · exact bool_and_false_of fun h1 h2 =>
      pfx_clash (named_matches_pfx h1) (txt_matches_pfx h2) 11 (by decide) (by decide) (by decide)
  · exact bool_and_false_of fun h1 h2 =>
      pfx_clash (named_matches_pfx h1) (reshare_matches_pfx h2) 3 (by decide) (by decide) (by decide)
  · exact bool_and_false_of fun h1 h2 =>
      pfx_clash (txt_matches_pfx h1) (reshare_matches_pfx h2) 3 (by decide) (by decide) (by decide)

/-! ## Claim C3 -/

lemma groupFor_updStoryGroups (gs : Groups) (k : String) (f : StoryGroup → StoryGroup) :
    groupFor (updStoryGroups gs k f) k = f (groupFor gs k) := by
  induction gs with
  | nil => simp [updStoryGroups, groupFor]
  | cons p r ih =>
    by_cases hk : p.1 = k
    · simp [updStoryGroups, groupFor, hk]
    · simp [updStoryGroups, groupFor, hk, ih]

/-- C3 counterexample: two story files with the same identifier staged in
sequence.  The finalized group's owner handle and date come from the
second (last) file, not the first, and the non-empty incoming display name
`"B"` overwrites the already non-empty current value `"A"`. -/
theorem C3_counterexample :
    (parse_story_filename "A alice_story_20240101_120000_01_SC_raw.mp4").isSome = true ∧
    ((parse_story_filename "A alice_story_20240101_120000_01_SC_raw.mp4").getD
        ⟨"", "", "", "", "", "", "", "", ""⟩).username = "alice" ∧
    ((parse_story_filename "A alice_story_20240101_120000_01_SC_raw.mp4").getD
        ⟨"", "", "", "", "", "", "", "", ""⟩).full_name = "A" ∧
    ((parse_story_filename "B bob_story_20240202_130000_02_SC_screenshot.jpg").getD
        ⟨"", "", "", "", "", "", "", "", ""⟩).username = "bob" ∧
    ((addToStoryGroup ["r", "f2"]
        ((parse_story_filename "B bob_story_20240202_130000_02_SC_screenshot.jpg").getD
          ⟨"", "", "", "", "", "", "", "", ""⟩) ["r"]
        (addToStoryGroup ["r", "f1"]
          ((parse_story_filename "A alice_story_20240101_120000_01_SC_raw.mp4").getD
            ⟨"", "", "", "", "", "", "", "", ""⟩) ["r"] [] "" "" "" "")
        "" "" "" "").map fun p => (p.1, p.2.username, p.2.full_name, p.2.date_str)) =
      [("SC", "bob", "B", "20240202")] :=
  ⟨rfl, rfl, rfl, rfl, rfl⟩

set_option maxHeartbeats 1000000 in
/-- C3 amended: staging a parsed story file under its identifier always
*overwrites* the group's owner handle and date with the values of the file
just staged (so after the whole sequence they are those of the last file,
not the first), and the display name is overwritten whenever the incoming
value is non-empty, regardless of the currently held value. -/
theorem C3_amended : ∀ (fp : PathT) (p : StoryParsed) (root : PathT) (gs : Groups)
    (moc mov ru rn : String),
    (groupFor (addToStoryGroup fp p root gs moc mov ru rn) p.shortcode).username
        = p.username ∧
    (groupFor (addToStoryGroup fp p root gs moc mov ru rn) p.shortcode).date_str
        = p.date_str ∧
    (groupFor (addToStoryGroup fp p root gs moc mov ru rn) p.shortcode).full_name
        = (if p.full_name ≠ "" then p.full_name else (groupFor gs p.shortcode).full_name) := by
  intro fp p root gs moc mov ru rn
  unfold addToStoryGroup
  rw [groupFor_updStoryGroups]
  refine ⟨?_, ?_, ?_⟩ <;>
    · repeat' split
      all_goals simp_all
      all_goals repeat' split
      all_goals simp_all

/-! ## Claim C7 -/

/-- C7 counterexample: with the relative directory path
`Batch 1 / Books / WPAS A / Sub1 / Sub2`, position 4 is deeper than the
code position but does not refine the dropdown value: the claim requires
`"A / Sub1 / Sub2"`, the code produces `"A / Sub1"`. -/
theorem C7_counterexample :
    ctxGet (parse_sat_daily_stories_context ["Batch 1", "Books", "WPAS A", "Sub1", "Sub2"])
        "dropdown_value" = "A / Sub1" ∧
    ("A / Sub1" : String) ≠ "A / Sub1 / Sub2" :=
  ⟨rfl, by decide⟩

/-- C7 amended: only the single directory-name position immediately deeper
than the code position (index 3) refines the dropdown value, by
concatenating `" / <subfolder>"`, unless that name looks content-shaped
(an `IG Stories` / `IG Reshare` / `IG Profile` / `IG Regular Comment`
prefix, or a story-file name), in which case the value is left unchanged;
all positions deeper than index 3 are ignored entirely. -/
theorem C7_amended : ∀ (b c w s4 : String) (deeper : List String),
    ctxGet (parse_sat_daily_stories_context (b :: c :: w :: s4 :: deeper))
        "dropdown_value" =
      (let base := match wpas_extract w with | some g => g | none => w
       if strStartsWith s4 "IG Stories" || strStartsWith s4 "IG Reshare"
          || strStartsWith s4 "IG Profile" || strStartsWith s4 "IG Regular Comment"
          || story_file_matches s4
       then base else base ++ " / " ++ s4) := by
  intro b c w s4 deeper
  unfold parse_sat_daily_stories_context
  cases hw : wpas_extract w <;>
    · simp only [hw]
      split <;> simp [ctxSet, ctxGet]

/-! ## Claim C8 -/

/-- C8 (code bug): an unreadable companion document or one that is not
valid JSON degrades to empty metadata and the post record is still built
from filename-derived fields.  But a document that is valid JSON whose top
level is not an object (here the array `[1, 2]`) reaches `data.get` inside
`parse_metadata_json`, raises `AttributeError`, and aborts the scan, which
contradicts the claim. -/
theorem C8_metadata_degradation :
    parse_metadata_json .unreadable = .ok none ∧
    parse_metadata_json .badJson = .ok none ∧
    (buildPostItem 20 ["P"] "u_IG_POST_20240101_sc"
        (FSTree.dir [("x_metadata.json", .file .unreadable)])
        "TO" "ad" "sat_daily" "pv").map
      (Option.map fun i => (i.shortcode, i.username, i.post_date, i.has_metadata_json)) =
      .ok (some ("sc", "u", "2024-01-01", false)) ∧
    (buildPostItem 20 ["P"] "u_IG_POST_20240101_sc"
        (FSTree.dir [("x_metadata.json", .file .badJson)])
        "TO" "ad" "sat_daily" "pv").map
      (Option.map fun i => (i.shortcode, i.username, i.post_date, i.has_metadata_json)) =
      .ok (some ("sc", "u", "2024-01-01", false)) ∧
    parse_metadata_json (.jsonDoc (.jarr 2)) = .error .attributeError ∧
    buildPostItem 20 ["P"] "u_IG_POST_20240101_sc"
        (FSTree.dir [("x_metadata.json", .file (.jsonDoc (.jarr 2)))])
        "TO" "ad" "sat_daily" "pv" = .error .attributeError :=
  ⟨rfl, rfl, rfl, rfl, rfl, rfl⟩

/-! ## Claim C4 -/

lemma buildNamedStoryItem_isSome {fu : Nat} {par : PathT} {nm : String} {sub : FSTree}
    {dl ad ft cs : String} {sha8 : String → String}
    (h : (named_story_matches nm || stories_txt_matches nm) = true) :
    ∃ item, buildNamedStoryItem fu par nm sub dl ad ft cs sha8 = some item ∧
      item.post_type = "Story Collection" := by
  unfold buildNamedStoryItem parse_named_story_folder
  cases hn : named_story_extract nm with
  | some tri =>
    obtain ⟨d, n2, h2⟩ := tri
    exact ⟨_, rfl, rfl⟩
  | none =>
    have ht : stories_txt_matches nm = true := by
      have : named_story_matches nm = false := by simp [named_story_matches, hn]
      simpa [this] using h
    unfold stories_txt_matches at ht
    cases he : stories_txt_extract nm with
    | none => rw [he] at ht; simp at ht
    | some pr =>
      obtain ⟨d, h2⟩ := pr
      exact ⟨_, rfl, rfl⟩

/-- C4 counterexample: a directory whose name matches the story-collection
shape *and* the post-folder shape, with a story file among its direct
children.  The claim requires the walker to emit no folder record and to
stage the story files; because the post recognizer is tried first, the
walker emits a post record and stages nothing. -/
theorem C4_counterexample :
    named_story_matches "IG Stories - 2024-01-01 - x_IG_POST_20240101_y - ab" = true ∧
    folderContainsStoryFiles
      (FSTree.dir [("alice_story_20240101_120000_01_zz_raw.mp4", .file .media)]) = true ∧
    (walkStoriesF 20 ["R"] ["R"]
        (.dir [("IG Stories - 2024-01-01 - x_IG_POST_20240101_y - ab",
          .dir [("alice_story_20240101_120000_01_zz_raw.mp4", .file .media)])])
        "TO" "ad" (fun _ => "h8") {}).map
      (fun st => (st.items.map fun i => i.post_type, st.groups.map fun p => p.1)) =
      .ok (["Post"], []) :=
  ⟨rfl, rfl, rfl⟩

/-- C4 amended: for a directory whose name matches a story-collection shape
(IG Stories or IG Stories TXT) *and* is not claimed first by one of the
recognizers with higher precedence (post, profile, comment thread): if any
direct child file matches the story-file shape, the walker emits no folder
record for the directory and stages its story files into the group
accumulator; otherwise it emits a single Story Collection folder record. -/
theorem C4_amended : ∀ (fu : Nat) (root cur : PathT) (dl ad : String)
    (sha8 : String → String) (recFn : String → FSTree → WalkSt → Except PErr WalkSt)
    (nm : String) (sub : FSTree) (st : WalkSt),
    post_folder_matches nm = false →
    profile_folder_matches nm = false →
    comment_folder_matches nm = false →
    (named_story_matches nm || stories_txt_matches nm) = true →
    (folderContainsStoryFiles sub = true →
      stepStoriesDir fu root cur dl ad sha8 recFn nm sub st =
        .ok { st with groups := collectStoryFiles (cur ++ [nm]) sub root st.groups "" "" }) ∧
    (folderContainsStoryFiles sub = false →
      ∃ item, buildNamedStoryItem fu cur nm sub dl ad "sat_daily" "stories" sha8 = some item ∧
        item.post_type = "Story Collection" ∧
        stepStoriesDir fu root cur dl ad sha8 recFn nm sub st =
          .ok { st with items := st.items ++ [applyStoriesCtx root cur item] }) := by
  intro fu root cur dl ad sha8 recFn nm sub st hpost hprof hcomm hnt
  constructor
  · intro hcont
    simp [stepStoriesDir, hpost, hprof, hcomm, hnt, hcont]
  · intro hcont
    obtain ⟨item, hitem, htype⟩ :=
      @buildNamedStoryItem_isSome fu cur nm sub dl ad "sat_daily" "stories" sha8 hnt
    refine ⟨item, hitem, htype, ?_⟩
    simp [stepStoriesDir, hpost, hprof, hcomm, hnt, hcont, hitem]

/-- C4 witness: `C4_amended` applied to a concrete wrapper directory that
holds a loose story file: the walker step only stages, emitting nothing. -/
theorem C4_amended_witness :
    stepStoriesDir 5 ["R"] ["R"] "TO" "ad" (fun _ => "h8") (fun _ _ s => .ok s)
        "IG Stories - 2024-01-01 - N - hh"
        (FSTree.dir [("alice_story_20240101_120000_01_zz_raw.mp4", .file .media)]) {} =
      .ok (WalkSt.mk []
        (collectStoryFiles (["R"] ++ ["IG Stories - 2024-01-01 - N - hh"])
          (FSTree.dir [("alice_story_20240101_120000_01_zz_raw.mp4", .file .media)])
          ["R"] [] "" "")) :=
  (C4_amended 5 ["R"] ["R"] "TO" "ad" (fun _ => "h8") (fun _ _ s => .ok s)
      "IG Stories - 2024-01-01 - N - hh"
      (FSTree.dir [("alice_story_20240101_120000_01_zz_raw.mp4", .file .media)]) {}
      rfl rfl rfl rfl).1 rfl

/-! ## Claim C6 -/

lemma walkStoriesF_succ_plain (fu : Nat) (root cur : PathT) (nm : String)
    (es2 : List (String × FSTree)) (dl ad : String) (sha8 : String → String) (st : WalkSt)
    (h1 : post_folder_matches nm = false) (h2 : profile_folder_matches nm = false)
    (h3 : comment_folder_matches nm = false) (h4 : named_story_matches nm = false)
    (h5 : stories_txt_matches nm = false) (h6 : strStartsWith nm "." = false) :
    walkStoriesF (fu + 1) root cur (.dir [(nm, FSTree.dir es2)]) dl ad sha8 st =
      walkStoriesF fu root (cur ++ [nm]) (FSTree.dir es2) dl ad sha8 st := by
  simp only [walkStoriesF, sortEnts, isortBy, insertLe, List.filter, FSTree.isDirB,
    FSTree.isFileB, h6, Bool.not_false, Bool.and_true, Bool.and_false, Bool.true_and]
  simp only [walkStoriesDirs, stepStoriesDir, h1, h2, h3, h4, h5, Bool.false_or,
    if_false, Bool.or_self]
  cases hw : walkStoriesF fu root (cur ++ [nm]) (FSTree.dir es2) dl ad sha8 st <;>
    simp [hw, Except.bind, stageStoryFiles]

lemma walkStoriesF_leaf (fu : Nat) (root cur : PathT) (f : String) (b : FileBody)
    (dl ad : String) (sha8 : String → String) (st : WalkSt)
    (hf : strStartsWith f "." = false) :
    walkStoriesF (fu + 1) root cur (.dir [(f, .file b)]) dl ad sha8 st =
      .ok { st with groups := stageStoryFiles cur root [(f, .file b)] st.groups } := by
  simp only [walkStoriesF, sortEnts, isortBy, insertLe, List.filter, FSTree.isDirB,
    FSTree.isFileB, hf, Bool.not_false, Bool.and_true, Bool.and_false, Bool.true_and]
  simp [walkStoriesDirs, Except.bind]

lemma isPfxOf_append : ∀ (l m : List String), isPfxOf l (l ++ m) = true := by
  intro l m
  induction l with
  | nil => rfl
  | cons a as ih => simp [isPfxOf, ih]

lemma relPartsOf_append (root m : PathT) : relPartsOf root (root ++ m) = some m := by
  simp [relPartsOf, isPfxOf_append, List.drop_left]

lemma addToStoryGroup_nil_ctx (fp : PathT) (p : StoryParsed) (root : PathT) :
    (addToStoryGroup fp p root [] "" "" "" "").map (fun q => (q.1, q.2.ctx)) =
      [(p.shortcode, match relPartsOf root fp.dropLast with
        | some parts => parse_sat_daily_stories_context parts
        | none => [])] := by
  simp only [addToStoryGroup, updStoryGroups, List.map]
  simp [apply_ite StoryGroup.ctx, apply_ite List.isEmpty]

set_option maxHeartbeats 1000000 in
/-- C6: a story file staged from relative path
`Batch 1 / Books / WPAS ABC / <file>` under the Stories root produces
exactly one record whose batch slot is `"Batch 1"`, whose `books` column
(the configured attribute for the `"Books"` category) is the dropdown
value, and whose `wpas_code` slot is `"ABC"`.  Stated for every story
file name, every fuel, every Stories root, every downloader and archive
date. -/
theorem C6_stories_context : ∀ (fu : Nat) (stRoot : PathT) (f : String) (p : StoryParsed)
    (sha8 : String → String) (dl ad : String),
    parse_story_filename f = some p →
    strStartsWith f "." = false →
    (scanSatDailyStoriesF (fu + 4) stRoot
        (.dir [("Batch 1", .dir [("Books", .dir [("WPAS ABC", .dir [(f, .file .media)])])])])
        dl ad sha8).map (List.map fun i => (i.batch, i.books, i.wpas_code)) =
      .ok [("Batch 1", "ABC", "ABC")] := by
  intro fu stRoot f p sha8 dl ad h hf
  have t1 := walkStoriesF_succ_plain (fu + 3) stRoot stRoot "Batch 1"
    [("Books", .dir [("WPAS ABC", .dir [(f, .file .media)])])] dl ad sha8 {}
    rfl rfl rfl rfl rfl rfl
  have t2 := walkStoriesF_succ_plain (fu + 2) stRoot (stRoot ++ ["Batch 1"]) "Books"
    [("WPAS ABC", .dir [(f, .file .media)])] dl ad sha8 {} rfl rfl rfl rfl rfl rfl
  have t3 := walkStoriesF_succ_plain (fu + 1) stRoot ((stRoot ++ ["Batch 1"]) ++ ["Books"])
    "WPAS ABC" [(f, .file .media)] dl ad sha8 {} rfl rfl rfl rfl rfl rfl
  have t4 := walkStoriesF_leaf fu stRoot
    (((stRoot ++ ["Batch 1"]) ++ ["Books"]) ++ ["WPAS ABC"]) f .media dl ad sha8 {} hf
  have hwalk : walkStoriesF (fu + 4) stRoot stRoot
      (.dir [("Batch 1", .dir [("Books", .dir [("WPAS ABC", .dir [(f, .file .media)])])])])
      dl ad sha8 {} =
      .ok (WalkSt.mk []
        (stageStoryFiles (((stRoot ++ ["Batch 1"]) ++ ["Books"]) ++ ["WPAS ABC"]) stRoot
          [(f, .file .media)] [])) :=
    t1.trans (t2.trans (t3.trans t4))
  simp only [scanSatDailyStoriesF, hwalk, Except.map]
  simp only [stageStoryFiles, List.foldl, h]
  have hg := addToStoryGroup_nil_ctx
    ((((stRoot ++ ["Batch 1"]) ++ ["Books"]) ++ ["WPAS ABC"]) ++ [f]) p stRoot
  rw [List.dropLast_concat] at hg
  have hrel : relPartsOf stRoot (((stRoot ++ ["Batch 1"]) ++ ["Books"]) ++ ["WPAS ABC"]) =
      some ["Batch 1", "Books", "WPAS ABC"] := by
    have := relPartsOf_append stRoot ["Batch 1", "Books", "WPAS ABC"]
    simpa [List.append_assoc] using this
  rw [hrel] at hg
  cases hG : addToStoryGroup
      ((((stRoot ++ ["Batch 1"]) ++ ["Books"]) ++ ["WPAS ABC"]) ++ [f]) p stRoot
      [] "" "" "" "" with
  | nil => rw [hG] at hg; simp at hg
  | cons q rest =>
    rw [hG] at hg
    cases rest with
    | cons q2 r2 => simp at hg
    | nil =>
      simp only [List.map, List.cons.injEq, Prod.mk.injEq, List.nil_eq] at hg
      obtain ⟨⟨hk, hctxq⟩, -⟩ := hg
      simp [convertStoriesGroups, hctxq, ctxGet, setColIfAttr, setFieldByName,
        story_category_to_column]

/-- C6 witness: `C6_stories_context` at a concrete story file. -/
theorem C6_stories_context_witness :
    (scanSatDailyStoriesF (16 + 4) ["Stories"]
        (.dir [("Batch 1", .dir [("Books", .dir [("WPAS ABC",
          .dir [("alice_story_20240101_120000_01_sc77_raw.mp4", .file .media)])])])])
        "TO" "2024-06-02" (fun _ => "h8")).map
      (List.map fun i => (i.batch, i.books, i.wpas_code)) =
      .ok [("Batch 1", "ABC", "ABC")] :=
  C6_stories_context 16 ["Stories"] "alice_story_20240101_120000_01_sc77_raw.mp4"
    { username := "alice", full_name := "", shortcode := "sc77", date_str := "20240101",
      time_str := "120000", seq := "01", suffix := "raw", ext := "mp4", raw_ext := "mp4" }
    (fun _ => "h8") "TO" "2024-06-02" rfl rfl

/-! ## Claim C1 -/

/-- C1 counterexample: one SAT Daily scan in which a post folder and a
story-file group under the Stories section yield two records with the same
content identifier `"SC"` - they are not merged. -/
theorem C1_counterexample :
    (scan_folder 20 "SAT Daily on 2024-06-01"
        (.dir [("SAT Checks - TO - RTA", .dir [("Stories", .dir [
          ("bob_IG_POST_20240101_SC", .dir []),
          ("alice_story_20240101_120000_01_SC_raw.mp4", .file .media)])])])
        (fun _ => "d34db33f") "2024-06-02").map (List.map fun i => i.shortcode) =
      .ok ["SC", "SC"] ∧
    ¬ (["SC", "SC"] : List String).Nodup :=
  ⟨rfl, by decide⟩

lemma postShort_ne : ∀ (rest acc sc : List Char), postShort acc rest = some sc → sc ≠ [] := by
  intro rest
  induction rest with
  | nil =>
    intro acc sc h
    unfold postShort at h
    split at h
    · rename_i hg
      injection h with h
      subst h
      intro hnil
      subst hnil
      simp at hg
    · simp at h
  | cons c cs ih =>
    intro acc sc h
    unfold postShort at h
    split at h
    · rename_i hg
      injection h with h
      subst h
      intro hnil
      subst hnil
      simp at hg
    · change (if isDotC c then postShort (acc ++ [c]) cs else none) = some sc at h
      split at h
      · exact ih _ _ h
      · simp at h

lemma tryPostAt_sc : ∀ (pre rest u d sc : List Char),
    tryPostAt pre rest = some (u, d, sc) → sc ≠ [] := by
  intro pre rest u d sc h
  unfold tryPostAt at h
  split at h
  · simp at h
  · split at h
    · split at h
      · split at h
        · rename_i hps
          injection h with h
          rw [Prod.mk.injEq] at h
          have h2 := h.2
          rw [Prod.mk.injEq] at h2
          exact h2.2 ▸ postShort_ne _ _ _ hps
        · simp at h
      · simp at h
    · simp at h

lemma firstPostSplit_sc : ∀ (rest pre u d sc : List Char),
    firstPostSplit pre rest = some (u, d, sc) → sc ≠ [] := by
  intro rest
  induction rest with
  | nil =>
    intro pre u d sc h
    unfold firstPostSplit at h
    exact tryPostAt_sc _ _ _ _ _ h
  | cons c cs ih =>
    intro pre u d sc h
    unfold firstPostSplit at h
    split at h
    · rename_i r htry
      injection h with h
      subst h
      exact tryPostAt_sc _ _ _ _ _ htry
    · exact ih _ _ _ _ h

lemma parse_post_folder_shortcode {s : String} {p : PostParsed}
    (h : parse_post_folder s = some p) : p.shortcode ≠ "" := by
  unfold parse_post_folder at h
  cases hx : post_folder_extract s with
  | none => rw [hx] at h; simp at h
  | some tr =>
    rw [hx] at h
    obtain ⟨u, d, sc⟩ := tr
    injection h with h
    subst h
    unfold post_folder_extract at hx
    split at hx
    · rename_i u2 d2 sc2 hsplit
      injection hx with hx
      rw [Prod.mk.injEq] at hx
      have h2 := hx.2
      rw [Prod.mk.injEq] at h2
      show sc ≠ ""
      rw [← h2.2]
      exact str_ne_empty_of_data (firstPostSplit_sc _ _ _ _ _ hsplit)
    · simp at hx

lemma tryStoryAt_sc : ∀ (pre rest a b c d sc : List Char),
    tryStoryAt pre rest = some (a, b, c, d, sc) → sc ≠ [] := by
  intro pre rest a b c d sc h
  unfold tryStoryAt at h
  split at h
  · simp at h
  · split at h
    · split at h
      · split at h
        · split at h
          · rename_i hg
            injection h with h
            rw [Prod.mk.injEq] at h
            have h2 := h.2
            rw [Prod.mk.injEq] at h2
            have h3 := h2.2
            rw [Prod.mk.injEq] at h3
            have h4 := h3.2
            rw [Prod.mk.injEq] at h4
            obtain ⟨-, hsc⟩ := h4
            subst hsc
            rw [Bool.and_eq_true, Bool.and_eq_true, Bool.and_eq_true] at hg
            intro hnil
            have hx := hg.1.2
            rw [hnil] at hx
            simp at hx
          · simp at h
        · simp at h
      · simp at h
    · simp at h

lemma lastStorySplit_sc : ∀ (rest pre : List Char)
    (best : Option (List Char × List Char × List Char × List Char × List Char))
    (a b c d sc : List Char),
    (∀ a2 b2 c2 d2 sc2, best = some (a2, b2, c2, d2, sc2) → sc2 ≠ []) →
    lastStorySplit pre rest best = some (a, b, c, d, sc) → sc ≠ [] := by
  intro rest
  induction rest with
  | nil =>
    intro pre best a b c d sc hbest h
    unfold lastStorySplit at h
    split at h
    · rename_i htry
      injection h with h
      subst h
      exact tryStoryAt_sc _ _ _ _ _ _ _ htry
    · exact hbest _ _ _ _ _ h
  | cons ch cs ih =>
    intro pre best a b c d sc hbest h
    unfold lastStorySplit at h
    refine ih _ _ _ _ _ _ _ ?_ h
    intro a2 b2 c2 d2 sc2 h2
    split at h2
    · rename_i htry
      injection h2 with h2
      subst h2
      exact tryStoryAt_sc _ _ _ _ _ _ _ htry
    · exact hbest _ _ _ _ _ h2

lemma story_file_extract_shortcode {s : String}
    {pfx d t sq sc suf ext : String}
    (h : story_file_extract s = some (pfx, d, t, sq, sc, suf, ext)) : sc ≠ "" := by
  unfold story_file_extract at h
  dsimp only [] at h
  split at h
  · simp at h
  · split at h
    · simp at h
    · rename_i hsplit
      injection h with h
      rw [Prod.mk.injEq] at h
      have h2 := h.2
      rw [Prod.mk.injEq] at h2
      have h3 := h2.2
      rw [Prod.mk.injEq] at h3
      have h4 := h3.2
      rw [Prod.mk.injEq] at h4
      have h5 := h4.2
      rw [Prod.mk.injEq] at h5
      rw [← h5.1]
      exact str_ne_empty_of_data
        (lastStorySplit_sc _ _ _ _ _ _ _ _ (fun _ _ _ _ _ hb => by simp at hb) hsplit)

lemma parse_story_filename_shortcode {f : String} {p : StoryParsed}
    (h : parse_story_filename f = some p) : p.shortcode ≠ "" := by
  unfold parse_story_filename at h
  cases hx : story_file_extract f with
  | none => rw [hx] at h; simp at h
  | some tu =>
    rw [hx] at h
    obtain ⟨pfx, d, t, sq, sc, suf, ext⟩ := tu
    injection h with h
    subst h
    exact story_file_extract_shortcode hx

lemma natDigits_succ_ne (fu n : Nat) : natDigits (fu + 1) n ≠ [] := by
  unfold natDigits
  split <;> (split <;> simp)

lemma pyStrNat_ne (n : Nat) : pyStrNat n ≠ "" :=
  str_ne_empty_of_data (natDigits_succ_ne n n)

lemma generate_pseudo_ne (sha8 : String → String) (h d n : String) :
    generate_pseudo_shortcode sha8 h d n ≠ "" := by
  intro heq
  have hd := congrArg String.data heq
  simp only [generate_pseudo_shortcode, String.data_append] at hd
  simp at hd

lemma pyStr_truthy_ne {v : FieldVal} (h : v.truthy = true) : pyStr v ≠ "" := by
  cases v with
  | fstr s =>
    simp only [FieldVal.truthy] at h
    exact str_ne_empty_of_data (by simpa using h)
  | fint z =>
    show pyStrInt z ≠ ""
    unfold pyStrInt
    split
    · intro heq
      have hd := congrArg String.data heq
      simp only [String.data_append] at hd
      simp at hd
    · exact pyStrNat_ne _
  | fbool b =>
    simp only [FieldVal.truthy] at h
    subst h
    show "True" ≠ ""
    simp
  | flist xs =>
    simp only [FieldVal.truthy] at h
    cases xs with
    | nil => simp at h
    | cons x r =>
      show ("['" ++ joinSep "', '" (x :: r) ++ "']") ≠ ""
      intro heq
      have hd := congrArg String.data heq
      simp only [String.data_append] at hd
      simp at hd

lemma setFieldByName_shortcode {i : ContentItem} {c v : String} {j : ContentItem}
    (h : setFieldByName i c v = some j) : j.shortcode = i.shortcode := by
  unfold setFieldByName at h
  split at h <;> first
    | (injection h with h; subst h; rfl)
    | simp at h

lemma setColIfAttr_shortcode (i : ContentItem) (c v : String) :
    (setColIfAttr i c v).shortcode = i.shortcode := by
  unfold setColIfAttr
  split
  · rename_i j hj
    exact setFieldByName_shortcode hj
  · rfl

lemma applyStoriesCtx_shortcode (root cur : PathT) (i : ContentItem) :
    (applyStoriesCtx root cur i).shortcode = i.shortcode := by
  unfold applyStoriesCtx
  split
  · rfl
  · dsimp only []
    split
    · rw [setColIfAttr_shortcode]
    · rfl

lemma applyMoCol_shortcode (i : ContentItem) (moc mov : String) :
    (applyMoCol i moc mov).shortcode = i.shortcode := by
  unfold applyMoCol
  split
  · rw [setColIfAttr_shortcode]
  · rfl

lemma applyReshareFields_shortcode (i : ContentItem) (c u n : String) :
    (applyReshareFields i c u n).shortcode = i.shortcode := rfl

lemma buildPostItem_shortcode {fu : Nat} {par : PathT} {nm : String} {t : FSTree}
    {dl ad ft cs : String} {item : ContentItem}
    (h : buildPostItem fu par nm t dl ad ft cs = .ok (some item)) :
    item.shortcode ≠ "" := by
  unfold buildPostItem at h
  cases hp : parse_post_folder nm with
  | none => rw [hp] at h; simp at h
  | some parsed =>
    rw [hp] at h
    dsimp only [] at h
    cases hfm : (rglobAllF fu (par ++ [nm]) t).filter
        (fun e => strEndsWith e.2.1 "_metadata.json") with
    | nil =>
      rw [hfm] at h
      simp only [Except.bind] at h
      injection h with h
      injection h with h
      subst h
      exact parse_post_folder_shortcode hp
    | cons mf rest =>
      rw [hfm] at h
      dsimp only [] at h
      cases hpm : parse_metadata_json mf.2.2 with
      | error e => rw [hpm] at h; simp [Except.bind] at h
      | ok m =>
        rw [hpm] at h
        simp only [Except.bind] at h
        injection h with h
        injection h with h
        subst h
        cases m with
        | none => exact parse_post_folder_shortcode hp
        | some md =>
          show (if md.shortcode.truthy then pyStr md.shortcode else parsed.shortcode) ≠ ""
          split
          · exact pyStr_truthy_ne (by assumption)
          · exact parse_post_folder_shortcode hp

lemma buildProfileItem_shortcode {fu : Nat} {par : PathT} {nm : String} {t : FSTree}
    {dl ad ft cs : String} {sha8 : String → String} {item : ContentItem}
    (h : buildProfileItem fu par nm t dl ad ft cs sha8 = some item) :
    item.shortcode ≠ "" := by
  unfold buildProfileItem at h
  split at h
  · simp at h
  · injection h with h
    subst h
    exact generate_pseudo_ne _ _ _ _

lemma buildCommentThreadItem_shortcode {fu : Nat} {par : PathT} {nm : String} {t : FSTree}
    {dl ad ft cs : String} {sha8 : String → String} {item : ContentItem}
    (h : buildCommentThreadItem fu par nm t dl ad ft cs sha8 = some item) :
    item.shortcode ≠ "" := by
  unfold buildCommentThreadItem at h
  split at h
  · simp at h
  · injection h with h
    subst h
    exact generate_pseudo_ne _ _ _ _

lemma buildNamedStoryItem_shortcode {fu : Nat} {par : PathT} {nm : String} {t : FSTree}
    {dl ad ft cs : String} {sha8 : String → String} {item : ContentItem}
    (h : buildNamedStoryItem fu par nm t dl ad ft cs sha8 = some item) :
    item.shortcode ≠ "" := by
  unfold buildNamedStoryItem at h
  split at h
  · simp at h
  · injection h with h
    subst h
    exact generate_pseudo_ne _ _ _ _

lemma itemsOk_nil : ItemsOk [] := by intro i hi; cases hi

lemma itemsOk_append {l1 l2 : List ContentItem} (h1 : ItemsOk l1) (h2 : ItemsOk l2) :
    ItemsOk (l1 ++ l2) := by
  intro i hi
  rcases List.mem_append.1 hi with h | h
  · exact h1 i h
  · exact h2 i h

lemma itemsOk_snoc {l : List ContentItem} {i : ContentItem}
    (h : ItemsOk l) (hi : i.shortcode ≠ "") : ItemsOk (l ++ [i]) := by
  refine itemsOk_append h ?_
  intro j hj
  rw [List.mem_singleton] at hj
  subst hj
  exact hi

lemma groupsKeysOk_nil : GroupsKeysOk [] :=
  ⟨fun s hs => absurd hs (List.not_mem_nil s), List.nodup_nil⟩

lemma updStoryGroups_map_fst : ∀ (gs : Groups) (k : String) (f : StoryGroup → StoryGroup),
    (updStoryGroups gs k f).map Prod.fst =
      if k ∈ gs.map Prod.fst then gs.map Prod.fst else gs.map Prod.fst ++ [k] := by
  intro gs k f
  induction gs with
  | nil => simp [updStoryGroups]
  | cons p r ih =>
    obtain ⟨k0, g⟩ := p
    by_cases hk : k0 = k
    · subst hk
      simp [updStoryGroups]
    · have hk2 : ¬ k = k0 := fun h => hk h.symm
      by_cases hm : k ∈ r.map Prod.fst <;>
        simp [updStoryGroups, hk, hk2, hm, ih]

lemma groupsKeysOk_updStoryGroups {gs : Groups} {k : String} {f : StoryGroup → StoryGroup}
    (hk : k ≠ "") (h : GroupsKeysOk gs) : GroupsKeysOk (updStoryGroups gs k f) := by
  obtain ⟨h1, h2⟩ := h
  constructor
  · rw [updStoryGroups_map_fst]
    split
    · exact h1
    · intro s hs
      rcases List.mem_append.1 hs with hx | hx
      · exact h1 s hx
      · rw [List.mem_singleton] at hx
        subst hx
        exact hk
  · rw [updStoryGroups_map_fst]
    split
    · exact h2
    · rename_i hnot
      refine List.nodup_append.2 ⟨h2, List.nodup_singleton k, ?_⟩
      intro a ha hb
      rw [List.mem_singleton] at hb
      subst hb
      exact hnot ha

lemma groupsKeysOk_addToStoryGroup {fp : PathT} {p : StoryParsed} {root : PathT}
    {gs : Groups} {a b c d : String} (hp : p.shortcode ≠ "") (h : GroupsKeysOk gs) :
    GroupsKeysOk (addToStoryGroup fp p root gs a b c d) := by
  unfold addToStoryGroup
  exact groupsKeysOk_updStoryGroups hp h

lemma groupsKeysOk_stageStoryFiles (cur root : PathT) :
    ∀ (fls : List (String × FSTree)) (gs : Groups), GroupsKeysOk gs →
    GroupsKeysOk (stageStoryFiles cur root fls gs) := by
  intro fls
  induction fls with
  | nil => intro gs h; exact h
  | cons e rest ih =>
    intro gs h
    simp only [stageStoryFiles, List.foldl_cons]
    apply ih
    cases hpe : parse_story_filename e.1 with
    | none => simpa [hpe] using h
    | some p =>
      simp only [hpe]
      exact groupsKeysOk_addToStoryGroup (parse_story_filename_shortcode hpe) h

lemma groupsKeysOk_collectFold (folderPath root : PathT) (moc mov : String) :
    ∀ (es : List (String × FSTree)) (gs : Groups), GroupsKeysOk gs →
    GroupsKeysOk (es.foldl
      (fun g e =>
        match e.2 with
        | .file _ =>
          match parse_story_filename e.1 with
          | some p => addToStoryGroup (folderPath ++ [e.1]) p root g moc mov "" ""
          | none => g
        | .dir _ => g) gs) := by
  intro es
  induction es with
  | nil => intro gs h; exact h
  | cons e rest ih =>
    intro gs h
    rw [List.foldl_cons]
    apply ih
    cases e.2 with
    | dir es2 => exact h
    | file b =>
      cases hpe : parse_story_filename e.1 with
      | none => simpa [hpe] using h
      | some p =>
        simp only [hpe]
        exact groupsKeysOk_addToStoryGroup (parse_story_filename_shortcode hpe) h

lemma groupsKeysOk_collectStoryFiles {folderPath : PathT} {t : FSTree} {root : PathT}
    {gs : Groups} {moc mov : String} (h : GroupsKeysOk gs) :
    GroupsKeysOk (collectStoryFiles folderPath t root gs moc mov) :=
  groupsKeysOk_collectFold folderPath root moc mov (sortEnts (dirEntries t)) gs h

lemma exWalkOk_bind {r : Except PErr WalkSt} {f : WalkSt → Except PErr WalkSt}
    (h1 : ExWalkOk r) (h2 : ∀ st, WalkOk st → ExWalkOk (f st)) : ExWalkOk (r.bind f) := by
  cases r with
  | error e => exact trivial
  | ok st => exact h2 st h1

lemma stepStoriesDir_ok (fu : Nat) (root cur : PathT) (dl ad : String)
    (sha8 : String → String) (recFn : String → FSTree → WalkSt → Except PErr WalkSt)
    (nm : String) (sub : FSTree) (st : WalkSt)
    (hrec : WalkOk st → ExWalkOk (recFn nm sub st))
    (h : WalkOk st) : ExWalkOk (stepStoriesDir fu root cur dl ad sha8 recFn nm sub st) := by
  unfold stepStoriesDir
  split
  · cases hb : buildPostItem fu cur nm sub dl ad "sat_daily" "stories" with
    | error e => exact trivial
    | ok r =>
      cases r with
      | none => exact h
      | some item =>
        show WalkOk _
        refine ⟨itemsOk_snoc h.1 ?_, h.2⟩
        rw [applyStoriesCtx_shortcode]
        exact buildPostItem_shortcode hb
  · split
    · cases hb : buildProfileItem fu cur nm sub dl ad "sat_daily" "stories" sha8 with
      | none => exact h
      | some item =>
        show WalkOk _
        exact ⟨itemsOk_snoc h.1 (buildProfileItem_shortcode hb), h.2⟩
    · split
      · cases hb : buildCommentThreadItem fu cur nm sub dl ad "sat_daily" "stories" sha8 with
        | none => exact h
        | some item =>
          show WalkOk _
          exact ⟨itemsOk_snoc h.1 (buildCommentThreadItem_shortcode hb), h.2⟩
      · split
        · split
          · show WalkOk _
            exact ⟨h.1, groupsKeysOk_collectStoryFiles h.2⟩
          · cases hb : buildNamedStoryItem fu cur nm sub dl ad "sat_daily" "stories" sha8 with
            | none => exact h
            | some item =>
              show WalkOk _
              refine ⟨itemsOk_snoc h.1 ?_, h.2⟩
              rw [applyStoriesCtx_shortcode]
              exact buildNamedStoryItem_shortcode hb
        · exact hrec h

lemma walkStoriesDirs_ok (fu : Nat) (root cur : PathT) (dl ad : String)
    (sha8 : String → String) (recFn : String → FSTree → WalkSt → Except PErr WalkSt)
    (hrec : ∀ nm sub st, WalkOk st → ExWalkOk (recFn nm sub st)) :
    ∀ (ds : List (String × FSTree)) (st : WalkSt), WalkOk st →
    ExWalkOk (walkStoriesDirs fu root cur dl ad sha8 recFn ds st) := by
  intro ds
  induction ds with
  | nil => intro st h; exact h
  | cons e rest ih =>
    intro st h
    obtain ⟨nm, sub⟩ := e
    rw [walkStoriesDirs]
    refine exWalkOk_bind ?_ (fun st1 h1 => ih st1 h1)
    exact stepStoriesDir_ok fu root cur dl ad sha8 recFn nm sub st (hrec nm sub st) h

lemma walkStoriesF_ok : ∀ (fu : Nat) (root cur : PathT) (t : FSTree) (dl ad : String)
    (sha8 : String → String) (st : WalkSt), WalkOk st →
    ExWalkOk (walkStoriesF fu root cur t dl ad sha8 st) := by
  intro fu
  induction fu with
  | zero => intro root cur t dl ad sha8 st h; exact h
  | succ fu ih =>
    intro root cur t dl ad sha8 st h
    cases t with
    | file b => exact h
    | dir entries =>
      simp only [walkStoriesF]
      refine exWalkOk_bind ?_ (fun st1 h1 => ⟨h1.1, groupsKeysOk_stageStoryFiles _ _ _ _ h1.2⟩)
      exact walkStoriesDirs_ok fu root cur dl ad sha8 _
        (fun nm sub st0 h0 => ih root (cur ++ [nm]) sub dl ad sha8 st0 h0) _ st h

lemma itemsOk_convertStoriesGroups {gs : Groups} (h : GroupsKeysOk gs)
    (ad dl : String) : ItemsOk (convertStoriesGroups gs ad dl) := by
  intro i hi
  simp only [convertStoriesGroups, List.mem_map] at hi
  obtain ⟨p, hp, rfl⟩ := hi
  have hk : p.1 ≠ "" := h.1 p.1 (List.mem_map_of_mem Prod.fst hp)
  split
  · rw [setColIfAttr_shortcode]
    exact hk
  · exact hk

lemma itemsOk_convertMoGroups {gs : Groups} (h : GroupsKeysOk gs)
    (ad dl : String) : ItemsOk (convertMoGroups gs ad dl) := by
  intro i hi
  simp only [convertMoGroups, List.mem_map] at hi
  obtain ⟨p, hp, rfl⟩ := hi
  have hk : p.1 ≠ "" := h.1 p.1 (List.mem_map_of_mem Prod.fst hp)
  split
  · rw [setColIfAttr_shortcode]
    exact hk
  · exact hk

lemma itemsOk_convertCategoriesGroups {gs : Groups} (h : GroupsKeysOk gs)
    (ad : String) : ItemsOk (convertCategoriesGroups gs ad) := by
  intro i hi
  simp only [convertCategoriesGroups, List.mem_map] at hi
  obtain ⟨p, hp, rfl⟩ := hi
  have hk : p.1 ≠ "" := h.1 p.1 (List.mem_map_of_mem Prod.fst hp)
  split
  · rw [setColIfAttr_shortcode]
    exact hk
  · exact hk

lemma itemsOk_convertResharesGroups {gs : Groups} (h : GroupsKeysOk gs)
    (ad : String) : ItemsOk (convertResharesGroups gs ad) := by
  intro i hi
  simp only [convertResharesGroups, List.mem_map] at hi
  obtain ⟨p, hp, rfl⟩ := hi
  have hk : p.1 ≠ "" := h.1 p.1 (List.mem_map_of_mem Prod.fst hp)
  split
  · rw [setColIfAttr_shortcode]
    exact hk
  · exact hk

lemma scanSatDailyStoriesF_ok (fu : Nat) (storiesPath : PathT) (t : FSTree)
    (dl ad : String) (sha8 : String → String) :
    ExItemsOk (scanSatDailyStoriesF fu storiesPath t dl ad sha8) := by
  unfold scanSatDailyStoriesF
  cases hw : walkStoriesF fu storiesPath storiesPath t dl ad sha8 {} with
  | error e => exact trivial
  | ok st =>
    have hst : WalkOk st := by
      have := walkStoriesF_ok fu storiesPath storiesPath t dl ad sha8 {}
        ⟨itemsOk_nil, groupsKeysOk_nil⟩
      rw [hw] at this
      exact this
    show ItemsOk _
    exact itemsOk_append hst.1 (itemsOk_convertStoriesGroups hst.2 ad dl)

lemma pvPostsLoop_ok (fu : Nat) (udPath : PathT) (dl ad : String) :
    ∀ (es : List (String × FSTree)) (acc : List ContentItem), ItemsOk acc →
    ExItemsOk (pvPostsLoop fu udPath dl ad es acc) := by
  intro es
  induction es with
  | nil => intro acc h; exact h
  | cons e rest ih =>
    intro acc h
    obtain ⟨nm, sub⟩ := e
    rw [pvPostsLoop]
    split
    · cases hb : buildPostItem fu udPath nm sub dl ad "sat_daily" "pv" with
      | error e2 => exact trivial
      | ok r =>
        cases r with
        | none => exact ih acc h
        | some item => exact ih _ (itemsOk_snoc h (buildPostItem_shortcode hb))
    · exact ih acc h

lemma pvUsersLoop_ok (fu : Nat) (pvPath : PathT) (dl ad : String) :
    ∀ (es : List (String × FSTree)) (acc : List ContentItem), ItemsOk acc →
    ExItemsOk (pvUsersLoop fu pvPath dl ad es acc) := by
  intro es
  induction es with
  | nil => intro acc h; exact h
  | cons e rest ih =>
    intro acc h
    obtain ⟨nm, sub⟩ := e
    rw [pvUsersLoop]
    split
    · cases hp : pvPostsLoop fu (pvPath ++ [nm]) dl ad (sortEnts (dirEntries sub)) acc with
      | error e2 => exact trivial
      | ok acc1 =>
        have h1 : ItemsOk acc1 := by
          have := pvPostsLoop_ok fu (pvPath ++ [nm]) dl ad (sortEnts (dirEntries sub)) acc h
          rw [hp] at this
          exact this
        exact ih acc1 h1
    · exact ih acc h

lemma scanSatDailyPvF_ok (fu : Nat) (pvPath : PathT) (t : FSTree) (dl ad : String) :
    ExItemsOk (scanSatDailyPvF fu pvPath t dl ad) :=
  pvUsersLoop_ok fu pvPath dl ad (sortEnts (dirEntries t)) [] itemsOk_nil

lemma applyMoColItemsOk {acc : List ContentItem} {item : ContentItem}
    (h : ItemsOk acc) (hi : item.shortcode ≠ "") (moc mov : String) :
    ItemsOk (acc ++ [applyMoCol item moc mov]) := by
  refine itemsOk_snoc h ?_
  rw [applyMoCol_shortcode]
  exact hi

lemma scanMoCatLoop_ok (fu : Nat) (catPath : PathT) (moc mov : String) (root : PathT)
    (dl ad ft cs : String) (sha8 : String → String) :
    ∀ (es : List (String × FSTree)) (items : List ContentItem) (gs : Groups),
    ItemsOk items → GroupsKeysOk gs →
    ExPairOk (scanMoCatLoop fu catPath moc mov root dl ad ft cs sha8 es (items, gs)) := by
  intro es
  induction es with
  | nil => intro items gs h1 h2; exact ⟨h1, h2⟩
  | cons e rest ih =>
    intro items gs h1 h2
    obtain ⟨nm, sub⟩ := e
    rw [scanMoCatLoop.eq_def]
    dsimp only []
    split
    · exact ih items gs h1 h2
    · cases sub with
      | dir entries2 =>
        dsimp only []
        split
        · cases hb : buildPostItem fu catPath nm (FSTree.dir entries2) dl ad ft cs with
          | error e2 => exact trivial
          | ok r =>
            cases r with
            | none => exact ih items gs h1 h2
            | some item =>
              exact ih _ gs (applyMoColItemsOk h1 (buildPostItem_shortcode hb) moc mov) h2
        · split
          · split
            · exact ih items _ h1 (groupsKeysOk_collectStoryFiles h2)
            · cases hb : buildNamedStoryItem fu catPath nm (FSTree.dir entries2) dl ad ft cs sha8 with
              | none => exact ih items gs h1 h2
              | some item =>
                exact ih _ gs (applyMoColItemsOk h1 (buildNamedStoryItem_shortcode hb) moc mov) h2
          · split
            · cases hb : buildProfileItem fu catPath nm (FSTree.dir entries2) dl ad ft cs sha8 with
              | none => exact ih items gs h1 h2
              | some item =>
                exact ih _ gs (applyMoColItemsOk h1 (buildProfileItem_shortcode hb) moc mov) h2
            · exact ih items gs h1 h2
      | file b =>
        cases hpf : parse_story_filename nm with
        | some p =>
          exact ih items _ h1
            (groupsKeysOk_addToStoryGroup (parse_story_filename_shortcode hpf) h2)
        | none => exact ih items gs h1 h2

lemma exItemsOk_bind {r : Except PErr (List ContentItem)}
    {f : List ContentItem → Except PErr (List ContentItem)}
    (h1 : ExItemsOk r) (h2 : ∀ l, ItemsOk l → ExItemsOk (f l)) : ExItemsOk (r.bind f) := by
  cases r with
  | error e => exact trivial
  | ok l => exact h2 l h1

lemma moCatsLoop_ok (fu : Nat) (typePath : PathT) (moc : String) (root : PathT)
    (dl ad : String) (sha8 : String → String) :
    ∀ (es : List (String × FSTree)) (items : List ContentItem) (gs : Groups),
    ItemsOk items → GroupsKeysOk gs →
    ExPairOk (moCatsLoop fu typePath moc root dl ad sha8 es (items, gs)) := by
  intro es
  induction es with
  | nil => intro items gs h1 h2; exact ⟨h1, h2⟩
  | cons e rest ih =>
    intro items gs h1 h2
    obtain ⟨nm, sub⟩ := e
    rw [moCatsLoop]
    split
    · cases hc : scanMoCatLoop fu (typePath ++ [nm]) moc nm root dl ad "sat_daily" "mo"
          sha8 (sortEnts (dirEntries sub)) (items, gs) with
      | error e2 => exact trivial
      | ok st1 =>
        obtain ⟨i1, g1⟩ := st1
        have hok := scanMoCatLoop_ok fu (typePath ++ [nm]) moc nm root dl ad "sat_daily"
          "mo" sha8 (sortEnts (dirEntries sub)) items gs h1 h2
        rw [hc] at hok
        exact ih i1 g1 hok.1 hok.2
    · exact ih items gs h1 h2

lemma moTypesLoop_ok (fu : Nat) (moPath : PathT) (root : PathT) (dl ad : String)
    (sha8 : String → String) :
    ∀ (es : List (String × FSTree)) (items : List ContentItem) (gs : Groups),
    ItemsOk items → GroupsKeysOk gs →
    ExPairOk (moTypesLoop fu moPath root dl ad sha8 es (items, gs)) := by
  intro es
  induction es with
  | nil => intro items gs h1 h2; exact ⟨h1, h2⟩
  | cons e rest ih =>
    intro items gs h1 h2
    obtain ⟨nm, sub⟩ := e
    rw [moTypesLoop]
    split
    · cases hc : moCatsLoop fu (moPath ++ [nm]) (mo_path_to_column nm) root dl ad sha8
          (sortEnts (dirEntries sub)) (items, gs) with
      | error e2 => exact trivial
      | ok st1 =>
        obtain ⟨i1, g1⟩ := st1
        have hok := moCatsLoop_ok fu (moPath ++ [nm]) (mo_path_to_column nm) root dl ad
          sha8 (sortEnts (dirEntries sub)) items gs h1 h2
        rw [hc] at hok
        exact ih i1 g1 hok.1 hok.2
    · exact ih items gs h1 h2

lemma scanSatDailyMoF_ok (fu : Nat) (moPath : PathT) (t : FSTree) (dl ad : String)
    (sha8 : String → String) : ExItemsOk (scanSatDailyMoF fu moPath t dl ad sha8) := by
  unfold scanSatDailyMoF
  cases hm : moTypesLoop fu moPath moPath dl ad sha8 (sortEnts (dirEntries t)) ([], []) with
  | error e => exact trivial
  | ok st =>
    obtain ⟨i1, g1⟩ := st
    have hok := moTypesLoop_ok fu moPath moPath dl ad sha8 (sortEnts (dirEntries t))
      [] [] itemsOk_nil groupsKeysOk_nil
    rw [hm] at hok
    show ItemsOk _
    exact itemsOk_append hok.1 (itemsOk_convertMoGroups hok.2 ad dl)

lemma scanSatDailyF_ok (fu : Nat) (srcName : String) (t : FSTree) (dl : String)
    (sha8 : String → String) (today : String) :
    ExItemsOk (scanSatDailyF fu srcName t dl sha8 today) := by
  unfold scanSatDailyF
  cases hf : findSatChecksEntry (dirEntries t) with
  | none => exact itemsOk_nil
  | some tr =>
    obtain ⟨scName, scTree, ini⟩ := tr
    dsimp only []
    refine exItemsOk_bind ?_ fun l1 h1 => exItemsOk_bind ?_ fun l2 h2 =>
      exItemsOk_bind ?_ fun l3 h3 => ?_
    · cases findChildDir scTree "Stories" with
      | some stT => exact scanSatDailyStoriesF_ok fu _ stT dl today sha8
      | none => exact itemsOk_nil
    · cases findChildDir scTree "P&V" with
      | some pvT => exact scanSatDailyPvF_ok fu _ pvT dl today
      | none => exact itemsOk_nil
    · cases (findChildDir scTree "Additional").bind (fun aT => findChildDir aT "MO") with
      | some moT => exact scanSatDailyMoF_ok fu _ moT dl today sha8
      | none => exact itemsOk_nil
    · exact itemsOk_append (itemsOk_append h1 h2) h3

lemma dmCatsLoop_ok (fu : Nat) (categoriesPath : PathT) (root : PathT) (ad : String)
    (sha8 : String → String) :
    ∀ (es : List (String × FSTree)) (items : List ContentItem) (gs : Groups),
    ItemsOk items → GroupsKeysOk gs →
    ExPairOk (dmCatsLoop fu categoriesPath root ad sha8 es (items, gs)) := by
  intro es
  induction es with
  | nil => intro items gs h1 h2; exact ⟨h1, h2⟩
  | cons e rest ih =>
    intro items gs h1 h2
    obtain ⟨nm, sub⟩ := e
    rw [dmCatsLoop]
    split
    · cases hc : scanMoCatLoop fu (categoriesPath ++ [nm]) "mo_pw" nm root "" ad
          "daily_mo" "categories" sha8 (sortEnts (dirEntries sub)) (items, gs) with
      | error e2 => exact trivial
      | ok st1 =>
        obtain ⟨i1, g1⟩ := st1
        have hok := scanMoCatLoop_ok fu (categoriesPath ++ [nm]) "mo_pw" nm root "" ad
          "daily_mo" "categories" sha8 (sortEnts (dirEntries sub)) items gs h1 h2
        rw [hc] at hok
        exact ih i1 g1 hok.1 hok.2
    · exact ih items gs h1 h2

lemma scanDailyMoCategoriesF_ok (fu : Nat) (categoriesPath : PathT) (t : FSTree)
    (ad : String) (sha8 : String → String) :
    ExItemsOk (scanDailyMoCategoriesF fu categoriesPath t ad sha8) := by
  unfold scanDailyMoCategoriesF
  cases hm : dmCatsLoop fu categoriesPath categoriesPath ad sha8
      (sortEnts (dirEntries t)) ([], []) with
  | error e => exact trivial
  | ok st =>
    obtain ⟨i1, g1⟩ := st
    have hok := dmCatsLoop_ok fu categoriesPath categoriesPath ad sha8
      (sortEnts (dirEntries t)) [] [] itemsOk_nil groupsKeysOk_nil
    rw [hm] at hok
    show ItemsOk _
    exact itemsOk_append hok.1 (itemsOk_convertCategoriesGroups hok.2 ad)

lemma applyReshareItemsOk {acc : List ContentItem} {item : ContentItem}
    (h : ItemsOk acc) (hi : item.shortcode ≠ "") (c u n : String) :
    ItemsOk (acc ++ [applyReshareFields item c u n]) := by
  refine itemsOk_snoc h ?_
  rw [applyReshareFields_shortcode]
  exact hi

lemma reshareUserPostsLoop_ok (fu : Nat) (udPath : PathT) (catName ru rn : String)
    (root : PathT) (ad : String) :
    ∀ (es : List (String × FSTree)) (items : List ContentItem) (gs : Groups),
    ItemsOk items → GroupsKeysOk gs →
    ExPairOk (reshareUserPostsLoop fu udPath catName ru rn root ad es (items, gs)) := by
  intro es
  induction es with
  | nil => intro items gs h1 h2; exact ⟨h1, h2⟩
  | cons e rest ih =>
    intro items gs h1 h2
    obtain ⟨nm, sub⟩ := e
    rw [reshareUserPostsLoop.eq_def]
    dsimp only []
    split
    · exact ih items gs h1 h2
    · split
      · cases hb : buildPostItem fu udPath nm sub "" ad "daily_mo" "reshares" with
        | error e2 => exact trivial
        | ok r =>
          cases r with
          | none => exact ih items gs h1 h2
          | some item =>
            exact ih _ gs (applyReshareItemsOk h1 (buildPostItem_shortcode hb) catName ru rn) h2
      · split
        · cases hpf : parse_story_filename nm with
          | some p =>
            exact ih items _ h1
              (groupsKeysOk_addToStoryGroup (parse_story_filename_shortcode hpf) h2)
          | none => exact ih items gs h1 h2
        · exact ih items gs h1 h2

lemma reshareCatLoop_ok (fu : Nat) (catPath : PathT) (catName ru rn : String)
    (root : PathT) (ad : String) :
    ∀ (es : List (String × FSTree)) (items : List ContentItem) (gs : Groups),
    ItemsOk items → GroupsKeysOk gs →
    ExPairOk (reshareCatLoop fu catPath catName ru rn root ad es (items, gs)) := by
  intro es
  induction es with
  | nil => intro items gs h1 h2; exact ⟨h1, h2⟩
  | cons e rest ih =>
    intro items gs h1 h2
    obtain ⟨nm, sub⟩ := e
    rw [reshareCatLoop.eq_def]
    dsimp only []
    split
    · exact ih items gs h1 h2
    · cases sub with
      | dir entries2 =>
        dsimp only []
        split
        · cases hb : buildPostItem fu catPath nm (FSTree.dir entries2) "" ad
              "daily_mo" "reshares" with
          | error e2 => exact trivial
          | ok r =>
            cases r with
            | none => exact ih items gs h1 h2
            | some item =>
              exact ih _ gs
                (applyReshareItemsOk h1 (buildPostItem_shortcode hb) catName ru rn) h2
        · cases hu : reshareUserPostsLoop fu (catPath ++ [nm]) catName ru rn root ad
              (sortEnts (dirEntries (FSTree.dir entries2))) (items, gs) with
          | error e2 => exact trivial
          | ok st1 =>
            obtain ⟨i1, g1⟩ := st1
            have hok := reshareUserPostsLoop_ok fu (catPath ++ [nm]) catName ru rn root ad
              (sortEnts (dirEntries (FSTree.dir entries2))) items gs h1 h2
            rw [hu] at hok
            exact ih i1 g1 hok.1 hok.2
      | file b =>
        dsimp only []
        cases hpf : parse_story_filename nm with
        | some p =>
          exact ih items _ h1
            (groupsKeysOk_addToStoryGroup (parse_story_filename_shortcode hpf) h2)
        | none => exact ih items gs h1 h2

lemma reshareDirCatsLoop_ok (fu : Nat) (rdPath : PathT) (ru rn : String) (root : PathT)
    (ad : String) :
    ∀ (es : List (String × FSTree)) (items : List ContentItem) (gs : Groups),
    ItemsOk items → GroupsKeysOk gs →
    ExPairOk (reshareDirCatsLoop fu rdPath ru rn root ad es (items, gs)) := by
  intro es
  induction es with
  | nil => intro items gs h1 h2; exact ⟨h1, h2⟩
  | cons e rest ih =>
    intro items gs h1 h2
    obtain ⟨nm, sub⟩ := e
    rw [reshareDirCatsLoop]
    split
    · cases hc : reshareCatLoop fu (rdPath ++ [nm]) nm ru rn root ad
          (sortEnts (dirEntries sub)) (items, gs) with
      | error e2 => exact trivial
      | ok st1 =>
        obtain ⟨i1, g1⟩ := st1
        have hok := reshareCatLoop_ok fu (rdPath ++ [nm]) nm ru rn root ad
          (sortEnts (dirEntries sub)) items gs h1 h2
        rw [hc] at hok
        exact ih i1 g1 hok.1 hok.2
    · exact ih items gs h1 h2

lemma resharesLoop_ok (fu : Nat) (resharesPath : PathT) (root : PathT) (ad : String) :
    ∀ (es : List (String × FSTree)) (items : List ContentItem) (gs : Groups),
    ItemsOk items → GroupsKeysOk gs →
    ExPairOk (resharesLoop fu resharesPath root ad es (items, gs)) := by
  intro es
  induction es with
  | nil => intro items gs h1 h2; exact ⟨h1, h2⟩
  | cons e rest ih =>
    intro items gs h1 h2
    obtain ⟨nm, sub⟩ := e
    rw [resharesLoop]
    split
    · dsimp only []
      cases hc : reshareDirCatsLoop fu (resharesPath ++ [nm])
          (match parse_reshare_folder nm with | some i => i.handle | none => "")
          (match parse_reshare_folder nm with | some i => i.full_name | none => "")
          root ad (sortEnts (dirEntries sub)) (items, gs) with
      | error e2 => exact trivial
      | ok st1 =>
        obtain ⟨i1, g1⟩ := st1
        have hok := reshareDirCatsLoop_ok fu (resharesPath ++ [nm])
          (match parse_reshare_folder nm with | some i => i.handle | none => "")
          (match parse_reshare_folder nm with | some i => i.full_name | none => "")
          root ad (sortEnts (dirEntries sub)) items gs h1 h2
        rw [hc] at hok
        exact ih i1 g1 hok.1 hok.2
    · exact ih items gs h1 h2

lemma scanDailyMoResharesF_ok (fu : Nat) (resharesPath : PathT) (t : FSTree)
    (ad : String) : ExItemsOk (scanDailyMoResharesF fu resharesPath t ad) := by
  unfold scanDailyMoResharesF
  cases hm : resharesLoop fu resharesPath resharesPath ad (sortEnts (dirEntries t))
      ([], []) with
  | error e => exact trivial
  | ok st =>
    obtain ⟨i1, g1⟩ := st
    have hok := resharesLoop_ok fu resharesPath resharesPath ad
      (sortEnts (dirEntries t)) [] [] itemsOk_nil groupsKeysOk_nil
    rw [hm] at hok
    show ItemsOk _
    exact itemsOk_append hok.1 (itemsOk_convertResharesGroups hok.2 ad)

lemma manualLoop_ok (fu : Nat) (manualPath : PathT) (ad : String)
    (sha8 : String → String) :
    ∀ (es : List (String × FSTree)) (acc : List ContentItem), ItemsOk acc →
    ItemsOk (manualLoop fu manualPath ad sha8 es acc) := by
  intro es
  induction es with
  | nil => intro acc h; exact h
  | cons e rest ih =>
    intro acc h
    obtain ⟨nm, sub⟩ := e
    rw [manualLoop]
    split
    · split
      · cases hb : buildNamedStoryItem fu manualPath nm sub "" ad "daily_mo" "manual" sha8 with
        | none => exact ih acc h
        | some item => exact ih _ (itemsOk_snoc h (buildNamedStoryItem_shortcode hb))
      · split
        · cases hpr : parse_reshare_folder nm with
          | some info =>
            cases hb : buildNamedStoryItem fu manualPath nm sub "" ad "daily_mo"
                "manual" sha8 with
            | none => exact ih acc h
            | some item =>
              refine ih _ (itemsOk_snoc h ?_)
              show item.shortcode ≠ ""
              exact buildNamedStoryItem_shortcode hb
          | none => exact ih acc h
        · exact ih acc h
    · exact ih acc h

lemma profileFilesLoop_ok (profilePath : PathT) (ad : String) (sha8 : String → String) :
    ∀ (es : List (String × FSTree)) (acc : List ContentItem), ItemsOk acc →
    ItemsOk (profileFilesLoop profilePath ad sha8 es acc) := by
  intro es
  induction es with
  | nil => intro acc h; exact h
  | cons e rest ih =>
    intro acc h
    obtain ⟨nm, sub⟩ := e
    rw [profileFilesLoop]
    split
    · cases hpp : parse_profile_file nm with
      | some parsed =>
        exact ih _ (itemsOk_snoc h (generate_pseudo_ne sha8 _ _ _))
      | none => exact ih acc h
    · exact ih acc h

lemma veFilesLoop_ok (vePath : PathT) (ad : String) (sha8 : String → String) :
    ∀ (es : List (String × FSTree)) (acc : List ContentItem), ItemsOk acc →
    ItemsOk (veFilesLoop vePath ad sha8 es acc) := by
  intro es
  induction es with
  | nil => intro acc h; exact h
  | cons e rest ih =>
    intro acc h
    obtain ⟨nm, sub⟩ := e
    rw [veFilesLoop]
    split
    · cases hpp : parse_ve_file nm with
      | some parsed =>
        exact ih _ (itemsOk_snoc h (generate_pseudo_ne sha8 _ _ _))
      | none => exact ih acc h
    · exact ih acc h

lemma scanDailyMoF_ok (fu : Nat) (srcPath : PathT) (t : FSTree)
    (sha8 : String → String) (today : String) :
    ExItemsOk (scanDailyMoF fu srcPath t sha8 today) := by
  unfold scanDailyMoF
  dsimp only []
  refine exItemsOk_bind ?_ fun l1 h1 => exItemsOk_bind ?_ fun l2 h2 => ?_
  · cases findChildDir t "Categories" with
    | some cT => exact scanDailyMoCategoriesF_ok fu _ cT today sha8
    | none => exact itemsOk_nil
  · cases findChildDir t "Reshares" with
    | some rT => exact scanDailyMoResharesF_ok fu _ rT today
    | none => exact itemsOk_nil
  · show ItemsOk _
    refine itemsOk_append (itemsOk_append (itemsOk_append (itemsOk_append h1 h2) ?_) ?_) ?_
    · cases findChildDir t "Manual" with
      | some mT => exact manualLoop_ok fu _ today sha8 _ [] itemsOk_nil
      | none => exact itemsOk_nil
    · cases findChildDir t "Profile" with
      | some pT => exact profileFilesLoop_ok _ today sha8 _ [] itemsOk_nil
      | none => exact itemsOk_nil
    · cases findChildDir t "VE" with
      | some vT => exact veFilesLoop_ok _ today sha8 _ [] itemsOk_nil
      | none => exact itemsOk_nil

lemma scan_folder_ok (fuel : Nat) (srcName : String) (t : FSTree)
    (sha8 : String → String) (today : String) :
    ExItemsOk (scan_folder fuel srcName t sha8 today) := by
  unfold scan_folder
  split
  · exact scanSatDailyF_ok fuel srcName t _ sha8 today
  · exact scanDailyMoF_ok fuel [srcName] t sha8 today
  · exact itemsOk_nil

/-- C1: corrected.  What does hold of `scan_folder`: every record of a
successful scan carries a non-empty shortcode, and inside one stories walk
the group dictionary merges staged files by shortcode, so its keys are
pairwise distinct.  (The full claim is false: two different sections, or a
folder item and a story group, can emit records with the same shortcode.) -/
theorem C1_amended :
    (∀ (fuel : Nat) (srcName : String) (t : FSTree) (sha8 : String → String)
       (today : String), ExItemsOk (scan_folder fuel srcName t sha8 today))
    ∧ (∀ (fuel : Nat) (root cur : PathT) (t : FSTree) (dl ad : String)
       (sha8 : String → String),
       match walkStoriesF fuel root cur t dl ad sha8 {} with
       | .ok st => (st.groups.map Prod.fst).Nodup
       | .error _ => True) := by
  refine ⟨fun fuel srcName t sha8 today => scan_folder_ok fuel srcName t sha8 today,
    fun fuel root cur t dl ad sha8 => ?_⟩
  have hx := walkStoriesF_ok fuel root cur t dl ad sha8 {} ⟨itemsOk_nil, groupsKeysOk_nil⟩
  cases hw : walkStoriesF fuel root cur t dl ad sha8 {} with
  | error e => exact trivial
  | ok st =>
    rw [hw] at hx
    exact hx.2.2

lemma eraseTs_setFieldByName (i : ContentItem) (c v : String) :
    (setFieldByName i c v).map eraseTs = setFieldByName (eraseTs i) c v := by
  unfold setFieldByName
  split <;> rfl

lemma eraseTs_setColIfAttr (i : ContentItem) (c v : String) :
    eraseTs (setColIfAttr i c v) = setColIfAttr (eraseTs i) c v := by
  unfold setColIfAttr
  rw [← eraseTs_setFieldByName]
  cases setFieldByName i c v <;> rfl

lemma eraseTs_applyStoriesCtx (root cur : PathT) (i : ContentItem) :
    eraseTs (applyStoriesCtx root cur i) = applyStoriesCtx root cur (eraseTs i) := by
  unfold applyStoriesCtx
  cases relPartsOf root cur with
  | none => rfl
  | some parts =>
    dsimp only []
    rw [apply_ite eraseTs, eraseTs_setColIfAttr]
    rfl

lemma eraseTs_applyMoCol (i : ContentItem) (c v : String) :
    eraseTs (applyMoCol i c v) = applyMoCol (eraseTs i) c v := by
  unfold applyMoCol
  rw [apply_ite eraseTs, eraseTs_setColIfAttr]

lemma eraseTs_applyReshareFields (i : ContentItem) (c u n : String) :
    eraseTs (applyReshareFields i c u n) = applyReshareFields (eraseTs i) c u n := rfl

lemma buildPostItem_erase (fu : Nat) (par : PathT) (nm : String) (t : FSTree)
    (dl ft cs ad1 ad2 : String) :
    (buildPostItem fu par nm t dl ad1 ft cs).map (Option.map eraseTs) =
    (buildPostItem fu par nm t dl ad2 ft cs).map (Option.map eraseTs) := by
  unfold buildPostItem
  cases hp : parse_post_folder nm with
  | none => rfl
  | some parsed =>
    dsimp only []
    cases hfm : (rglobAllF fu (par ++ [nm]) t).filter
        (fun e => strEndsWith e.2.1 "_metadata.json") with
    | nil => rfl
    | cons mf rest =>
      dsimp only []
      cases hpm : parse_metadata_json mf.2.2 with
      | error e => rfl
      | ok m => rfl

lemma buildProfileItem_erase (fu : Nat) (par : PathT) (nm : String) (t : FSTree)
    (dl ft cs ad1 ad2 : String) (sha8 : String → String) :
    (buildProfileItem fu par nm t dl ad1 ft cs sha8).map eraseTs =
    (buildProfileItem fu par nm t dl ad2 ft cs sha8).map eraseTs := by
  unfold buildProfileItem
  cases parse_profile_folder nm <;> rfl

lemma buildCommentThreadItem_erase (fu : Nat) (par : PathT) (nm : String) (t : FSTree)
    (dl ft cs ad1 ad2 : String) (sha8 : String → String) :
    (buildCommentThreadItem fu par nm t dl ad1 ft cs sha8).map eraseTs =
    (buildCommentThreadItem fu par nm t dl ad2 ft cs sha8).map eraseTs := by
  unfold buildCommentThreadItem
  cases parse_comment_folder nm <;> rfl

lemma buildNamedStoryItem_erase (fu : Nat) (par : PathT) (nm : String) (t : FSTree)
    (dl ft cs ad1 ad2 : String) (sha8 : String → String) :
    (buildNamedStoryItem fu par nm t dl ad1 ft cs sha8).map eraseTs =
    (buildNamedStoryItem fu par nm t dl ad2 ft cs sha8).map eraseTs := by
  unfold buildNamedStoryItem
  cases parse_named_story_folder nm <;> rfl

lemma optEq_of_mapErase {r1 r2 : Option ContentItem}
    (h : r1.map eraseTs = r2.map eraseTs) :
    (r1 = none ∧ r2 = none) ∨
      (∃ i1 i2, r1 = some i1 ∧ r2 = some i2 ∧ eraseTs i1 = eraseTs i2) := by
  cases r1 with
  | none =>
    cases r2 with
    | none => exact Or.inl ⟨rfl, rfl⟩
    | some i2 => simp at h
  | some i1 =>
    cases r2 with
    | none => simp at h
    | some i2 =>
      refine Or.inr ⟨i1, i2, rfl, rfl, ?_⟩
      simpa using h

lemma perr_eq (e1 e2 : PErr) : e1 = e2 := by cases e1; cases e2; rfl

lemma stepStoriesDir_erase (fu : Nat) (root cur : PathT) (dl ad1 ad2 : String)
    (sha8 : String → String)
    (recFn1 recFn2 : String → FSTree → WalkSt → Except PErr WalkSt)
    (nm : String) (sub : FSTree)
    (hrec : ∀ s1 s2, WEq s1 s2 → ExWEq (recFn1 nm sub s1) (recFn2 nm sub s2)) :
    ∀ s1 s2, WEq s1 s2 →
    ExWEq (stepStoriesDir fu root cur dl ad1 sha8 recFn1 nm sub s1)
      (stepStoriesDir fu root cur dl ad2 sha8 recFn2 nm sub s2) := by
  intro s1 s2 h
  unfold stepStoriesDir
  split
  · have hb := buildPostItem_erase fu cur nm sub dl "sat_daily" "stories" ad1 ad2
    cases hb1 : buildPostItem fu cur nm sub dl ad1 "sat_daily" "stories" with
    | error e1 =>
      cases hb2 : buildPostItem fu cur nm sub dl ad2 "sat_daily" "stories" with
      | error e2 => exact perr_eq e1 e2
      | ok r2 => rw [hb1, hb2] at hb; simp [Except.map] at hb
    | ok r1 =>
      cases hb2 : buildPostItem fu cur nm sub dl ad2 "sat_daily" "stories" with
      | error e2 => rw [hb1, hb2] at hb; simp [Except.map] at hb
      | ok r2 =>
        rw [hb1, hb2] at hb
        simp only [Except.map] at hb
        injection hb with hb
        rcases optEq_of_mapErase hb with ⟨hn1, hn2⟩ | ⟨i1, i2, hs1, hs2, hi⟩
        · subst hn1; subst hn2
          exact h
        · subst hs1; subst hs2
          show WEq _ _
          refine ⟨?_, h.2⟩
          rw [List.map_append, List.map_append, h.1, List.map_singleton,
            List.map_singleton, eraseTs_applyStoriesCtx, eraseTs_applyStoriesCtx, hi]
  · split
    · have hb := buildProfileItem_erase fu cur nm sub dl "sat_daily" "stories" ad1 ad2 sha8
      rcases optEq_of_mapErase hb with ⟨hn1, hn2⟩ | ⟨i1, i2, hs1, hs2, hi⟩
      · rw [hn1, hn2]
        exact h
      · rw [hs1, hs2]
        show WEq _ _
        refine ⟨?_, h.2⟩
        rw [List.map_append, List.map_append, h.1, List.map_singleton,
          List.map_singleton, hi]
    · split
      · have hb := buildCommentThreadItem_erase fu cur nm sub dl "sat_daily" "stories"
          ad1 ad2 sha8
        rcases optEq_of_mapErase hb with ⟨hn1, hn2⟩ | ⟨i1, i2, hs1, hs2, hi⟩
        · rw [hn1, hn2]
          exact h
        · rw [hs1, hs2]
          show WEq _ _
          refine ⟨?_, h.2⟩
          rw [List.map_append, List.map_append, h.1, List.map_singleton,
            List.map_singleton, hi]
      · split
        · split
          · show WEq _ _
            refine ⟨h.1, ?_⟩
            rw [h.2]
          · have hb := buildNamedStoryItem_erase fu cur nm sub dl "sat_daily" "stories"
              ad1 ad2 sha8
            rcases optEq_of_mapErase hb with ⟨hn1, hn2⟩ | ⟨i1, i2, hs1, hs2, hi⟩
            · rw [hn1, hn2]
              exact h
            · rw [hs1, hs2]
              show WEq _ _
              refine ⟨?_, h.2⟩
              rw [List.map_append, List.map_append, h.1, List.map_singleton,
                List.map_singleton, eraseTs_applyStoriesCtx, eraseTs_applyStoriesCtx, hi]
        · exact hrec s1 s2 h

lemma walkStoriesDirs_erase (fu : Nat) (root cur : PathT) (dl ad1 ad2 : String)
    (sha8 : String → String)
    (recFn1 recFn2 : String → FSTree → WalkSt → Except PErr WalkSt)
    (hrec : ∀ nm sub s1 s2, WEq s1 s2 → ExWEq (recFn1 nm sub s1) (recFn2 nm sub s2)) :
    ∀ (ds : List (String × FSTree)) (s1 s2 : WalkSt), WEq s1 s2 →
    ExWEq (walkStoriesDirs fu root cur dl ad1 sha8 recFn1 ds s1)
      (walkStoriesDirs fu root cur dl ad2 sha8 recFn2 ds s2) := by
  intro ds
  induction ds with
  | nil => intro s1 s2 h; exact h
  | cons e rest ih =>
    intro s1 s2 h
    obtain ⟨nm, sub⟩ := e
    rw [walkStoriesDirs, walkStoriesDirs]
    have hs := stepStoriesDir_erase fu root cur dl ad1 ad2 sha8 recFn1 recFn2 nm sub
      (hrec nm sub) s1 s2 h
    cases h1 : stepStoriesDir fu root cur dl ad1 sha8 recFn1 nm sub s1 with
    | error e1 =>
      cases h2 : stepStoriesDir fu root cur dl ad2 sha8 recFn2 nm sub s2 with
      | error e2 =>
        rw [h1, h2] at hs
        show ExWEq (Except.error e1) (Except.error e2)
        exact hs
      | ok t2 => rw [h1, h2] at hs; exact absurd hs (by intro hx; exact hx)
    | ok t1 =>
      cases h2 : stepStoriesDir fu root cur dl ad2 sha8 recFn2 nm sub s2 with
      | error e2 => rw [h1, h2] at hs; exact absurd hs (by intro hx; exact hx)
      | ok t2 =>
        rw [h1, h2] at hs
        exact ih t1 t2 hs

lemma walkStoriesF_erase : ∀ (fu : Nat) (root cur : PathT) (t : FSTree)
    (dl ad1 ad2 : String) (sha8 : String → String) (s1 s2 : WalkSt), WEq s1 s2 →
    ExWEq (walkStoriesF fu root cur t dl ad1 sha8 s1)
      (walkStoriesF fu root cur t dl ad2 sha8 s2) := by
  intro fu
  induction fu with
  | zero => intro root cur t dl ad1 ad2 sha8 s1 s2 h; exact h
  | succ fu ih =>
    intro root cur t dl ad1 ad2 sha8 s1 s2 h
    cases t with
    | file b => exact h
    | dir entries =>
      simp only [walkStoriesF]
      have hd := walkStoriesDirs_erase fu root cur dl ad1 ad2 sha8 _ _
        (fun nm sub t1 t2 ht => ih root (cur ++ [nm]) sub dl ad1 ad2 sha8 t1 t2 ht)
        (List.filter (fun e => !(strStartsWith e.1 ".") && e.2.isDirB) (sortEnts entries))
        s1 s2 h
      cases h1 : walkStoriesDirs fu root cur dl ad1 sha8
          (fun nm sub st0 => walkStoriesF fu root (cur ++ [nm]) sub dl ad1 sha8 st0)
          (List.filter (fun e => !(strStartsWith e.1 ".") && e.2.isDirB) (sortEnts entries))
          s1 with
      | error e1 =>
        cases h2 : walkStoriesDirs fu root cur dl ad2 sha8
            (fun nm sub st0 => walkStoriesF fu root (cur ++ [nm]) sub dl ad2 sha8 st0)
            (List.filter (fun e => !(strStartsWith e.1 ".") && e.2.isDirB) (sortEnts entries))
            s2 with
        | error e2 =>
          rw [h1, h2] at hd
          show ExWEq (Except.error e1) (Except.error e2)
          exact hd
        | ok t2 => rw [h1, h2] at hd; exact absurd hd (by intro hx; exact hx)
      | ok t1 =>
        cases h2 : walkStoriesDirs fu root cur dl ad2 sha8
            (fun nm sub st0 => walkStoriesF fu root (cur ++ [nm]) sub dl ad2 sha8 st0)
            (List.filter (fun e => !(strStartsWith e.1 ".") && e.2.isDirB) (sortEnts entries))
            s2 with
        | error e2 => rw [h1, h2] at hd; exact absurd hd (by intro hx; exact hx)
        | ok t2 =>
          rw [h1, h2] at hd
          show WEq _ _
          refine ⟨hd.1, ?_⟩
          show stageStoryFiles _ _ _ t1.groups = stageStoryFiles _ _ _ t2.groups
          rw [hd.2]

lemma exLEq_bind {r1 r2 : Except PErr (List ContentItem)}
    {f1 f2 : List ContentItem → Except PErr (List ContentItem)}
    (h : ExLEq r1 r2)
    (hf : ∀ l1 l2, l1.map eraseTs = l2.map eraseTs → ExLEq (f1 l1) (f2 l2)) :
    ExLEq (r1.bind f1) (r2.bind f2) := by
  cases r1 with
  | error e1 =>
    cases r2 with
    | error e2 => exact h
    | ok l2 => exact absurd h (fun hx => hx)
  | ok l1 =>
    cases r2 with
    | error e2 => exact absurd h (fun hx => hx)
    | ok l2 => exact hf l1 l2 h

lemma convertStoriesGroups_erase (gs : Groups) (ad1 ad2 dl : String) :
    (convertStoriesGroups gs ad1 dl).map eraseTs =
      (convertStoriesGroups gs ad2 dl).map eraseTs := by
  unfold convertStoriesGroups
  rw [List.map_map, List.map_map]
  apply List.map_congr_left
  intro p hp
  dsimp only [Function.comp]
  rw [apply_ite eraseTs, apply_ite eraseTs, eraseTs_setColIfAttr, eraseTs_setColIfAttr]
  rfl

lemma convertMoGroups_erase (gs : Groups) (ad1 ad2 dl : String) :
    (convertMoGroups gs ad1 dl).map eraseTs = (convertMoGroups gs ad2 dl).map eraseTs := by
  unfold convertMoGroups
  rw [List.map_map, List.map_map]
  apply List.map_congr_left
  intro p hp
  dsimp only [Function.comp]
  rw [apply_ite eraseTs, apply_ite eraseTs, eraseTs_setColIfAttr, eraseTs_setColIfAttr]
  rfl

lemma convertCategoriesGroups_erase (gs : Groups) (ad1 ad2 : String) :
    (convertCategoriesGroups gs ad1).map eraseTs =
      (convertCategoriesGroups gs ad2).map eraseTs := by
  unfold convertCategoriesGroups
  rw [List.map_map, List.map_map]
  apply List.map_congr_left
  intro p hp
  dsimp only [Function.comp]
  rw [apply_ite eraseTs, apply_ite eraseTs, eraseTs_setColIfAttr, eraseTs_setColIfAttr]
  rfl

lemma convertResharesGroups_erase (gs : Groups) (ad1 ad2 : String) :
    (convertResharesGroups gs ad1).map eraseTs =
      (convertResharesGroups gs ad2).map eraseTs := by
  unfold convertResharesGroups
  rw [List.map_map, List.map_map]
  apply List.map_congr_left
  intro p hp
  dsimp only [Function.comp]
  rw [apply_ite eraseTs, apply_ite eraseTs, eraseTs_setColIfAttr, eraseTs_setColIfAttr]
  rfl

lemma scanSatDailyStoriesF_erase (fu : Nat) (storiesPath : PathT) (t : FSTree)
    (dl ad1 ad2 : String) (sha8 : String → String) :
    ExLEq (scanSatDailyStoriesF fu storiesPath t dl ad1 sha8)
      (scanSatDailyStoriesF fu storiesPath t dl ad2 sha8) := by
  unfold scanSatDailyStoriesF
  have hw := walkStoriesF_erase fu storiesPath storiesPath t dl ad1 ad2 sha8 {} {}
    ⟨rfl, rfl⟩
  cases h1 : walkStoriesF fu storiesPath storiesPath t dl ad1 sha8 {} with
  | error e1 =>
    cases h2 : walkStoriesF fu storiesPath storiesPath t dl ad2 sha8 {} with
    | error e2 => exact perr_eq e1 e2
    | ok st2 => rw [h1, h2] at hw; exact absurd hw (fun hx => hx)
  | ok st1 =>
    cases h2 : walkStoriesF fu storiesPath storiesPath t dl ad2 sha8 {} with
    | error e2 => rw [h1, h2] at hw; exact absurd hw (fun hx => hx)
    | ok st2 =>
      rw [h1, h2] at hw
      show (st1.items ++ convertStoriesGroups st1.groups ad1 dl).map eraseTs =
        (st2.items ++ convertStoriesGroups st2.groups ad2 dl).map eraseTs
      rw [List.map_append, List.map_append, hw.1, hw.2, convertStoriesGroups_erase]

lemma pvPostsLoop_erase (fu : Nat) (udPath : PathT) (dl ad1 ad2 : String) :
    ∀ (es : List (String × FSTree)) (a1 a2 : List ContentItem),
    a1.map eraseTs = a2.map eraseTs →
    ExLEq (pvPostsLoop fu udPath dl ad1 es a1) (pvPostsLoop fu udPath dl ad2 es a2) := by
  intro es
  induction es with
  | nil => intro a1 a2 h; exact h
  | cons e rest ih =>
    intro a1 a2 h
    obtain ⟨nm, sub⟩ := e
    rw [pvPostsLoop, pvPostsLoop]
    split
    · have hb := buildPostItem_erase fu udPath nm sub dl "sat_daily" "pv" ad1 ad2
      cases hb1 : buildPostItem fu udPath nm sub dl ad1 "sat_daily" "pv" with
      | error e1 =>
        cases hb2 : buildPostItem fu udPath nm sub dl ad2 "sat_daily" "pv" with
        | error e2 => exact perr_eq e1 e2
        | ok r2 => rw [hb1, hb2] at hb; simp [Except.map] at hb
      | ok r1 =>
        cases hb2 : buildPostItem fu udPath nm sub dl ad2 "sat_daily" "pv" with
        | error e2 => rw [hb1, hb2] at hb; simp [Except.map] at hb
        | ok r2 =>
          rw [hb1, hb2] at hb
          simp only [Except.map] at hb
          injection hb with hb
          rcases optEq_of_mapErase hb with ⟨hn1, hn2⟩ | ⟨i1, i2, hs1, hs2, hi⟩
          · subst hn1; subst hn2
            exact ih a1 a2 h
          · subst hs1; subst hs2
            refine ih _ _ ?_
            rw [List.map_append, List.map_append, h, List.map_singleton,
              List.map_singleton, hi]
    · exact ih a1 a2 h

lemma pvUsersLoop_erase (fu : Nat) (pvPath : PathT) (dl ad1 ad2 : String) :
    ∀ (es : List (String × FSTree)) (a1 a2 : List ContentItem),
    a1.map eraseTs = a2.map eraseTs →
    ExLEq (pvUsersLoop fu pvPath dl ad1 es a1) (pvUsersLoop fu pvPath dl ad2 es a2) := by
  intro es
  induction es with
  | nil => intro a1 a2 h; exact h
  | cons e rest ih =>
    intro a1 a2 h
    obtain ⟨nm, sub⟩ := e
    rw [pvUsersLoop, pvUsersLoop]
    split
    · refine exLEq_bind ?_ (fun l1 l2 hl => ih l1 l2 hl)
      exact pvPostsLoop_erase fu (pvPath ++ [nm]) dl ad1 ad2
        (sortEnts (dirEntries sub)) a1 a2 h
    · exact ih a1 a2 h

lemma scanSatDailyPvF_erase (fu : Nat) (pvPath : PathT) (t : FSTree)
    (dl ad1 ad2 : String) :
    ExLEq (scanSatDailyPvF fu pvPath t dl ad1) (scanSatDailyPvF fu pvPath t dl ad2) :=
  pvUsersLoop_erase fu pvPath dl ad1 ad2 (sortEnts (dirEntries t)) [] [] rfl

lemma scanMoCatLoop_erase (fu : Nat) (catPath : PathT) (moc mov : String)
    (root : PathT) (dl ad1 ad2 ft cs : String) (sha8 : String → String) :
    ∀ (es : List (String × FSTree)) (i1 i2 : List ContentItem) (gs : Groups),
    i1.map eraseTs = i2.map eraseTs →
    ExPEq (scanMoCatLoop fu catPath moc mov root dl ad1 ft cs sha8 es (i1, gs))
      (scanMoCatLoop fu catPath moc mov root dl ad2 ft cs sha8 es (i2, gs)) := by
  intro es
  induction es with
  | nil => intro i1 i2 gs h; exact ⟨h, rfl⟩
  | cons e rest ih =>
    intro i1 i2 gs h
    obtain ⟨nm, sub⟩ := e
    rw [scanMoCatLoop.eq_def, scanMoCatLoop.eq_def]
    dsimp only []
    split
    · exact ih i1 i2 gs h
    · cases sub with
      | dir entries2 =>
        dsimp only []
        split
        · have hb := buildPostItem_erase fu catPath nm (FSTree.dir entries2) dl ft cs ad1 ad2
          cases hb1 : buildPostItem fu catPath nm (FSTree.dir entries2) dl ad1 ft cs with
          | error e1 =>
            cases hb2 : buildPostItem fu catPath nm (FSTree.dir entries2) dl ad2 ft cs with
            | error e2 => exact perr_eq e1 e2
            | ok r2 => rw [hb1, hb2] at hb; simp [Except.map] at hb
          | ok r1 =>
            cases hb2 : buildPostItem fu catPath nm (FSTree.dir entries2) dl ad2 ft cs with
            | error e2 => rw [hb1, hb2] at hb; simp [Except.map] at hb
            | ok r2 =>
              rw [hb1, hb2] at hb
              simp only [Except.map] at hb
              injection hb with hb
              rcases optEq_of_mapErase hb with ⟨hn1, hn2⟩ | ⟨j1, j2, hs1, hs2, hi⟩
              · subst hn1; subst hn2
                exact ih i1 i2 gs h
              · subst hs1; subst hs2
                refine ih _ _ gs ?_
                rw [List.map_append, List.map_append, h, List.map_singleton,
                  List.map_singleton, eraseTs_applyMoCol, eraseTs_applyMoCol, hi]
        · split
          · split
            · exact ih i1 i2 _ h
            · have hb := buildNamedStoryItem_erase fu catPath nm (FSTree.dir entries2)
                dl ft cs ad1 ad2 sha8
              rcases optEq_of_mapErase hb with ⟨hn1, hn2⟩ | ⟨j1, j2, hs1, hs2, hi⟩
              · rw [hn1, hn2]
                exact ih i1 i2 gs h
              · rw [hs1, hs2]
                refine ih _ _ gs ?_
                rw [List.map_append, List.map_append, h, List.map_singleton,
                  List.map_singleton, eraseTs_applyMoCol, eraseTs_applyMoCol, hi]
          · split
            · have hb := buildProfileItem_erase fu catPath nm (FSTree.dir entries2)
                dl ft cs ad1 ad2 sha8
              rcases optEq_of_mapErase hb with ⟨hn1, hn2⟩ | ⟨j1, j2, hs1, hs2, hi⟩
              · rw [hn1, hn2]
                exact ih i1 i2 gs h
              · rw [hs1, hs2]
                refine ih _ _ gs ?_
                rw [List.map_append, List.map_append, h, List.map_singleton,
                  List.map_singleton, eraseTs_applyMoCol, eraseTs_applyMoCol, hi]
            · exact ih i1 i2 gs h
      | file b =>
        dsimp only []
        cases hpf : parse_story_filename nm with
        | some p => exact ih i1 i2 _ h
        | none => exact ih i1 i2 gs h

lemma exPEq_bindLoop {r1 r2 : Except PErr (List ContentItem × Groups)}
    {f1 f2 : List ContentItem × Groups → Except PErr (List ContentItem × Groups)}
    (h : ExPEq r1 r2)
    (hf : ∀ i1 i2 gs, i1.map eraseTs = i2.map eraseTs →
      ExPEq (f1 (i1, gs)) (f2 (i2, gs))) :
    ExPEq (r1.bind f1) (r2.bind f2) := by
  cases r1 with
  | error e1 =>
    cases r2 with
    | error e2 => exact h
    | ok p2 => exact absurd h (fun hx => hx)
  | ok p1 =>
    cases r2 with
    | error e2 => exact absurd h (fun hx => hx)
    | ok p2 =>
      obtain ⟨i1, g1⟩ := p1
      obtain ⟨i2, g2⟩ := p2
      have hg : g1 = g2 := h.2
      subst hg
      exact hf i1 i2 g1 h.1

lemma moCatsLoop_erase (fu : Nat) (typePath : PathT) (moc : String) (root : PathT)
    (dl ad1 ad2 : String) (sha8 : String → String) :
    ∀ (es : List (String × FSTree)) (i1 i2 : List ContentItem) (gs : Groups),
    i1.map eraseTs = i2.map eraseTs →
    ExPEq (moCatsLoop fu typePath moc root dl ad1 sha8 es (i1, gs))
      (moCatsLoop fu typePath moc root dl ad2 sha8 es (i2, gs)) := by
  intro es
  induction es with
  | nil => intro i1 i2 gs h; exact ⟨h, rfl⟩
  | cons e rest ih =>
    intro i1 i2 gs h
    obtain ⟨nm, sub⟩ := e
    rw [moCatsLoop, moCatsLoop]
    split
    · refine exPEq_bindLoop ?_ (fun j1 j2 gs2 hj => ih j1 j2 gs2 hj)
      exact scanMoCatLoop_erase fu (typePath ++ [nm]) moc nm root dl ad1 ad2 "sat_daily"
        "mo" sha8 (sortEnts (dirEntries sub)) i1 i2 gs h
    · exact ih i1 i2 gs h

lemma moTypesLoop_erase (fu : Nat) (moPath : PathT) (root : PathT)
    (dl ad1 ad2 : String) (sha8 : String → String) :
    ∀ (es : List (String × FSTree)) (i1 i2 : List ContentItem) (gs : Groups),
    i1.map eraseTs = i2.map eraseTs →
    ExPEq (moTypesLoop fu moPath root dl ad1 sha8 es (i1, gs))
      (moTypesLoop fu moPath root dl ad2 sha8 es (i2, gs)) := by
  intro es
  induction es with
  | nil => intro i1 i2 gs h; exact ⟨h, rfl⟩
  | cons e rest ih =>
    intro i1 i2 gs h
    obtain ⟨nm, sub⟩ := e
    rw [moTypesLoop, moTypesLoop]
    split
    · refine exPEq_bindLoop ?_ (fun j1 j2 gs2 hj => ih j1 j2 gs2 hj)
      exact moCatsLoop_erase fu (moPath ++ [nm]) (mo_path_to_column nm) root dl ad1 ad2
        sha8 (sortEnts (dirEntries sub)) i1 i2 gs h
    · exact ih i1 i2 gs h

lemma scanSatDailyMoF_erase (fu : Nat) (moPath : PathT) (t : FSTree)
    (dl ad1 ad2 : String) (sha8 : String → String) :
    ExLEq (scanSatDailyMoF fu moPath t dl ad1 sha8)
      (scanSatDailyMoF fu moPath t dl ad2 sha8) := by
  unfold scanSatDailyMoF
  have hm := moTypesLoop_erase fu moPath moPath dl ad1 ad2 sha8
    (sortEnts (dirEntries t)) [] [] [] rfl
  cases h1 : moTypesLoop fu moPath moPath dl ad1 sha8 (sortEnts (dirEntries t))
      ([], []) with
  | error e1 =>
    cases h2 : moTypesLoop fu moPath moPath dl ad2 sha8 (sortEnts (dirEntries t))
        ([], []) with
    | error e2 => exact perr_eq e1 e2
    | ok p2 => rw [h1, h2] at hm; exact absurd hm (fun hx => hx)
  | ok p1 =>
    cases h2 : moTypesLoop fu moPath moPath dl ad2 sha8 (sortEnts (dirEntries t))
        ([], []) with
    | error e2 => rw [h1, h2] at hm; exact absurd hm (fun hx => hx)
    | ok p2 =>
      rw [h1, h2] at hm
      show (p1.1 ++ convertMoGroups p1.2 ad1 dl).map eraseTs =
        (p2.1 ++ convertMoGroups p2.2 ad2 dl).map eraseTs
      rw [List.map_append, List.map_append, hm.1, hm.2, convertMoGroups_erase]

lemma scanSatDailyF_erase (fu : Nat) (srcName : String) (t : FSTree) (dl : String)
    (sha8 : String → String) (d1 d2 : String) :
    ExLEq (scanSatDailyF fu srcName t dl sha8 d1) (scanSatDailyF fu srcName t dl sha8 d2) := by
  unfold scanSatDailyF
  cases hf : findSatChecksEntry (dirEntries t) with
  | none => rfl
  | some tr =>
    obtain ⟨scName, scTree, ini⟩ := tr
    dsimp only []
    refine exLEq_bind ?_ fun l1 l2 h1 => exLEq_bind ?_ fun l3 l4 h2 =>
      exLEq_bind ?_ fun l5 l6 h3 => ?_
    · cases findChildDir scTree "Stories" with
      | some stT => exact scanSatDailyStoriesF_erase fu _ stT dl d1 d2 sha8
      | none => rfl
    · cases findChildDir scTree "P&V" with
      | some pvT => exact scanSatDailyPvF_erase fu _ pvT dl d1 d2
      | none => rfl
    · cases (findChildDir scTree "Additional").bind (fun aT => findChildDir aT "MO") with
      | some moT => exact scanSatDailyMoF_erase fu _ moT dl d1 d2 sha8
      | none => rfl
    · show (l1 ++ l3 ++ l5).map eraseTs = (l2 ++ l4 ++ l6).map eraseTs
      rw [List.map_append, List.map_append, List.map_append, List.map_append, h1, h2, h3]

lemma dmCatsLoop_erase (fu : Nat) (categoriesPath : PathT) (root : PathT)
    (ad1 ad2 : String) (sha8 : String → String) :
    ∀ (es : List (String × FSTree)) (i1 i2 : List ContentItem) (gs : Groups),
    i1.map eraseTs = i2.map eraseTs →
    ExPEq (dmCatsLoop fu categoriesPath root ad1 sha8 es (i1, gs))
      (dmCatsLoop fu categoriesPath root ad2 sha8 es (i2, gs)) := by
  intro es
  induction es with
  | nil => intro i1 i2 gs h; exact ⟨h, rfl⟩
  | cons e rest ih =>
    intro i1 i2 gs h
    obtain ⟨nm, sub⟩ := e
    rw [dmCatsLoop, dmCatsLoop]
    split
    · refine exPEq_bindLoop ?_ (fun j1 j2 gs2 hj => ih j1 j2 gs2 hj)
      exact scanMoCatLoop_erase fu (categoriesPath ++ [nm]) "mo_pw" nm root "" ad1 ad2
        "daily_mo" "categories" sha8 (sortEnts (dirEntries sub)) i1 i2 gs h
    · exact ih i1 i2 gs h

lemma scanDailyMoCategoriesF_erase (fu : Nat) (categoriesPath : PathT) (t : FSTree)
    (ad1 ad2 : String) (sha8 : String → String) :
    ExLEq (scanDailyMoCategoriesF fu categoriesPath t ad1 sha8)
      (scanDailyMoCategoriesF fu categoriesPath t ad2 sha8) := by
  unfold scanDailyMoCategoriesF
  have hm := dmCatsLoop_erase fu categoriesPath categoriesPath ad1 ad2 sha8
    (sortEnts (dirEntries t)) [] [] [] rfl
  cases h1 : dmCatsLoop fu categoriesPath categoriesPath ad1 sha8
      (sortEnts (dirEntries t)) ([], []) with
  | error e1 =>
    cases h2 : dmCatsLoop fu categoriesPath categoriesPath ad2 sha8
        (sortEnts (dirEntries t)) ([], []) with
    | error e2 => exact perr_eq e1 e2
    | ok p2 => rw [h1, h2] at hm; exact absurd hm (fun hx => hx)
  | ok p1 =>
    cases h2 : dmCatsLoop fu categoriesPath categoriesPath ad2 sha8
        (sortEnts (dirEntries t)) ([], []) with
    | error e2 => rw [h1, h2] at hm; exact absurd hm (fun hx => hx)
    | ok p2 =>
      rw [h1, h2] at hm
      show (p1.1 ++ convertCategoriesGroups p1.2 ad1).map eraseTs =
        (p2.1 ++ convertCategoriesGroups p2.2 ad2).map eraseTs
      rw [List.map_append, List.map_append, hm.1, hm.2, convertCategoriesGroups_erase]

lemma reshareUserPostsLoop_erase (fu : Nat) (udPath : PathT) (catName ru rn : String)
    (root : PathT) (ad1 ad2 : String) :
    ∀ (es : List (String × FSTree)) (i1 i2 : List ContentItem) (gs : Groups),
    i1.map eraseTs = i2.map eraseTs →
    ExPEq (reshareUserPostsLoop fu udPath catName ru rn root ad1 es (i1, gs))
      (reshareUserPostsLoop fu udPath catName ru rn root ad2 es (i2, gs)) := by
  intro es
  induction es with
  | nil => intro i1 i2 gs h; exact ⟨h, rfl⟩
  | cons e rest ih =>
    intro i1 i2 gs h
    obtain ⟨nm, sub⟩ := e
    rw [reshareUserPostsLoop.eq_def, reshareUserPostsLoop.eq_def]
    dsimp only []
    split
    · exact ih i1 i2 gs h
    · split
      · have hb := buildPostItem_erase fu udPath nm sub "" "daily_mo" "reshares" ad1 ad2
        cases hb1 : buildPostItem fu udPath nm sub "" ad1 "daily_mo" "reshares" with
        | error e1 =>
          cases hb2 : buildPostItem fu udPath nm sub "" ad2 "daily_mo" "reshares" with
          | error e2 => exact perr_eq e1 e2
          | ok r2 => rw [hb1, hb2] at hb; simp [Except.map] at hb
        | ok r1 =>
          cases hb2 : buildPostItem fu udPath nm sub "" ad2 "daily_mo" "reshares" with
          | error e2 => rw [hb1, hb2] at hb; simp [Except.map] at hb
          | ok r2 =>
            rw [hb1, hb2] at hb
            simp only [Except.map] at hb
            injection hb with hb
            rcases optEq_of_mapErase hb with ⟨hn1, hn2⟩ | ⟨j1, j2, hs1, hs2, hi⟩
            · subst hn1; subst hn2
              exact ih i1 i2 gs h
            · subst hs1; subst hs2
              refine ih _ _ gs ?_
              rw [List.map_append, List.map_append, h, List.map_singleton,
                List.map_singleton, eraseTs_applyReshareFields,
                eraseTs_applyReshareFields, hi]
      · split
        · cases hpf : parse_story_filename nm with
          | some p => exact ih i1 i2 _ h
          | none => exact ih i1 i2 gs h
        · exact ih i1 i2 gs h

lemma reshareCatLoop_erase (fu : Nat) (catPath : PathT) (catName ru rn : String)
    (root : PathT) (ad1 ad2 : String) :
    ∀ (es : List (String × FSTree)) (i1 i2 : List ContentItem) (gs : Groups),
    i1.map eraseTs = i2.map eraseTs →
    ExPEq (reshareCatLoop fu catPath catName ru rn root ad1 es (i1, gs))
      (reshareCatLoop fu catPath catName ru rn root ad2 es (i2, gs)) := by
  intro es
  induction es with
  | nil => intro i1 i2 gs h; exact ⟨h, rfl⟩
  | cons e rest ih =>
    intro i1 i2 gs h
    obtain ⟨nm, sub⟩ := e
    rw [reshareCatLoop.eq_def, reshareCatLoop.eq_def]
    dsimp only []
    split
    · exact ih i1 i2 gs h
    · cases sub with
      | dir entries2 =>
        dsimp only []
        split
        · have hb := buildPostItem_erase fu catPath nm (FSTree.dir entries2) ""
            "daily_mo" "reshares" ad1 ad2
          cases hb1 : buildPostItem fu catPath nm (FSTree.dir entries2) "" ad1
              "daily_mo" "reshares" with
          | error e1 =>
            cases hb2 : buildPostItem fu catPath nm (FSTree.dir entries2) "" ad2
                "daily_mo" "reshares" with
            | error e2 => exact perr_eq e1 e2
            | ok r2 => rw [hb1, hb2] at hb; simp [Except.map] at hb
          | ok r1 =>
            cases hb2 : buildPostItem fu catPath nm (FSTree.dir entries2) "" ad2
                "daily_mo" "reshares" with
            | error e2 => rw [hb1, hb2] at hb; simp [Except.map] at hb
            | ok r2 =>
              rw [hb1, hb2] at hb
              simp only [Except.map] at hb
              injection hb with hb
              rcases optEq_of_mapErase hb with ⟨hn1, hn2⟩ | ⟨j1, j2, hs1, hs2, hi⟩
              · subst hn1; subst hn2
                exact ih i1 i2 gs h
              · subst hs1; subst hs2
                refine ih _ _ gs ?_
                rw [List.map_append, List.map_append, h, List.map_singleton,
                  List.map_singleton, eraseTs_applyReshareFields,
                  eraseTs_applyReshareFields, hi]
        · refine exPEq_bindLoop ?_ (fun j1 j2 gs2 hj => ih j1 j2 gs2 hj)
          exact reshareUserPostsLoop_erase fu (catPath ++ [nm]) catName ru rn root ad1 ad2
            (sortEnts (dirEntries (FSTree.dir entries2))) i1 i2 gs h
      | file b =>
        dsimp only []
        cases hpf : parse_story_filename nm with
        | some p => exact ih i1 i2 _ h
        | none => exact ih i1 i2 gs h

lemma reshareDirCatsLoop_erase (fu : Nat) (rdPath : PathT) (ru rn : String)
    (root : PathT) (ad1 ad2 : String) :
    ∀ (es : List (String × FSTree)) (i1 i2 : List ContentItem) (gs : Groups),
    i1.map eraseTs = i2.map eraseTs →
    ExPEq (reshareDirCatsLoop fu rdPath ru rn root ad1 es (i1, gs))
      (reshareDirCatsLoop fu rdPath ru rn root ad2 es (i2, gs)) := by
  intro es
  induction es with
  | nil => intro i1 i2 gs h; exact ⟨h, rfl⟩
  | cons e rest ih =>
    intro i1 i2 gs h
    obtain ⟨nm, sub⟩ := e
    rw [reshareDirCatsLoop, reshareDirCatsLoop]
    split
    · refine exPEq_bindLoop ?_ (fun j1 j2 gs2 hj => ih j1 j2 gs2 hj)
      exact reshareCatLoop_erase fu (rdPath ++ [nm]) nm ru rn root ad1 ad2
        (sortEnts (dirEntries sub)) i1 i2 gs h
    · exact ih i1 i2 gs h

lemma resharesLoop_erase (fu : Nat) (resharesPath : PathT) (root : PathT)
    (ad1 ad2 : String) :
    ∀ (es : List (String × FSTree)) (i1 i2 : List ContentItem) (gs : Groups),
    i1.map eraseTs = i2.map eraseTs →
    ExPEq (resharesLoop fu resharesPath root ad1 es (i1, gs))
      (resharesLoop fu resharesPath root ad2 es (i2, gs)) := by
  intro es
  induction es with
  | nil => intro i1 i2 gs h; exact ⟨h, rfl⟩
  | cons e rest ih =>
    intro i1 i2 gs h
    obtain ⟨nm, sub⟩ := e
    rw [resharesLoop, resharesLoop]
    split
    · dsimp only []
      refine exPEq_bindLoop ?_ (fun j1 j2 gs2 hj => ih j1 j2 gs2 hj)
      exact reshareDirCatsLoop_erase fu (resharesPath ++ [nm]) _ _ root ad1 ad2
        (sortEnts (dirEntries sub)) i1 i2 gs h
    · exact ih i1 i2 gs h

lemma scanDailyMoResharesF_erase (fu : Nat) (resharesPath : PathT) (t : FSTree)
    (ad1 ad2 : String) :
    ExLEq (scanDailyMoResharesF fu resharesPath t ad1)
      (scanDailyMoResharesF fu resharesPath t ad2) := by
  unfold scanDailyMoResharesF
  have hm := resharesLoop_erase fu resharesPath resharesPath ad1 ad2
    (sortEnts (dirEntries t)) [] [] [] rfl
  cases h1 : resharesLoop fu resharesPath resharesPath ad1 (sortEnts (dirEntries t))
      ([], []) with
  | error e1 =>
    cases h2 : resharesLoop fu resharesPath resharesPath ad2 (sortEnts (dirEntries t))
        ([], []) with
    | error e2 => exact perr_eq e1 e2
    | ok p2 => rw [h1, h2] at hm; exact absurd hm (fun hx => hx)
  | ok p1 =>
    cases h2 : resharesLoop fu resharesPath resharesPath ad2 (sortEnts (dirEntries t))
        ([], []) with
    | error e2 => rw [h1, h2] at hm; exact absurd hm (fun hx => hx)
    | ok p2 =>
      rw [h1, h2] at hm
      show (p1.1 ++ convertResharesGroups p1.2 ad1).map eraseTs =
        (p2.1 ++ convertResharesGroups p2.2 ad2).map eraseTs
      rw [List.map_append, List.map_append, hm.1, hm.2, convertResharesGroups_erase]

lemma manualLoop_erase (fu : Nat) (manualPath : PathT) (ad1 ad2 : String)
    (sha8 : String → String) :
    ∀ (es : List (String × FSTree)) (a1 a2 : List ContentItem),
    a1.map eraseTs = a2.map eraseTs →
    (manualLoop fu manualPath ad1 sha8 es a1).map eraseTs =
      (manualLoop fu manualPath ad2 sha8 es a2).map eraseTs := by
  intro es
  induction es with
  | nil => intro a1 a2 h; exact h
  | cons e rest ih =>
    intro a1 a2 h
    obtain ⟨nm, sub⟩ := e
    rw [manualLoop, manualLoop]
    split
    · split
      · have hb := buildNamedStoryItem_erase fu manualPath nm sub "" "daily_mo"
          "manual" ad1 ad2 sha8
        rcases optEq_of_mapErase hb with ⟨hn1, hn2⟩ | ⟨j1, j2, hs1, hs2, hi⟩
        · rw [hn1, hn2]
          exact ih a1 a2 h
        · rw [hs1, hs2]
          refine ih _ _ ?_
          rw [List.map_append, List.map_append, h, List.map_singleton,
            List.map_singleton, hi]
      · split
        · cases hpr : parse_reshare_folder nm with
          | some info =>
            have hb := buildNamedStoryItem_erase fu manualPath nm sub "" "daily_mo"
              "manual" ad1 ad2 sha8
            rcases optEq_of_mapErase hb with ⟨hn1, hn2⟩ | ⟨j1, j2, hs1, hs2, hi⟩
            · rw [hn1, hn2]
              exact ih a1 a2 h
            · rw [hs1, hs2]
              refine ih _ _ ?_
              rw [List.map_append, List.map_append, h, List.map_singleton,
                List.map_singleton]
              have hupd := congrArg (fun z : ContentItem =>
                { z with resharer_username := info.handle,
                         resharer_name := info.full_name,
                         sheet_categories := "Reshare" }) hi
              exact congrArg (fun w => a2.map eraseTs ++ [w]) hupd
          | none => exact ih a1 a2 h
        · exact ih a1 a2 h
    · exact ih a1 a2 h

lemma profileFilesLoop_erase (profilePath : PathT) (ad1 ad2 : String)
    (sha8 : String → String) :
    ∀ (es : List (String × FSTree)) (a1 a2 : List ContentItem),
    a1.map eraseTs = a2.map eraseTs →
    (profileFilesLoop profilePath ad1 sha8 es a1).map eraseTs =
      (profileFilesLoop profilePath ad2 sha8 es a2).map eraseTs := by
  intro es
  induction es with
  | nil => intro a1 a2 h; exact h
  | cons e rest ih =>
    intro a1 a2 h
    obtain ⟨nm, sub⟩ := e
    rw [profileFilesLoop, profileFilesLoop]
    split
    · cases hpp : parse_profile_file nm with
      | some parsed =>
        refine ih _ _ ?_
        rw [List.map_append, List.map_append, h, List.map_singleton, List.map_singleton]
        rfl
      | none => exact ih a1 a2 h
    · exact ih a1 a2 h

lemma veFilesLoop_erase (vePath : PathT) (ad1 ad2 : String) (sha8 : String → String) :
    ∀ (es : List (String × FSTree)) (a1 a2 : List ContentItem),
    a1.map eraseTs = a2.map eraseTs →
    (veFilesLoop vePath ad1 sha8 es a1).map eraseTs =
      (veFilesLoop vePath ad2 sha8 es a2).map eraseTs := by
  intro es
  induction es with
  | nil => intro a1 a2 h; exact h
  | cons e rest ih =>
    intro a1 a2 h
    obtain ⟨nm, sub⟩ := e
    rw [veFilesLoop, veFilesLoop]
    split
    · cases hpp : parse_ve_file nm with
      | some parsed =>
        refine ih _ _ ?_
        rw [List.map_append, List.map_append, h, List.map_singleton, List.map_singleton]
        rfl
      | none => exact ih a1 a2 h
    · exact ih a1 a2 h

lemma scanDailyMoF_erase (fu : Nat) (srcPath : PathT) (t : FSTree)
    (sha8 : String → String) (d1 d2 : String) :
    ExLEq (scanDailyMoF fu srcPath t sha8 d1) (scanDailyMoF fu srcPath t sha8 d2) := by
  unfold scanDailyMoF
  dsimp only []
  refine exLEq_bind ?_ fun l1 l2 h1 => exLEq_bind ?_ fun l3 l4 h2 => ?_
  · cases findChildDir t "Categories" with
    | some cT => exact scanDailyMoCategoriesF_erase fu _ cT d1 d2 sha8
    | none => rfl
  · cases findChildDir t "Reshares" with
    | some rT => exact scanDailyMoResharesF_erase fu _ rT d1 d2
    | none => rfl
  · have hman : (match findChildDir t "Manual" with
        | some mT => scanDailyMoManualF fu (srcPath ++ ["Manual"]) mT d1 sha8
        | none => []).map eraseTs =
        (match findChildDir t "Manual" with
        | some mT => scanDailyMoManualF fu (srcPath ++ ["Manual"]) mT d2 sha8
        | none => []).map eraseTs := by
      cases findChildDir t "Manual" with
      | some mT => exact manualLoop_erase fu _ d1 d2 sha8 _ [] [] rfl
      | none => rfl
    have hprof : (match findChildDir t "Profile" with
        | some pT => scanDailyMoProfileF (srcPath ++ ["Profile"]) pT d1 sha8
        | none => []).map eraseTs =
        (match findChildDir t "Profile" with
        | some pT => scanDailyMoProfileF (srcPath ++ ["Profile"]) pT d2 sha8
        | none => []).map eraseTs := by
      cases findChildDir t "Profile" with
      | some pT => exact profileFilesLoop_erase _ d1 d2 sha8 _ [] [] rfl
      | none => rfl
    have hve : (match findChildDir t "VE" with
        | some vT => scanDailyMoVeF (srcPath ++ ["VE"]) vT d1 sha8
        | none => []).map eraseTs =
        (match findChildDir t "VE" with
        | some vT => scanDailyMoVeF (srcPath ++ ["VE"]) vT d2 sha8
        | none => []).map eraseTs := by
      cases findChildDir t "VE" with
      | some vT => exact veFilesLoop_erase _ d1 d2 sha8 _ [] [] rfl
      | none => rfl
    show (l1 ++ l3 ++ _ ++ _ ++ _).map eraseTs = (l2 ++ l4 ++ _ ++ _ ++ _).map eraseTs
    rw [List.map_append, List.map_append, List.map_append, List.map_append,
      List.map_append, List.map_append, List.map_append, List.map_append,
      h1, h2, hman, hprof, hve]

lemma scan_folder_erase (fuel : Nat) (srcName : String) (t : FSTree)
    (sha8 : String → String) (d1 d2 : String) :
    ExLEq (scan_folder fuel srcName t sha8 d1) (scan_folder fuel srcName t sha8 d2) := by
  unfold scan_folder
  split
  · exact scanSatDailyF_erase fuel srcName t _ sha8 d1 d2
  · exact scanDailyMoF_erase fuel [srcName] t sha8 d1 d2
  · rfl

/-- C5: determinism of the scan.  The embedded scan is a pure function of
the tree, so run-to-run equality given the same tree is definitional.  The
wall-clock input `today` feeds only the scanned-at stamp: two scans of the
same tree at different wall-clock dates agree record-for-record once that
stamp is blanked, and the pseudo-identifier is the stated pure function of
handle, date and folder name under the supplied hash. -/
theorem C5_determinism :
    (∀ (fuel : Nat) (srcName : String) (t : FSTree) (sha8 : String → String)
       (d1 d2 : String),
       (scan_folder fuel srcName t sha8 d1).map (List.map eraseTs) =
       (scan_folder fuel srcName t sha8 d2).map (List.map eraseTs))
    ∧ (∀ (sha8 : String → String) (h d n : String),
       generate_pseudo_shortcode sha8 h d n = "NOID_" ++ h ++ "_" ++ d ++ "_" ++ sha8 n) := by
  constructor
  · intro fuel srcName t sha8 d1 d2
    have hs := scan_folder_erase fuel srcName t sha8 d1 d2
    cases h1 : scan_folder fuel srcName t sha8 d1 with
    | error e1 =>
      cases h2 : scan_folder fuel srcName t sha8 d2 with
      | error e2 => cases e1; cases e2; rfl
      | ok l2 => rw [h1, h2] at hs; exact absurd hs (fun hx => hx)
    | ok l1 =>
      cases h2 : scan_folder fuel srcName t sha8 d2 with
      | error e2 => rw [h1, h2] at hs; exact absurd hs (fun hx => hx)
      | ok l2 =>
        rw [h1, h2] at hs
        have he : l1.map eraseTs = l2.map eraseTs := hs
        simp only [Except.map]
        rw [he]
  · intro sha8 h d n
    rfl
